import Mathlib

/-! # fart-it: matching engine, configuration and argument parser

A shallow embedding of `text_processor.cpp`, `fart_config.hpp`,
`argument_parser.cpp` and `file_processor.cpp`, followed by theorems about
them.

Conventions of the embedding
* a `std::string` is a list of bytes, each byte a natural number (`Str`);
  the character classification functions are those of the "C" locale, in
  which only the ASCII letters have a case;
* `size_t` positions and lengths are natural numbers; the only subtraction
  on them (`match.position - last_pos` in `processLine`) is shown never to go
  below zero (`FartIt.matchesFrom_findMatches`);
* the `int` counters (`match_count`, `upper_count`, `lower_count`) count bytes
  or matches of one string and are natural numbers: the conversion from the
  vector size is the identity for strings below 2^31 bytes;
* `std::string::npos` is `none`;
* loops whose cursor jumps are run with a fuel equal to the number of
  iterations the cursor allows; `FartIt.findMatchesLoop_fuel` and
  `FartIt.expandLoop_fuel` show that more fuel never changes the result, so
  the loops always exit before the fuel is used up;
* the text processor and the argument parser have no state but their
  arguments; the file processor runs on a `Run`, which holds the file system,
  the statistics and the standard streams;
* the recursion of `processDirectory` is bounded by a depth, and a run whose
  directories nest deeper gives `none`; `FartIt.processDirectory_depth` shows
  that a larger bound never changes a result.
-/

namespace FartIt

/-- A `std::string`: a sequence of bytes. -/
abbrev Str := List Nat

/-- The bytes of a string literal. -/
def bytes (s : String) : Str := s.toList.map Char.toNat

/-! ## The C library, "C" locale -/

/-- Embeds `std::isupper` -/
def isupper (c : Nat) : Bool := decide (65 ≤ c) && decide (c ≤ 90)

/-- Embeds `std::islower` -/
def islower (c : Nat) : Bool := decide (97 ≤ c) && decide (c ≤ 122)

/-- Embeds `std::isdigit` -/
def isdigit (c : Nat) : Bool := decide (48 ≤ c) && decide (c ≤ 57)

/-- Embeds `std::isalpha` -/
def isalpha (c : Nat) : Bool := isupper c || islower c

/-- Embeds `std::isalnum` -/
def isalnum (c : Nat) : Bool := isalpha c || isdigit c

/-- Embeds `std::isspace` -/
def isspace (c : Nat) : Bool := c == 32 || (decide (9 ≤ c) && decide (c ≤ 13))

/-- Embeds `::tolower` -/
def tolower (c : Nat) : Nat := if isupper c then c + 32 else c

/-- Embeds `::toupper` -/
def toupper (c : Nat) : Nat := if islower c then c - 32 else c

/-- Embeds `std::string::substr(pos, n)`: at most `n` bytes starting at `pos`.
The C++ function throws when `pos > size()`; every call site below has
`pos ≤ size()`. -/
def substr (s : Str) (pos n : Nat) : Str := (s.drop pos).take n

/-- Embeds `std::string::substr(pos)`: everything from `pos` on. -/
def substrFrom (s : Str) (pos : Nat) : Str := s.drop pos

/-- Scan of `std::string::find`: the first offset, counted from `q`, at which
`p` starts in the remaining text. -/
def findIn (p : Str) : Str → Nat → Option Nat
  | [], q => if p.isPrefixOf [] then some q else none
  | c :: cs, q => if p.isPrefixOf (c :: cs) then some q else findIn p cs (q + 1)

/-- Embeds `std::string::find(p, pos)`: the lowest position `q ≥ pos` at which `p`
occurs in `s`, `none` for `npos`. -/
def find (s p : Str) (pos : Nat) : Option Nat :=
  if pos ≤ s.length then findIn p (s.drop pos) pos else none

/-- Value of a byte read as a digit (bases up to 36), as `strtol` reads it. -/
def digitVal (c : Nat) : Option Nat :=
  if isdigit c then some (c - 48)
  else if islower c then some (c - 87)
  else if isupper c then some (c - 55)
  else none

/-- Whether the byte is a digit of the given base. -/
def isDigitOf (base c : Nat) : Bool :=
  match digitVal c with
  | some v => decide (v < base)
  | none => false

/-- Value of a run of digits in the given base. -/
def digitsValue (base : Nat) (ds : Str) : Nat :=
  ds.foldl (fun acc c => acc * base + (digitVal c).getD 0) 0

/-- Embeds `std::stoi(s, nullptr, base)` for base 8 or 16: leading white space is
skipped, then an optional sign, then for base 16 an optional `0x`, then the
longest run of digits. `none` stands for a thrown `std::invalid_argument`
(nothing converted) or `std::out_of_range` (not an `int`). A `0x` followed by
no hex digit converts its `0`. -/
def stoi (s : Str) (base : Nat) : Option Int :=
  let s1 := s.dropWhile isspace
  let negative := s1.head? == some 45
  let s2 := if s1.head? == some 45 || s1.head? == some 43 then s1.drop 1 else s1
  let hasHexMark := base == 16 && s2.head? == some 48 &&
    ((s2.drop 1).head? == some 120 || (s2.drop 1).head? == some 88)
  let s3 := if hasHexMark then s2.drop 2 else s2
  let ds := s3.takeWhile (isDigitOf base)
  if ds.isEmpty && !hasHexMark then none
  else
    let v : Int := if negative then - (digitsValue base ds : Int) else (digitsValue base ds : Int)
    if v < -2147483648 ∨ 2147483647 < v then none else some v

/-- Embeds `static_cast<char>(value)`: the low byte. -/
def toChar (value : Int) : Nat := (value % 256).toNat

/-! ## fart_config.hpp -/

/-- Embeds `FartConfig::Options` -/
structure Options where
  help : Bool := false
  quiet : Bool := false
  verbose : Bool := false
  recursive : Bool := false
  count : Bool := false
  ignore_case : Bool := false
  invert : Bool := false
  line_numbers : Bool := false
  whole_word : Bool := false
  filename_mode : Bool := false
  binary : Bool := false
  c_style : Bool := false
  cvs : Bool := false
  svn : Bool := false
  git : Bool := true
  remove : Bool := false
  adapt_case : Bool := false
  backup : Bool := false
  preview : Bool := false
  deriving DecidableEq, Repr

/-- Embeds `FartConfig::Statistics` -/
structure Statistics where
  total_files : Int := 0
  total_matches : Int := 0
  deriving DecidableEq, Repr

/-- Embeds `FartConfig` -/
structure FartConfig where
  options : Options := {}
  stats : Statistics := {}
  wildcard : Str := []
  find_string : Str := []
  replace_string : Str := []
  deriving DecidableEq, Repr

namespace FartConfig

def setWildcard (c : FartConfig) (wildcard : Str) : FartConfig := { c with wildcard := wildcard }

def setFindString (c : FartConfig) (find_string : Str) : FartConfig :=
  { c with find_string := find_string }

def setReplaceString (c : FartConfig) (replace_string : Str) : FartConfig :=
  { c with replace_string := replace_string }

def hasWildcard (c : FartConfig) : Bool := !c.wildcard.isEmpty

def hasFindString (c : FartConfig) : Bool := !c.find_string.isEmpty

def hasReplaceString (c : FartConfig) : Bool := !c.replace_string.isEmpty

def isGrepMode (c : FartConfig) : Bool := c.hasFindString && !c.hasReplaceString

def isFartMode (c : FartConfig) : Bool := c.hasFindString && c.hasReplaceString

def isFindMode (c : FartConfig) : Bool := c.hasWildcard && !c.hasFindString

end FartConfig

/-! ## text_processor.cpp -/

/-- Embeds `TextProcessor::toLowerCase` -/
def toLowerCase (str : Str) : Str := str.map tolower

/-- Embeds `TextProcessor::toUpperCase` -/
def toUpperCase (str : Str) : Str := str.map toupper

/-- The octal digits gathered by the inner loop of `expandCStyleEscapes`: at
most three bytes from index `i + 1` on, up to the first that is not in
`'0'..'7'`. -/
def octalRun (input : Str) (i : Nat) : Str :=
  ((input.drop (i + 1)).take 3).takeWhile (fun c => decide (48 ≤ c) && decide (c ≤ 55))

/-- One escape of `expandCStyleEscapes`: the `switch (next)` for a backslash
at index `i`. Returns the byte appended and the extra amount added to `i`
inside the switch. -/
def expandEscape (input : Str) (i : Nat) : Nat × Nat :=
  let next := input.getD (i + 1) 0
  if next == 110 then (10, 0)
  else if next == 116 then (9, 0)
  else if next == 114 then (13, 0)
  else if next == 98 then (8, 0)
  else if next == 102 then (12, 0)
  else if next == 97 then (7, 0)
  else if next == 118 then (11, 0)
  else if next == 92 then (92, 0)
  else if next == 39 then (39, 0)
  else if next == 34 then (34, 0)
  else if next == 63 then (63, 0)
  else if next == 120 then
    if i + 3 < input.length then
      match stoi (substr input (i + 2) 2) 16 with
      | some value => (toChar value, 2)
      | none => (next, 0)
    else (next, 0)
  else if decide (48 ≤ next) && decide (next ≤ 55) then
    match stoi (octalRun input i) 8 with
    | some value => (toChar value, (octalRun input i).length - 1)
    | none => (next, 0)
  else (next, 0)

/-- The `for` loop of `expandCStyleEscapes`, from index `i` with `result`
built so far. Every iteration advances `i`, so `input.length` iterations
always reach the end. -/
def expandLoop (input : Str) : Nat → Nat → Str → Str
  | 0, _, result => result
  | fuel + 1, i, result =>
    if i < input.length then
      if input.getD i 0 == 92 && decide (i + 1 < input.length) then
        let step := expandEscape input i
        expandLoop input fuel (i + step.2 + 1 + 1) (result ++ [step.1])
      else
        expandLoop input fuel (i + 1) (result ++ [input.getD i 0])
    else result

/-- Embeds `TextProcessor::expandCStyleEscapes` -/
def expandCStyleEscapes (input : Str) : Str := expandLoop input input.length 0 []

/-- Embeds `TextProcessor::CaseType` -/
inductive CaseType where
  | NONE
  | LOWER
  | UPPER
  | MIXED
  deriving DecidableEq, Repr

/-- Embeds `TextProcessor::FindResult` -/
structure FindResult where
  position : Nat
  length : Nat
  replacement : Str
  deriving DecidableEq, Repr

/-- Embeds `TextProcessor`: the configuration it refers to and the members its
constructor computes. -/
structure TextProcessor where
  config : FartConfig
  find_string_normalized : Str
  replace_string_lower : Str
  replace_string_upper : Str
  deriving DecidableEq, Repr

/-- Embeds `TextProcessor::TextProcessor(const FartConfig&)` -/
def TextProcessor.new (config : FartConfig) : TextProcessor :=
  let find0 := config.find_string
  let find1 := if config.options.c_style then expandCStyleEscapes find0 else find0
  let find2 := if config.options.ignore_case then toLowerCase find1 else find1
  { config := config
    find_string_normalized := find2
    replace_string_lower := if config.options.adapt_case then toLowerCase config.replace_string else []
    replace_string_upper := if config.options.adapt_case then toUpperCase config.replace_string else [] }

/-- Embeds `TextProcessor::isWordChar` -/
def isWordChar (c : Nat) : Bool := isalnum c || c == 95

/-- Embeds `TextProcessor::isWordBoundary` -/
def isWordBoundary (text : Str) (pos : Nat) : Bool :=
  if pos == 0 || decide (pos ≥ text.length) then true
  else !isWordChar (text.getD (pos - 1) 0) || !isWordChar (text.getD pos 0)

/-- The two counters of `analyzeCaseType` after its loop: `(upper_count,
lower_count)`. -/
def caseCounts (text : Str) : Nat × Nat :=
  text.foldl (fun n c =>
    if isupper c then (n.1 + 1, n.2)
    else if islower c then (n.1, n.2 + 1)
    else n) (0, 0)

/-- Embeds `TextProcessor::analyzeCaseType` -/
def analyzeCaseType (text : Str) : CaseType :=
  let upper_count := (caseCounts text).1
  let lower_count := (caseCounts text).2
  if upper_count == 0 && lower_count == 0 then CaseType.NONE
  else if decide (upper_count > 0) && lower_count == 0 then CaseType.UPPER
  else if decide (lower_count > 0) && upper_count == 0 then CaseType.LOWER
  else CaseType.MIXED

/-- Embeds `TextProcessor::adaptCase` -/
def adaptCase (replacement original : Str) : Str :=
  match analyzeCaseType original with
  | CaseType.LOWER => toLowerCase replacement
  | CaseType.UPPER => toUpperCase replacement
  | CaseType.MIXED => replacement
  | CaseType.NONE => replacement

/-- Embeds `TextProcessor::normalizeForComparison` -/
def normalizeForComparison (tp : TextProcessor) (text : Str) : Str :=
  if tp.config.options.ignore_case then toLowerCase text else text

/-- The `while` loop of `findMatches`: `pos` is the scan cursor, `results`
the vector built so far. Every iteration moves the cursor forward. -/
def findMatchesLoop (tp : TextProcessor) (text search_text : Str) :
    Nat → Nat → List FindResult → List FindResult
  | 0, _, results => results
  | fuel + 1, pos0, results =>
    match find search_text tp.find_string_normalized pos0 with
    | none => results
    | some pos =>
      if tp.config.options.whole_word &&
          (!isWordBoundary search_text pos ||
           !isWordBoundary search_text (pos + tp.find_string_normalized.length)) then
        findMatchesLoop tp text search_text fuel (pos + 1) results
      else
        let len := tp.find_string_normalized.length
        let replacement :=
          if tp.config.options.adapt_case then
            adaptCase tp.config.replace_string (substr text pos len)
          else tp.config.replace_string
        findMatchesLoop tp text search_text fuel (pos + len)
          (results ++ [{ position := pos, length := len, replacement := replacement }])

/-- Embeds `TextProcessor::findMatches` -/
def findMatches (tp : TextProcessor) (text : Str) : List FindResult :=
  if tp.find_string_normalized.isEmpty then []
  else
    findMatchesLoop tp text (normalizeForComparison tp text) (text.length + 1) 0 []

/-- Embeds `TextProcessor::countMatches` -/
def countMatches (tp : TextProcessor) (text : Str) : Nat := (findMatches tp text).length

/-- The `for` loop of `processLine` over the matches: the pair `(result,
last_pos)`. -/
def spliceLoop (line : Str) (found : List FindResult) (init : Str × Nat) : Str × Nat :=
  found.foldl (fun st m =>
    (st.1 ++ substr line st.2 (m.position - st.2) ++ m.replacement, m.position + m.length)) init

/-- Embeds `TextProcessor::processLine`: the returned string and `match_count`. -/
def processLine (tp : TextProcessor) (line : Str) : Str × Nat :=
  if tp.config.isGrepMode then (line, countMatches tp line)
  else
    let found := findMatches tp line
    if found.isEmpty then (line, found.length)
    else
      let st := spliceLoop line found ([], 0)
      (st.1 ++ substrFrom line st.2, found.length)

/-! ## argument_parser.cpp -/

/-- Embeds `ArgumentParser::ParseResult` -/
structure ParseResult where
  success : Bool := false
  show_help : Bool := false
  error_message : Str := []
  deriving DecidableEq, Repr

namespace ArgumentParser

/-- The table of `initializeArguments`: short option (a blank when there is
none) and long option of each entry. -/
def argument_definitions : List (Nat × Str) :=
  [ ('h'.toNat, bytes "help"), ('q'.toNat, bytes "quiet"), ('V'.toNat, bytes "verbose"),
    ('r'.toNat, bytes "recursive"), ('c'.toNat, bytes "count"),
    ('i'.toNat, bytes "ignore-case"), ('v'.toNat, bytes "invert"),
    ('n'.toNat, bytes "line-number"), ('w'.toNat, bytes "word"),
    ('f'.toNat, bytes "filename"), ('B'.toNat, bytes "binary"),
    ('C'.toNat, bytes "c-style"), (' '.toNat, bytes "cvs"), (' '.toNat, bytes "svn"),
    (' '.toNat, bytes "git"), (' '.toNat, bytes "remove"), ('a'.toNat, bytes "adapt"),
    ('b'.toNat, bytes "backup"), ('p'.toNat, bytes "preview") ]

/-- Keys of the map `short_options_`. -/
def short_options : List Nat :=
  (argument_definitions.filter (fun d => d.1 != ' '.toNat)).map (fun d => d.1)

/-- Keys of the map `long_options_`. -/
def long_options : List Str := argument_definitions.map (fun d => d.2)

/-- Embeds `ArgumentParser::isValidOption` -/
def isValidOption (option : Nat) : Bool := short_options.contains option

/-- Embeds `ArgumentParser::isValidLongOption` -/
def isValidLongOption (option : Str) : Bool := long_options.contains option

/-- The `switch (option)` of `parseShortOptions`: the options and `show_help`
after it. -/
def applyShort (option : Nat) (o : Options) (show_help : Bool) : Options × Bool :=
  if option == 'h'.toNat then ({ o with help := true }, true)
  else if option == 'q'.toNat then ({ o with quiet := true }, show_help)
  else if option == 'V'.toNat then ({ o with verbose := true }, show_help)
  else if option == 'r'.toNat then ({ o with recursive := true }, show_help)
  else if option == 'c'.toNat then ({ o with count := true }, show_help)
  else if option == 'i'.toNat then ({ o with ignore_case := true }, show_help)
  else if option == 'v'.toNat then ({ o with invert := true }, show_help)
  else if option == 'n'.toNat then ({ o with line_numbers := true }, show_help)
  else if option == 'w'.toNat then ({ o with whole_word := true }, show_help)
  else if option == 'f'.toNat then ({ o with filename_mode := true }, show_help)
  else if option == 'B'.toNat then ({ o with binary := true }, show_help)
  else if option == 'C'.toNat then ({ o with c_style := true }, show_help)
  else if option == 'a'.toNat then ({ o with adapt_case := true }, show_help)
  else if option == 'b'.toNat then ({ o with backup := true }, show_help)
  else if option == 'p'.toNat then ({ o with preview := true }, show_help)
  else (o, show_help)

/-- The loop of `parseShortOptions` over the option characters. -/
def parseShortLoop : Str → ParseResult → Options → ParseResult × Options
  | [], result, o => (result, o)
  | option :: rest, result, o =>
    if !isValidOption option then
      if option != '?'.toNat then
        ({ result with error_message := bytes "Invalid option: -" ++ [option], success := false }, o)
      else parseShortLoop rest { result with show_help := true } o
    else
      let r := applyShort option o result.show_help
      parseShortLoop rest { result with show_help := r.2 } r.1

/-- Embeds `ArgumentParser::parseShortOptions`: the result and the options it leaves. -/
def parseShortOptions (options : Str) (config_options : Options) : ParseResult × Options :=
  parseShortLoop options { success := true } config_options

/-- Embeds `ArgumentParser::parseLongOption`: the result and the options it leaves. -/
def parseLongOption (option : Str) (o : Options) : ParseResult × Options :=
  let result : ParseResult := { success := true }
  if !isValidLongOption option then
    ({ result with error_message := bytes "Invalid option: --" ++ option, success := false }, o)
  else if option == bytes "help" then ({ result with show_help := true }, { o with help := true })
  else if option == bytes "quiet" then (result, { o with quiet := true })
  else if option == bytes "verbose" then (result, { o with verbose := true })
  else if option == bytes "recursive" then (result, { o with recursive := true })
  else if option == bytes "count" then (result, { o with count := true })
  else if option == bytes "ignore-case" then (result, { o with ignore_case := true })
  else if option == bytes "invert" then (result, { o with invert := true })
  else if option == bytes "line-number" then (result, { o with line_numbers := true })
  else if option == bytes "word" then (result, { o with whole_word := true })
  else if option == bytes "filename" then (result, { o with filename_mode := true })
  else if option == bytes "binary" then (result, { o with binary := true })
  else if option == bytes "c-style" then (result, { o with c_style := true })
  else if option == bytes "cvs" then (result, { o with cvs := true })
  else if option == bytes "svn" then (result, { o with svn := true })
  else if option == bytes "git" then (result, { o with git := true })
  else if option == bytes "remove" then (result, { o with remove := true })
  else if option == bytes "adapt" then (result, { o with adapt_case := true })
  else if option == bytes "backup" then (result, { o with backup := true })
  else if option == bytes "preview" then (result, { o with preview := true })
  else (result, o)

/-- The `for` loop of `parse` over `argv[1..]`. The first component is `true`
when the loop left `parse` through one of its `return`s. -/
def parseArgs : List Str → Bool → ParseResult → FartConfig → Bool × ParseResult × FartConfig
  | [], _, result, config => (false, result, config)
  | arg :: rest, parsing_options, result, config =>
    if parsing_options && decide (arg.length > 1) && arg.getD 0 0 == '-'.toNat then
      if arg == bytes "--" then parseArgs rest false result config
      else
        let r :=
          if decide (arg.length > 2) && substr arg 0 2 == bytes "--" then
            parseLongOption (substrFrom arg 2) config.options
          else parseShortOptions (substrFrom arg 1) config.options
        let config := { config with options := r.2 }
        if !r.1.success then (true, r.1, config)
        else if r.1.show_help then
          parseArgs rest parsing_options { result with show_help := true } config
        else parseArgs rest parsing_options result config
    else if !config.hasWildcard then
      parseArgs rest parsing_options result (config.setWildcard arg)
    else if !config.hasFindString then
      parseArgs rest parsing_options result (config.setFindString arg)
    else if !config.hasReplaceString then
      parseArgs rest parsing_options result (config.setReplaceString arg)
    else
      (true, { result with success := false,
                           error_message := bytes "Too many arguments: " ++ arg }, config)

/-- Embeds `ArgumentParser::parse`, on the arguments `argv[1], ..., argv[argc - 1]`:
the result and the configuration it leaves. -/
def parse (args : List Str) (config : FartConfig) : ParseResult × FartConfig :=
  let r := parseArgs args true { success := true } config
  if r.1 then r.2
  else
    let config := r.2.2
    let result :=
      if config.options.help || !config.hasWildcard then { r.2.1 with show_help := true }
      else r.2.1
    if config.options.remove && config.hasReplaceString then
      ({ result with success := false,
                     error_message := bytes "Option --remove conflicts with replace_string" },
        config)
    else if config.options.remove && config.hasFindString then
      (result, config.setReplaceString [])
    else (result, config)

end ArgumentParser

/-! ## The platform: `std::filesystem`, file streams and `std::regex`

`file_processor.cpp` reaches the world outside the program only through the
standard library. Those calls are operations on a file-system state of an
arbitrary type `σ`, given by a `Platform σ`: the program decides which
operation is called and with what arguments, the platform what it does.
Paths are strings, decomposed as `std::filesystem::path` does on POSIX. -/

/-- A `std::filesystem::directory_entry`, as `processDirectory` reads it. -/
structure DirEntry where
  path : Str
  is_regular_file : Bool
  is_directory : Bool
  deriving DecidableEq, Repr

/-- The standard library calls of `file_processor.cpp` on a file system of
states `σ`.
* `pathExists`, `is_directory`: `std::filesystem::exists`, `is_directory`;
* `directory_entries`: the entries a `directory_iterator` delivers, followed
  by the `what()` of the exception, if any, that ends the iteration;
* `ifstream_read`: the bytes read from a `std::ifstream`, `none` when it does
  not open;
* `ofstream_write`: opening a `std::ofstream` and writing the content; the
  flag tells whether the stream opened and is `good()` afterwards;
* `rename`: `std::filesystem::rename`, the error carrying `what()`;
* `copy_file`: `std::filesystem::copy_file` with `overwrite_existing`; the
  flag is false when it throws;
* `regex_match_other`: `std::regex_match` against a `std::regex` built from a
  pattern outside the fragment of `parseRegex`; `none` when that throws. -/
structure Platform (σ : Type) where
  pathExists : σ → Str → Bool
  is_directory : σ → Str → Bool
  directory_entries : σ → Str → List DirEntry × Option Str
  ifstream_read : σ → Str → Option Str
  ofstream_write : σ → Str → Str → σ × Bool
  rename : σ → Str → Str → Except Str σ
  copy_file : σ → Str → Str → σ × Bool
  regex_match_other : Str → Str → Option Bool

namespace Path

/-- Embeds `std::filesystem::path::filename`: the bytes after the last `/`. -/
def filename (p : Str) : Str := (p.reverse.takeWhile (fun c => c != 47)).reverse

/-- Embeds `std::filesystem::path::parent_path`: the path up to the last `/`,
without the separators that end it; `/` when nothing else is left, empty when
the path has no `/`. -/
def parent_path (p : Str) : Str :=
  if p.contains 47 then
    let stripped := ((p.reverse.dropWhile (fun c => c != 47)).dropWhile (fun c => c == 47)).reverse
    if stripped.isEmpty then [47] else stripped
  else []

/-- Embeds `operator/` of `std::filesystem::path`: an absolute right side
replaces the left side, otherwise the two are joined by one separator. -/
def append (p q : Str) : Str :=
  if q.head? == some 47 then q
  else if p.isEmpty || p.getLast? == some 47 then p ++ q
  else p ++ [47] ++ q

/-- Embeds `operator<<` on a `std::filesystem::path`: the path in double
quotes, with `"` and `\` escaped by a backslash. -/
def quoted (p : Str) : Str :=
  [34] ++ p.flatMap (fun c => if c == 34 || c == 92 then [92, c] else [c]) ++ [34]

end Path

/-- Decimal digits of a natural number. -/
def showNat (n : Nat) : Str := (Nat.toDigits 10 n).map Char.toNat

/-- Embeds `operator<<` on an `int`. -/
def showInt (i : Int) : Str := if i < 0 then 45 :: showNat i.natAbs else showNat i.toNat

/-- Embeds `std::setw(w)` applied to the next output: blanks on the left up to
width `w`. -/
def setw (w : Nat) (s : Str) : Str := List.replicate (w - s.length) 32 ++ s

/-- The lines `std::getline` delivers from a stream holding `content`, with
`cur` the bytes of the current line read so far: a line ends at the delimiter,
which is dropped; at the end of the stream a non-empty rest is a last line. -/
def getlinesFrom (delim : Nat) : Str → Str → List Str
  | [], cur => if cur.isEmpty then [] else [cur]
  | c :: rest, cur =>
    if c == delim then cur :: getlinesFrom delim rest []
    else getlinesFrom delim rest (cur ++ [c])

/-- All lines of `while (std::getline(stream, line, delim))`. -/
def getlines (delim : Nat) (content : Str) : List Str := getlinesFrom delim content []

/-! ### The fragment of `std::regex` (ECMAScript) that is modelled -/

/-- The pieces of a regular expression of the fragment: an ordinary
character, `.`, and `.*`. -/
inductive RegexAtom where
  | lit (c : Nat)
  | any
  | anyStar
  deriving DecidableEq, Repr

/-- The characters with a meaning of their own in an ECMAScript regular
expression, and the null byte. -/
def isRegexSpecial (c : Nat) : Bool := c == 0 || (bytes "^$\\.*+?()[]{}|").contains c

/-- Reads a regular expression made of ordinary characters, `.` and `.*`;
`none` for any other. -/
def parseRegex : Str → Option (List RegexAtom)
  | [] => some []
  | 46 :: 42 :: rest => (parseRegex rest).map (fun atoms => RegexAtom.anyStar :: atoms)
  | 46 :: rest => (parseRegex rest).map (fun atoms => RegexAtom.any :: atoms)
  | c :: rest =>
    if isRegexSpecial c then none
    else (parseRegex rest).map (fun atoms => RegexAtom.lit c :: atoms)

/-- What `.` matches: any byte but a line feed or a carriage return. -/
def matchesDot (c : Nat) : Bool := c != 10 && c != 13

/-- Matching of `.*` followed by the rest `k` of the expression. -/
def starMatch (k : Str → Bool) : Str → Bool
  | [] => k []
  | c :: cs => k (c :: cs) || (matchesDot c && starMatch k cs)

/-- Whether the whole subject matches the sequence of pieces. -/
def atomsMatch : List RegexAtom → Str → Bool
  | [], s => s.isEmpty
  | RegexAtom.lit c :: atoms, s =>
    match s with
    | [] => false
    | x :: xs => x == c && atomsMatch atoms xs
  | RegexAtom.any :: atoms, s =>
    match s with
    | [] => false
    | x :: xs => matchesDot x && atomsMatch atoms xs
  | RegexAtom.anyStar :: atoms, s => starMatch (atomsMatch atoms) s

/-- The call `std::regex_match(subject, std::regex(regex_pattern))`; `none`
when it throws. -/
def regexMatch {σ : Type} (P : Platform σ) (regex_pattern subject : Str) : Option Bool :=
  match parseRegex regex_pattern with
  | some atoms => some (atomsMatch atoms subject)
  | none => P.regex_match_other regex_pattern subject

/-! ## file_processor.cpp -/

/-- Embeds `FileProcessor::ProcessResult`. -/
structure ProcessResult where
  success : Bool := false
  matches_found : Int := 0
  error_message : Str := []
  deriving DecidableEq, Repr

/-- A call made by the walk of the directory `dir_path` for one of its
entries: `processFile` on a file (`dispatch`) or `processDirectory` on a
subdirectory (`descend`). Not in the source: the walk records its calls in
`Run.trace` so that statements can speak about them. -/
inductive Event where
  | dispatch (dir_path entry_path : Str)
  | descend (dir_path entry_path : Str)
  deriving DecidableEq, Repr

/-- The directory whose walk made the call. -/
def Event.dir_path : Event → Str
  | Event.dispatch dir_path _ => dir_path
  | Event.descend dir_path _ => dir_path

/-- The state a run of the `FileProcessor` changes: the file system, the
statistics of the configuration it refers to, the three standard streams, and
the calls of the directory walk so far. -/
structure Run (σ : Type) where
  fs : σ
  stats : Statistics := {}
  cout : Str := []
  cerr : Str := []
  cin : Str := []
  trace : List Event := []

/-- Embeds `FileProcessor`: the configuration it refers to (its statistics are
in the `Run`), its text processor, and the progress callback, given by the
text it writes to `std::cerr` for a message. -/
structure FileProcessor where
  config : FartConfig
  text_processor : TextProcessor
  progress_callback : Option (Str → Str) := none

/-- Embeds `FileProcessor::FileProcessor(FartConfig&)`. -/
def FileProcessor.new (config : FartConfig) : FileProcessor :=
  { config := config, text_processor := TextProcessor.new config }

/-- Embeds `FileProcessor::setProgressCallback`. -/
def FileProcessor.setProgressCallback (fp : FileProcessor) (callback : Str → Str) :
    FileProcessor :=
  { fp with progress_callback := some callback }

/-- The statement `config_.getStats().total_files++`. -/
def Run.countFile {σ : Type} (s : Run σ) : Run σ :=
  { s with stats := { s.stats with total_files := s.stats.total_files + 1 } }

/-- Writes to `std::cout`. -/
def Run.print {σ : Type} (s : Run σ) (text : Str) : Run σ := { s with cout := s.cout ++ text }

/-- The test of byte `c` in the loop of `isBinaryFile`. -/
def isControlByte (c : Nat) : Bool := c == 0 || (decide (c < 32) && c != 9 && c != 10 && c != 13)

/-- The part of `isBinaryFile` after the read, on the `bytes_read` bytes of
the buffer. -/
def isBinarySample (buffer : Str) : Bool :=
  let bytes_read := buffer.length
  let non_ascii_count := buffer.foldl (fun n c => if isControlByte c then n + 1 else n) 0
  decide (non_ascii_count * 20 ≥ bytes_read)

/-- Embeds `FileProcessor::isBinaryFile`. -/
def isBinaryFile {σ : Type} (P : Platform σ) (fs : σ) (file_path : Str) : Bool :=
  match P.ifstream_read fs file_path with
  | none => false
  | some content => isBinarySample (content.take 1024)

/-- Embeds `FileProcessor::shouldSkipDirectory`. -/
def shouldSkipDirectory (dir_name : Str) (options : Options) : Bool :=
  if options.cvs && dir_name == bytes "CVS" then true
  else if options.svn && dir_name == bytes ".svn" then true
  else if options.git && dir_name == bytes ".git" then true
  else false

/-- Embeds `FileProcessor::splitWildcards`. -/
def splitWildcards (wildcards : Str) : List Str :=
  (getlines ','.toNat wildcards).filter (fun item => !item.isEmpty)

/-- The string `regex_pattern` of `matchesPattern`: every `*` becomes `.`,
then every `.` becomes `.*`, then every `?` becomes `.`. -/
def regexPattern (pattern : Str) : Str :=
  let step1 := pattern.map (fun c => if c == '*'.toNat then '.'.toNat else c)
  let step2 := step1.flatMap (fun c => if c == '.'.toNat then bytes ".*" else [c])
  step2.flatMap (fun c => if c == '?'.toNat then bytes "." else [c])

/-- Embeds `FileProcessor::matchesPattern`. -/
def matchesPattern {σ : Type} (P : Platform σ) (filename pattern : Str) : Bool :=
  if pattern == bytes "*" then true
  else
    match regexMatch P (regexPattern pattern) filename with
    | some result => result
    | none => filename == pattern

/-- Embeds `FileProcessor::createBackup`. -/
def createBackup {σ : Type} (P : Platform σ) (file_path : Str) (s : Run σ) : Bool × Run σ :=
  let r := P.copy_file s.fs file_path (file_path ++ bytes ".bak")
  (r.2, { s with fs := r.1 })

/-- Embeds `FileProcessor::updateProgress`. -/
def updateProgress {σ : Type} (fp : FileProcessor) (message : Str) (s : Run σ) : Run σ :=
  match fp.progress_callback with
  | some callback => { s with cerr := s.cerr ++ callback message }
  | none => s

/-- Embeds `FileProcessor::readFile`: the content, or the message of the
exception thrown. -/
def readFile {σ : Type} (P : Platform σ) (fs : σ) (file_path : Str) : Except Str Str :=
  match P.ifstream_read fs file_path with
  | none => Except.error (bytes "Could not open file: " ++ file_path)
  | some content => Except.ok content

/-- Embeds `FileProcessor::writeFile`. -/
def writeFile {σ : Type} (P : Platform σ) (file_path content : Str) (s : Run σ) :
    Bool × Run σ :=
  let r := P.ofstream_write s.fs file_path content
  (r.2, { s with fs := r.1 })

/-- The variables of the loop of `findInFile`. -/
structure FindLoop where
  matches_found : Int := 0
  line_number : Int := 0
  first_match : Bool := true
  cout : Str

/-- The body of the loop of `findInFile` for one line. -/
def findInFileStep (fp : FileProcessor) (file_path : Str) (st : FindLoop) (line : Str) :
    FindLoop :=
  let o := fp.config.options
  let line_number := st.line_number + 1
  let counted : Int := countMatches fp.text_processor line
  let match_count : Int := if o.invert then (if counted != 0 then 0 else 1) else counted
  if match_count > 0 then
    let header := st.first_match && !o.count && !o.quiet
    let cout1 := if header then st.cout ++ file_path ++ bytes " :\n" else st.cout
    let cout2 :=
      if !o.count then
        (if o.line_numbers then cout1 ++ bytes "[" ++ setw 4 (showInt line_number) ++ bytes "]"
          else cout1) ++ line ++ bytes "\n"
      else cout1
    { matches_found := st.matches_found + match_count
      line_number := line_number
      first_match := if header then false else st.first_match
      cout := cout2 }
  else { st with line_number := line_number }

/-- Embeds `FileProcessor::findInFile`. -/
def findInFile {σ : Type} (P : Platform σ) (fp : FileProcessor) (file_path : Str) (s : Run σ) :
    ProcessResult × Run σ :=
  match P.ifstream_read s.fs file_path with
  | none => ({ error_message := bytes "Could not open file: " ++ file_path }, s)
  | some content =>
    let o := fp.config.options
    let st := (getlines 10 content).foldl (findInFileStep fp file_path) { cout := s.cout }
    let s1 := { s with cout := st.cout }
    let s2 :=
      if st.matches_found > 0 then
        if o.count then
          if o.quiet then s1.countFile.print (file_path ++ bytes "\n")
          else s1.countFile.print
            (file_path ++ bytes " [" ++ showInt st.matches_found ++ bytes "]" ++ bytes "\n")
        else s1.countFile
      else s1
    ({ success := true, matches_found := st.matches_found }, s2)

/-- The variables of the loop of `replaceInFile`. -/
structure ReplaceLoop where
  matches_found : Int := 0
  line_number : Int := 0
  file_changed : Bool := false
  modified_content : Str := []
  cout : Str

/-- The body of the loop of `replaceInFile` for one line. -/
def replaceInFileStep (fp : FileProcessor) (st : ReplaceLoop) (line : Str) : ReplaceLoop :=
  let o := fp.config.options
  let line_number := st.line_number + 1
  let processed := processLine fp.text_processor line
  let match_count : Int := processed.2
  if match_count > 0 then
    { matches_found := st.matches_found + match_count
      line_number := line_number
      file_changed := true
      modified_content := st.modified_content ++ (processed.1 ++ bytes "\n")
      cout :=
        if o.line_numbers && !o.count && !o.quiet then
          st.cout ++ bytes "[" ++ setw 4 (showInt line_number) ++ bytes "]"
        else st.cout }
  else
    { st with line_number := line_number
              modified_content := st.modified_content ++ (processed.1 ++ bytes "\n") }

/-- Embeds `FileProcessor::replaceInFile`. -/
def replaceInFile {σ : Type} (P : Platform σ) (fp : FileProcessor) (file_path : Str)
    (s : Run σ) : ProcessResult × Run σ :=
  match readFile P s.fs file_path with
  | Except.error what =>
    ({ error_message := bytes "Error processing file " ++ file_path ++ bytes ": " ++ what }, s)
  | Except.ok content =>
    let o := fp.config.options
    let st := (getlines 10 content).foldl (replaceInFileStep fp) { cout := s.cout }
    let s1 := { s with cout := st.cout }
    if st.file_changed then
      let s2 :=
        if o.count && !o.quiet then
          s1.countFile.print
            (file_path ++ bytes " [" ++ showInt st.matches_found ++ bytes "]" ++ bytes "\n")
        else s1.countFile
      if !o.preview then
        let s3 := if o.backup then (createBackup P file_path s2).2 else s2
        let w := writeFile P file_path st.modified_content s3
        if !w.1 then
          ({ matches_found := st.matches_found,
             error_message := bytes "Could not write to file: " ++ file_path }, w.2)
        else ({ success := true, matches_found := st.matches_found }, w.2)
      else ({ success := true, matches_found := st.matches_found }, s2)
    else ({ success := true, matches_found := st.matches_found }, s1)

/-- The body of the loop of `processStdin` for one line: `total_matches` and
`std::cout` after it. -/
def processStdinStep (fp : FileProcessor) (st : Int × Str) (line : Str) : Int × Str :=
  if fp.config.isFartMode then
    let processed := processLine fp.text_processor line
    (st.1 + (processed.2 : Int), st.2 ++ processed.1 ++ bytes "\n")
  else
    let counted : Int := countMatches fp.text_processor line
    let match_count : Int :=
      if fp.config.options.invert then (if counted != 0 then 0 else 1) else counted
    (st.1 + match_count, if match_count > 0 then st.2 ++ line ++ bytes "\n" else st.2)

/-- Embeds `FileProcessor::processStdin`. -/
def processStdin {σ : Type} (fp : FileProcessor) (s : Run σ) : ProcessResult × Run σ :=
  let st := (getlines 10 s.cin).foldl (processStdinStep fp) (0, s.cout)
  ({ success := true, matches_found := st.1 }, { s with cout := st.2, cin := [] })

/-- Embeds `FileProcessor::processFileContents`. -/
def processFileContents {σ : Type} (P : Platform σ) (fp : FileProcessor) (file_path : Str)
    (s : Run σ) : ProcessResult × Run σ :=
  if fp.config.isGrepMode then findInFile P fp file_path s
  else replaceInFile P fp file_path s

/-- Embeds `FileProcessor::processFileName`. -/
def processFileName {σ : Type} (P : Platform σ) (fp : FileProcessor) (file_path : Str)
    (s : Run σ) : ProcessResult × Run σ :=
  let filename := Path.filename file_path
  let processed := processLine fp.text_processor filename
  let new_filename := processed.1
  let match_count : Int := processed.2
  if match_count > 0 then
    let s1 := s.countFile
    if fp.config.isFartMode && !fp.config.options.preview then
      let new_path := Path.append (Path.parent_path file_path) new_filename
      match P.rename s1.fs file_path new_path with
      | Except.ok fs =>
        ({ success := true, matches_found := match_count },
          { s1 with fs := fs }.print (file_path ++ bytes " => " ++ new_filename ++ bytes "\n"))
      | Except.error what =>
        ({ matches_found := match_count,
           error_message := bytes "Could not rename " ++ file_path ++ bytes " to "
             ++ new_filename ++ bytes ": " ++ what }, s1)
    else ({ success := true, matches_found := match_count }, s1.print (file_path ++ bytes "\n"))
  else ({ success := true }, s)

/-- Embeds `FileProcessor::processFile`. -/
def processFile {σ : Type} (P : Platform σ) (fp : FileProcessor) (file_path : Str)
    (s : Run σ) : ProcessResult × Run σ :=
  if !P.pathExists s.fs file_path then
    ({ error_message := bytes "File not found: " ++ file_path }, s)
  else if !fp.config.options.binary && isBinaryFile P s.fs file_path then
    ({ success := true },
      if fp.config.options.verbose then
        { s with cerr := s.cerr ++ bytes "Skipping binary file: " ++ Path.quoted file_path
                          ++ bytes "\n" }
      else s)
  else
    let s1 := updateProgress fp file_path s
    if fp.config.options.filename_mode then processFileName P fp file_path s1
    else processFileContents P fp file_path s1

/-- The statements that follow every call in `processWildcards` and
`processDirectory`: the matches are added and a failure is recorded. -/
def accumulate (total_result result : ProcessResult) : ProcessResult :=
  if !result.success then
    { success := false
      matches_found := total_result.matches_found + result.matches_found
      error_message := total_result.error_message ++ (result.error_message ++ bytes "\n") }
  else { total_result with matches_found := total_result.matches_found + result.matches_found }

/-- The loop of `processDirectory` over the entries of `dir_path`; `recurse`
is the recursive call of `processDirectory` with the same pattern and flag.
`none` when a recursive call gives `none`. -/
def processEntries {σ : Type} (P : Platform σ) (fp : FileProcessor)
    (recurse : Str → Run σ → Option (ProcessResult × Run σ))
    (dir_path pattern : Str) (recursive : Bool) :
    List DirEntry → ProcessResult → Run σ → Option (ProcessResult × Run σ)
  | [], total_result, s => some (total_result, s)
  | entry :: rest, total_result, s =>
    if entry.is_regular_file then
      if matchesPattern P (Path.filename entry.path) pattern then
        let r := processFile P fp entry.path
          { s with trace := s.trace ++ [Event.dispatch dir_path entry.path] }
        processEntries P fp recurse dir_path pattern recursive rest
          (accumulate total_result r.1) r.2
      else processEntries P fp recurse dir_path pattern recursive rest total_result s
    else if entry.is_directory && recursive then
      let dir_name := Path.filename entry.path
      if !shouldSkipDirectory dir_name fp.config.options then
        match recurse entry.path
            { s with trace := s.trace ++ [Event.descend dir_path entry.path] } with
        | none => none
        | some r =>
          processEntries P fp recurse dir_path pattern recursive rest
            (accumulate total_result r.1) r.2
      else processEntries P fp recurse dir_path pattern recursive rest total_result s
    else processEntries P fp recurse dir_path pattern recursive rest total_result s

/-- Embeds `FileProcessor::processDirectory`. The first argument bounds the
depth of the recursion: `none` when the directories nest deeper. -/
def processDirectory {σ : Type} (P : Platform σ) (fp : FileProcessor) :
    Nat → Str → Str → Bool → Run σ → Option (ProcessResult × Run σ)
  | 0, _, _, _, _ => none
  | depth + 1, dir_path, pattern, recursive, s =>
    if !P.pathExists s.fs dir_path || !P.is_directory s.fs dir_path then
      some ({ success := true, error_message := bytes "Directory not found: " ++ dir_path }, s)
    else
      let listing := P.directory_entries s.fs dir_path
      match processEntries P fp
          (fun path s1 => processDirectory P fp depth path pattern recursive s1)
          dir_path pattern recursive listing.1 { success := true } s with
      | none => none
      | some r =>
        match listing.2 with
        | none => some r
        | some what =>
          some ({ r.1 with success := false
                           error_message := bytes "Error processing directory " ++ dir_path
                             ++ bytes ": " ++ what }, r.2)

/-- The body of the loop of `processWildcards` for one selector. -/
def processWildcard {σ : Type} (P : Platform σ) (fp : FileProcessor) (depth : Nat)
    (wildcard : Str) (s : Run σ) : Option (ProcessResult × Run σ) :=
  let path := wildcard
  if P.pathExists s.fs path then
    if P.is_directory s.fs path then
      processDirectory P fp depth path (bytes "*") fp.config.options.recursive s
    else some (processFile P fp path s)
  else
    let parent_path := Path.parent_path path
    let filename := Path.filename path
    processDirectory P fp depth (if parent_path.isEmpty then bytes "." else parent_path) filename
      fp.config.options.recursive s

/-- The loop of `processWildcards` over the selectors. -/
def processWildcardList {σ : Type} (P : Platform σ) (fp : FileProcessor) (depth : Nat) :
    List Str → ProcessResult → Run σ → Option (ProcessResult × Run σ)
  | [], total_result, s => some (total_result, s)
  | wildcard :: rest, total_result, s =>
    match processWildcard P fp depth wildcard s with
    | none => none
    | some r => processWildcardList P fp depth rest (accumulate total_result r.1) r.2

/-- Embeds `FileProcessor::processWildcards`, with the bound on the depth of
the directories. -/
def processWildcards {σ : Type} (P : Platform σ) (fp : FileProcessor) (depth : Nat)
    (wildcards : Str) (s : Run σ) : Option (ProcessResult × Run σ) :=
  processWildcardList P fp depth (splitWildcards wildcards) { success := true } s

/-! ## The output of argument_parser.cpp and fart_refactored.cpp -/

namespace ArgumentParser

/-- The descriptions of the table of `initializeArguments`, in its order. -/
def argument_descriptions : List Str :=
  [ bytes "Show this help message (ignores other options)",
    bytes "Suppress output to stdio / stderr",
    bytes "Show more information",
    bytes "Process sub-folders recursively",
    bytes "Only show filenames, match counts and totals",
    bytes "Case insensitive text comparison",
    bytes "Print lines NOT containing the find string",
    bytes "Print line number before each line (1-based)",
    bytes "Match whole word (uses C syntax, like grep)",
    bytes "Find (and replace) filename instead of contents",
    bytes "Also search (and replace) in binary files (CAUTION)",
    bytes "Allow C-style extended characters (\\xFF\\0\\t\\n\\r\\\\ etc.)",
    bytes "Skip cvs dirs; execute \"cvs edit\" before changing files",
    bytes "Skip svn dirs",
    bytes "Skip git dirs (default)",
    bytes "Remove all occurences of the find_string",
    bytes "Adapt the case of replace_string to found string",
    bytes "Make a backup of each changed file",
    bytes "Do not change the files but print the changes" ]

/-- Embeds `std::left << std::setw(w)` applied to the next output: blanks on
the right up to width `w`. -/
def setwLeft (w : Nat) (s : Str) : Str := s ++ List.replicate (w - s.length) 32

/-- The line of `showUsage` for one entry of the table. -/
def usageLine (definition : Nat × Str) (description : Str) : Str :=
  if description.isEmpty then []
  else
    (if definition.1 != ' '.toNat then bytes " -" ++ [definition.1] ++ bytes "," else bytes "    ")
      ++ bytes " --" ++ setwLeft 14 definition.2 ++ description ++ bytes "\n"

/-- Embeds `ArgumentParser::showUsage`: the text written to `std::cout`. -/
def showUsage : Str :=
  bytes "\nFind And Replace Text " ++ setwLeft 30 (bytes "v1.99d") ++ bytes "by Lionello Lunesu\n\n"
    ++ bytes "Usage: fart [options] [--] <wildcard>[" ++ [','.toNat]
    ++ bytes "...] [find_string] [replace_string]\n"
    ++ bytes "\nOptions:\n"
    ++ ((argument_definitions.zip argument_descriptions).flatMap
        (fun entry => usageLine entry.1 entry.2))
    ++ bytes "\n"

/-- The text `ArgumentParser::parse` writes to `std::cerr`: the warning on
`--count` with `--line-number`, reached when `parse` has not returned before. -/
def parseWarning (args : List Str) (config : FartConfig) : Str :=
  let r := parseArgs args true { success := true } config
  if r.1 then []
  else if r.2.2.options.remove && r.2.2.hasReplaceString then []
  else if r.2.2.options.count && r.2.2.options.line_numbers then
    bytes "Warning: conflicting options: --line-number, --count\n"
  else []

end ArgumentParser

namespace FartApplication

/-- The file processor of a `handle...Mode`: with the callback that writes
`label` and the file to `std::cerr` when `verbose` is set. -/
def processorFor (config : FartConfig) (label : Str) : FileProcessor :=
  if config.options.verbose then
    (FileProcessor.new config).setProgressCallback (fun file => label ++ file ++ bytes "\n")
  else FileProcessor.new config

/-- The end of a `handle...Mode` after the file processor has returned
`result`: the error exit, or the summary line and the value returned. -/
def finish {σ : Type} (config : FartConfig) (result : ProcessResult) (s : Run σ)
    (summary : Str) (value : Int) : Int × Run σ :=
  if !result.success then
    (-1, { s with cerr := s.cerr ++ bytes "Error: " ++ result.error_message ++ bytes "\n" })
  else (value, if !config.options.quiet then s.print summary else s)

/-- Embeds `FartApplication::handleFindMode`. -/
def handleFindMode {σ : Type} (P : Platform σ) (depth : Nat) (config : FartConfig) (s : Run σ) :
    Option (Int × Run σ) :=
  match processWildcards P (processorFor config (bytes "Processing: ")) depth config.wildcard s with
  | none => none
  | some r =>
    some (finish config r.1 r.2
      (bytes "Found " ++ showInt r.2.stats.total_files ++ bytes " file(s)." ++ bytes "\n")
      r.2.stats.total_files)

/-- Embeds `FartApplication::handleGrepMode`. -/
def handleGrepMode {σ : Type} (P : Platform σ) (depth : Nat) (config : FartConfig) (s : Run σ) :
    Option (Int × Run σ) :=
  let processor := processorFor config (bytes "Searching: ")
  match (if config.wildcard == bytes "-" then some (processStdin processor s)
         else processWildcards P processor depth config.wildcard s) with
  | none => none
  | some r =>
    some (finish config r.1 r.2
      (bytes "Found " ++ showInt r.2.stats.total_matches ++ bytes " occurrence(s) in "
        ++ showInt r.2.stats.total_files ++ bytes " file(s)." ++ bytes "\n")
      r.2.stats.total_matches)

/-- Embeds `FartApplication::handleFartMode`. -/
def handleFartMode {σ : Type} (P : Platform σ) (depth : Nat) (config : FartConfig) (s : Run σ) :
    Option (Int × Run σ) :=
  let options := config.options
  if options.binary && !options.preview && !options.backup then
    some (-2, { s with
      cerr := s.cerr ++ bytes "Error: too dangerous; must specify --backup when using --binary\n" })
  else
    let s1 :=
      if options.binary && !options.preview then
        { s with cerr := s.cerr ++ bytes "Warning: fart may corrupt binary files\n" }
      else s
    if (options.cvs || options.svn) && options.filename_mode then
      some (-3, { s1 with
        cerr := s1.cerr
          ++ bytes "Error: renaming version controlled files would destroy their history\n" })
    else
      let processor := processorFor config (bytes "Processing: ")
      match (if config.wildcard == bytes "-" then some (processStdin processor s1)
             else processWildcards P processor depth config.wildcard s1) with
      | none => none
      | some r =>
        some (finish config r.1 r.2
          (bytes "Replaced " ++ showInt r.2.stats.total_matches ++ bytes " occurrence(s) in "
            ++ showInt r.2.stats.total_files ++ bytes " file(s)." ++ bytes "\n")
          r.2.stats.total_matches)

/-- Embeds `FartApplication::run` on the arguments `argv[1..]`, started on the
file system `fs` with `cin` on the standard input: the value returned and the
state left. The configuration starts as `FartConfig()`. -/
def run {σ : Type} (P : Platform σ) (depth : Nat) (args : List Str) (fs : σ) (cin : Str) :
    Option (Int × Run σ) :=
  let parsed := ArgumentParser.parse args {}
  let parse_result := parsed.1
  let config := parsed.2
  let s : Run σ := { fs := fs, cin := cin, cerr := ArgumentParser.parseWarning args {} }
  if parse_result.show_help then
    some (if parse_result.success then 0 else -1, s.print ArgumentParser.showUsage)
  else if !parse_result.success then
    some (-1, { s with cerr := s.cerr ++ bytes "Error: " ++ parse_result.error_message
                          ++ bytes "\n" })
  else if config.isFindMode then handleFindMode P depth config s
  else if config.isGrepMode then handleGrepMode P depth config s
  else if config.isFartMode then handleFartMode P depth config s
  else some (-1, { s with cerr := s.cerr ++ bytes "Error: Invalid mode\n" })

end FartApplication

/-! ## Vocabulary of the specification -/

/-- The matches `ms` lie one after another from offset `lo` on: each starts at
or after the end of the one before (at or after `lo` for the first), has
length `n`, and ends within a text of `len` bytes. -/
def MatchesFrom (n len : Nat) : Nat → List FindResult → Prop
  | _, [] => True
  | lo, m :: ms =>
    lo ≤ m.position ∧ m.length = n ∧ m.position + m.length ≤ len ∧
      MatchesFrom n len (m.position + m.length) ms

/-- The bytes `L[a, b)` of a line. -/
def slice (L : Str) (a b : Nat) : Str := (L.take b).drop a

/-- The line the specification describes for replace mode, from offset
`start` on: the gap up to each match, taken from `L`, then that match's
replacement, and after the last match the rest of `L`. -/
def spliceFrom (L : Str) : Nat → List FindResult → Str
  | start, [] => slice L start L.length
  | start, m :: ms =>
    slice L start m.position ++ m.replacement ++ spliceFrom L (m.position + m.length) ms

/-- Sum of the lengths of the replacements of the matches. -/
def replacementBytes (ms : List FindResult) : Nat :=
  (ms.map (fun m => m.replacement.length)).sum

/-! ## Example configurations -/

/-- Replace "ab" by "xyz", ignoring case. -/
def replaceAbConfig : FartConfig :=
  { find_string := bytes "ab", replace_string := bytes "xyz", options := { ignore_case := true } }

/-- Search for "aa". -/
def searchAaConfig : FartConfig := { find_string := bytes "aa" }

/-- No find string, with c-style escapes, ignore-case and whole-word all on. -/
def emptyFindConfig : FartConfig :=
  { replace_string := bytes "x",
    options := { c_style := true, ignore_case := true, whole_word := true, adapt_case := true } }

/-- The command line `fart --remove *.txt foo`, without `argv[0]`. -/
def removeFooArgs : List Str := [bytes "--remove", bytes "*.txt", bytes "foo"]

/-- Replace "foo" by "bar", adapting the case and ignoring case. -/
def adaptFooBarConfig : FartConfig :=
  { find_string := bytes "foo", replace_string := bytes "bar",
    options := { adapt_case := true, ignore_case := true } }

/-- Search for "cat", whole words only or not. -/
def searchCatConfig (whole_word : Bool) : FartConfig :=
  { find_string := bytes "cat", options := { whole_word := whole_word } }

/-- Search for "aa", whole words only, ignoring case. -/
def searchAaWordConfig : FartConfig :=
  { find_string := bytes "aa", options := { whole_word := true, ignore_case := true } }

/-- Positions and lengths of a list of matches. -/
def spans (ms : List FindResult) : List (Nat × Nat) := ms.map (fun m => (m.position, m.length))

/-- Ignore case and expand escapes, with the given find string. -/
def escapedConfig (find_string : Str) : FartConfig :=
  { find_string := find_string, options := { ignore_case := true, c_style := true } }

/-- Ignore case, without escapes, with the given find string. -/
def ignoreCaseConfig (find_string : Str) : FartConfig :=
  { find_string := find_string, options := { ignore_case := true } }

/-- A configuration with the given three strings. -/
def stringsConfig (wildcard find_string replace_string : Str) : FartConfig :=
  { wildcard := wildcard, find_string := find_string, replace_string := replace_string }

/-- The simple escapes of the specification: the byte after the backslash and
the byte the pair stands for (`\n \t \r \b \f \a \v \\ \' \" \?`). -/
def simpleEscapes : List (Nat × Nat) :=
  [('n'.toNat, 10), ('t'.toNat, 9), ('r'.toNat, 13), ('b'.toNat, 8), ('f'.toNat, 12),
   ('a'.toNat, 7), ('v'.toNat, 11), ('\\'.toNat, 92), ('\''.toNat, 39), ('"'.toNat, 34),
   ('?'.toNat, 63)]

/-- Value of a hexadecimal digit character, `none` for any other byte. -/
def hexVal (c : Nat) : Option Nat :=
  if 48 ≤ c ∧ c ≤ 57 then some (c - 48)
  else if 97 ≤ c ∧ c ≤ 102 then some (c - 97 + 10)
  else if 65 ≤ c ∧ c ≤ 70 then some (c - 65 + 10)
  else none

/-- Whether the byte is one of the characters `'0'` to `'7'`. -/
def isOctalDigit (c : Nat) : Bool := decide (48 ≤ c) && decide (c ≤ 55)

/-- The number a run of octal digit characters denotes. -/
def octalValue (ds : Str) : Nat := ds.foldl (fun acc c => acc * 8 + (c - 48)) 0

/-! ## A small file system for the examples -/

/-- A file or directory of the example file system. -/
structure MemNode where
  path : Str
  is_dir : Bool := false
  content : Str := []
  deriving DecidableEq, Repr

/-- The example file system: the list of its files and directories. -/
abbrev MemFS := List MemNode

/-- The platform of the example file system: every file can be read and
written, `rename` replaces an existing target, and no regular expression
outside the modelled fragment compiles. -/
def memPlatform : Platform MemFS where
  pathExists fs p := fs.any (fun n => n.path == p)
  is_directory fs p := fs.any (fun n => n.path == p && n.is_dir)
  directory_entries fs d :=
    ((fs.filter (fun n => Path.parent_path n.path == d && n.path != d)).map
      (fun n => { path := n.path, is_regular_file := !n.is_dir, is_directory := n.is_dir }), none)
  ifstream_read fs p := (fs.find? (fun n => n.path == p && !n.is_dir)).map (fun n => n.content)
  ofstream_write fs p c :=
    (fs.filter (fun n => n.path != p) ++ [{ path := p, content := c }], true)
  rename fs p q :=
    match fs.find? (fun n => n.path == p) with
    | some n => Except.ok (fs.filter (fun m => m.path != p && m.path != q) ++ [{ n with path := q }])
    | none => Except.error (bytes "No such file or directory")
  copy_file fs p q :=
    match fs.find? (fun n => n.path == p && !n.is_dir) with
    | some n => (fs.filter (fun m => m.path != q) ++ [{ n with path := q }], true)
    | none => (fs, false)
  regex_match_other _ _ := none

/-- An example tree: `src/a.txt`, `src/b.c`, `src/.git/config`,
`src/lib/c.txt`. -/
def exampleTree : MemFS :=
  [ { path := bytes "src", is_dir := true },
    { path := bytes "src/a.txt", content := bytes "foo\nbar foo\n" },
    { path := bytes "src/b.c", content := bytes "int foo;\n" },
    { path := bytes "src/.git", is_dir := true },
    { path := bytes "src/.git/config", content := bytes "foo\n" },
    { path := bytes "src/lib", is_dir := true },
    { path := bytes "src/lib/c.txt", content := bytes "no match\nfoo" } ]

/-- Search for "foo", recursively; `git` tells whether `.git` is skipped. -/
def grepFooConfig (git : Bool) : FartConfig :=
  { wildcard := bytes "src", find_string := bytes "foo",
    options := { recursive := true, git := git } }

/-- The calls `new` made by a walk started on the directory `root`: every
descent is into an entry whose name the skip policy lets through, and every
call is made by the walk of `root` or of a directory descended into. -/
def WalkOf (options : Options) (root : Str) (new : List Event) : Prop :=
  ∀ e ∈ new,
    (∀ d p, e = Event.descend d p → shouldSkipDirectory (Path.filename p) options = false) ∧
    (e.dir_path = root ∨ ∃ d, Event.descend d e.dir_path ∈ new)

/-- A buffer of 1024 bytes of which the first `k` are control bytes. -/
def sampleBuffer (k : Nat) : Str := List.replicate k 1 ++ List.replicate (1024 - k) 65

/-- A file system with the one file `f`. -/
def oneFile (content : Str) : MemFS := [{ path := bytes "f", content := content }]

/-- Search for "foo" with the default options. -/
def defaultFooConfig : FartConfig := { wildcard := bytes "src", find_string := bytes "foo" }

/-- The calls of the walk of `src` in the example tree that skips `.git`. -/
def exampleWalk : List Event :=
  [ Event.dispatch (bytes "src") (bytes "src/a.txt"),
    Event.dispatch (bytes "src") (bytes "src/b.c"),
    Event.descend (bytes "src") (bytes "src/lib"),
    Event.dispatch (bytes "src/lib") (bytes "src/lib/c.txt") ]

/-- Replace "foo" by "X" in file contents; `preview` and `backup` as given. -/
def replaceFooConfig (preview backup : Bool) : FartConfig :=
  { wildcard := bytes "src", find_string := bytes "foo", replace_string := bytes "X",
    options := { preview := preview, backup := backup } }

/-- Replace "a" by "b" in file names; `preview` as given. -/
def renameConfig (preview : Bool) : FartConfig :=
  { wildcard := bytes "src", find_string := bytes "a", replace_string := bytes "b",
    options := { preview := preview, filename_mode := true } }

/-- The content the specification describes for replace mode: every line put
through `processLine` and followed by a newline. -/
def reassembled (tp : TextProcessor) (lines : List Str) : Str :=
  lines.flatMap (fun l => (processLine tp l).1 ++ bytes "\n")

/-- The text of lines each followed by a newline. -/
def joinLines (lines : List Str) : Str := lines.flatMap (fun l => l ++ bytes "\n")

/-- What a line adds to the count of `findInFile`, in the words of the
specification: its number of matches, or with invert 1 for a line without
match and 0 for a line with matches. -/
def lineContribution (fp : FileProcessor) (line : Str) : Int :=
  if fp.config.options.invert then
    (if countMatches fp.text_processor line = 0 then 1 else 0)
  else (countMatches fp.text_processor line : Int)

/-- The lines with a positive contribution as they are printed, in order, the
lines being numbered from `n + 1`: each is preceded by its number in brackets
when line numbers are asked for and followed by a newline. -/
def emittedLines (fp : FileProcessor) : Int → List Str → Str
  | _, [] => []
  | n, l :: ls =>
    (if 0 < lineContribution fp l then
      (if fp.config.options.line_numbers then
        bytes "[" ++ setw 4 (showInt (n + 1)) ++ bytes "]" else []) ++ l ++ bytes "\n"
     else []) ++ emittedLines fp (n + 1) ls

/-- Search for "foo"; `count` and `invert` as given. -/
def countFooConfig (count invert : Bool) : FartConfig :=
  { wildcard := bytes "src", find_string := bytes "foo",
    options := { count := count, invert := invert } }

/-- The outcome the specification describes for a batch with the given
outcomes of its children: the matches are summed, it succeeds when every child
did, and its message is the messages of the failed children, in order, each
followed by a newline. -/
def aggregate (children : List ProcessResult) : ProcessResult :=
  { success := children.all (fun c => c.success)
    matches_found := (children.map (fun c => c.matches_found)).sum
    error_message :=
      (children.filter (fun c => !c.success)).flatMap (fun c => c.error_message ++ bytes "\n") }

/-- The children of `processWildcards`: the outcome of every selector, in
order, each run in the state the one before left. -/
def wildcardOutcomes {σ : Type} (P : Platform σ) (fp : FileProcessor) (depth : Nat) :
    List Str → Run σ → Option (List ProcessResult × Run σ)
  | [], s => some ([], s)
  | wildcard :: rest, s =>
    match processWildcard P fp depth wildcard s with
    | none => none
    | some r =>
      (wildcardOutcomes P fp depth rest r.2).map (fun x => (r.1 :: x.1, x.2))

/-- The children of the walk of a directory: the outcome of `processFile` for
every regular file whose name matches the pattern and of the recursive call
for every subdirectory that is not skipped (when the walk is recursive), in
the order of the entries. -/
def entryOutcomes {σ : Type} (P : Platform σ) (fp : FileProcessor)
    (recurse : Str → Run σ → Option (ProcessResult × Run σ))
    (dir_path pattern : Str) (recursive : Bool) :
    List DirEntry → Run σ → Option (List ProcessResult × Run σ)
  | [], s => some ([], s)
  | entry :: rest, s =>
    if entry.is_regular_file then
      if matchesPattern P (Path.filename entry.path) pattern then
        let r := processFile P fp entry.path
          { s with trace := s.trace ++ [Event.dispatch dir_path entry.path] }
        (entryOutcomes P fp recurse dir_path pattern recursive rest r.2).map
          (fun x => (r.1 :: x.1, x.2))
      else entryOutcomes P fp recurse dir_path pattern recursive rest s
    else if entry.is_directory && recursive
        && !shouldSkipDirectory (Path.filename entry.path) fp.config.options then
      match recurse entry.path
          { s with trace := s.trace ++ [Event.descend dir_path entry.path] } with
      | none => none
      | some r =>
        (entryOutcomes P fp recurse dir_path pattern recursive rest r.2).map
          (fun x => (r.1 :: x.1, x.2))
    else entryOutcomes P fp recurse dir_path pattern recursive rest s

/-- A selector whose first part matches nothing in `src` and whose second part
is a file of the example tree. -/
def mixedSelector : Str := bytes "src/*.zzz,src/a.txt"

/-- The directory in which `processWildcards` looks for a selector that is not
an existing path: its parent path, or `.` when that is empty. -/
def directoryPart (wildcard : Str) : Str :=
  if (Path.parent_path wildcard).isEmpty then bytes "." else Path.parent_path wildcard

/-- The example platform with the file `src/b.c` unreadable. -/
def lockedPlatform : Platform MemFS :=
  { memPlatform with
    ifstream_read := fun fs p =>
      if p == bytes "src/b.c" then none else memPlatform.ifstream_read fs p }

/-- Whether `parse` reads the argument as options: options are still being
parsed, and the argument is longer than one character and starts with `-`. -/
def readsAsOption (parsing_options : Bool) (arg : Str) : Bool :=
  parsing_options && decide (arg.length > 1) && arg.getD 0 0 == '-'.toNat

/-- The arguments of a command line given as options, with `parsing_options`
telling whether a `--` has not yet been met. -/
def optionArgs : List Str → Bool → List Str
  | [], _ => []
  | arg :: rest, parsing_options =>
    if readsAsOption parsing_options arg then
      if arg == bytes "--" then optionArgs rest false
      else arg :: optionArgs rest parsing_options
    else optionArgs rest parsing_options

/-- The positional arguments of a command line. -/
def positionalArgs : List Str → Bool → List Str
  | [], _ => []
  | arg :: rest, parsing_options =>
    if readsAsOption parsing_options arg then
      if arg == bytes "--" then positionalArgs rest false
      else positionalArgs rest parsing_options
    else arg :: positionalArgs rest parsing_options

/-- The number of non-empty positional arguments. -/
def positionalCount (args : List Str) (parsing_options : Bool) : Nat :=
  ((positionalArgs args parsing_options).filter (fun a => !a.isEmpty)).length

/-- How many of the three strings of a configuration are set, in the order
wildcard, find string, replace string. -/
def slots (c : FartConfig) : Nat :=
  if !c.hasWildcard then 0 else if !c.hasFindString then 1
  else if !c.hasReplaceString then 2 else 3

/-- The command line `fart --count src foo --remove bar`. -/
def removeConflictArgs : List Str :=
  [bytes "--count", bytes "src", bytes "foo", bytes "--remove", bytes "bar"]

/-- The command line `fart -cn src foo`. -/
def countLineArgs : List Str := [bytes "-cn", bytes "src", bytes "foo"]

/-- A tree whose one file `src/a.txt` is empty. -/
def emptyFileTree : MemFS :=
  [ { path := bytes "src", is_dir := true },
    { path := bytes "src/a.txt", content := [] } ]

/-- Enumerate the files of `src`, recursively: no find string. -/
def findSrcConfig : FartConfig := { wildcard := bytes "src", options := { recursive := true } }

/-- The options with the flags of `--count` and `--line-number` cleared. -/
def clearCountLineOptions (o : Options) : Options :=
  { o with count := false, line_numbers := false }

/-- The configuration with the flags of `--count` and `--line-number` cleared:
two configurations with the same image differ in these two flags at most. -/
def clearCountLine (c : FartConfig) : FartConfig :=
  { c with options := clearCountLineOptions c.options }

/-- The command line without the arguments `--count` and `--line-number` that
`parse` reads as options. -/
def withoutCountLine : List Str → Bool → List Str
  | [], _ => []
  | arg :: rest, parsing_options =>
    if readsAsOption parsing_options arg then
      if arg == bytes "--" then arg :: withoutCountLine rest false
      else if arg == bytes "--count" || arg == bytes "--line-number" then
        withoutCountLine rest parsing_options
      else arg :: withoutCountLine rest parsing_options
    else arg :: withoutCountLine rest parsing_options

/-- The command line `fart --count --line-number src foo`. -/
def countLineLongArgs : List Str :=
  [bytes "--count", bytes "--line-number", bytes "src", bytes "foo"]

/-! ## Lemmas on `std::string::find` and the scan of `findMatches` -/

theorem findIn_bounds (p : Str) : ∀ (s : Str) (q r : Nat),
    findIn p s q = some r → q ≤ r ∧ r + p.length ≤ q + s.length := by
  intro s
  induction s with
  | nil =>
    intro q r h
    simp only [findIn] at h
    split at h
    · rename_i hp
      have hp2 : p <+: [] := List.isPrefixOf_iff_prefix.mp hp
      have := hp2.length_le
      simp at h this
      subst h
      simp [this]
    · simp at h
  | cons c cs ih =>
    intro q r h
    simp only [findIn] at h
    split at h
    · rename_i hp
      have hp2 : p <+: (c :: cs) := List.isPrefixOf_iff_prefix.mp hp
      have := hp2.length_le
      simp at h
      subst h
      exact ⟨le_refl _, by omega⟩
    · have := ih (q + 1) r h
      simp only [List.length_cons]
      omega

theorem find_bounds (s p : Str) (pos r : Nat) (h : find s p pos = some r) :
    pos ≤ r ∧ r + p.length ≤ s.length := by
  unfold find at h
  split at h
  · have := findIn_bounds p _ _ _ h
    simp only [List.length_drop] at this
    omega
  · simp at h

theorem find_none_of_gt (s p : Str) (pos : Nat) (h : s.length < pos) : find s p pos = none := by
  unfold find
  simp [Nat.not_le.mpr h]

theorem findMatchesLoop_append (tp : TextProcessor) (text search : Str) :
    ∀ (fuel pos : Nat) (acc : List FindResult),
      findMatchesLoop tp text search fuel pos acc
        = acc ++ findMatchesLoop tp text search fuel pos [] := by
  intro fuel
  induction fuel with
  | zero => intro pos acc; simp [findMatchesLoop]
  | succ fuel ih =>
    intro pos acc
    simp only [findMatchesLoop]
    split
    · simp
    · split
      · exact ih _ _
      · rw [ih _ (acc ++ _), ih _ ([] ++ _)]
        simp

theorem MatchesFrom.mono {n len lo lo' : Nat} {ms : List FindResult}
    (h : MatchesFrom n len lo' ms) (hlo : lo ≤ lo') : MatchesFrom n len lo ms := by
  cases ms with
  | nil => trivial
  | cons m ms =>
    obtain ⟨h1, h2, h3, h4⟩ := h
    exact ⟨le_trans hlo h1, h2, h3, h4⟩

theorem matchesFrom_loop (tp : TextProcessor) (text search : Str) :
    ∀ (fuel pos : Nat),
      MatchesFrom tp.find_string_normalized.length search.length pos
        (findMatchesLoop tp text search fuel pos []) := by
  intro fuel
  induction fuel with
  | zero => intro pos; simp [findMatchesLoop, MatchesFrom]
  | succ fuel ih =>
    intro pos
    simp only [findMatchesLoop]
    split
    · trivial
    · rename_i q hq
      have hb := find_bounds _ _ _ _ hq
      split
      · exact (ih (q + 1)).mono (by omega)
      · rw [findMatchesLoop_append]
        simp only [List.nil_append, List.singleton_append]
        exact ⟨hb.1, rfl, hb.2, ih _⟩

theorem findMatchesLoop_fuel (tp : TextProcessor) (text search : Str)
    (hP : tp.find_string_normalized ≠ []) :
    ∀ (fuel k pos : Nat) (acc : List FindResult), search.length + 1 ≤ pos + fuel →
      findMatchesLoop tp text search (fuel + k) pos acc
        = findMatchesLoop tp text search fuel pos acc := by
  have hn : 0 < tp.find_string_normalized.length := List.length_pos.mpr hP
  intro fuel
  induction fuel with
  | zero =>
    intro k pos acc h
    cases k with
    | zero => rfl
    | succ k =>
      simp only [Nat.zero_add, findMatchesLoop]
      rw [find_none_of_gt _ _ _ (by omega)]
  | succ fuel ih =>
    intro k pos acc h
    rw [show fuel + 1 + k = (fuel + k) + 1 by omega]
    simp only [findMatchesLoop]
    split
    · rfl
    · rename_i q hq
      have hb := find_bounds _ _ _ _ hq
      split
      · exact ih _ _ _ (by omega)
      · exact ih _ _ _ (by omega)

theorem expandLoop_fuel (input : Str) :
    ∀ (fuel k i : Nat) (result : Str), input.length ≤ i + fuel →
      expandLoop input (fuel + k) i result = expandLoop input fuel i result := by
  intro fuel
  induction fuel with
  | zero =>
    intro k i result h
    cases k with
    | zero => rfl
    | succ k => simp only [Nat.zero_add, expandLoop, Nat.not_lt.mpr (by omega : input.length ≤ i), if_false]
  | succ fuel ih =>
    intro k i result h
    rw [show fuel + 1 + k = (fuel + k) + 1 by omega]
    simp only [expandLoop]
    split
    · split
      · exact ih _ _ _ (by omega)
      · exact ih _ _ _ (by omega)
    · rfl

theorem length_toLowerCase (s : Str) : (toLowerCase s).length = s.length := by
  simp [toLowerCase]

theorem length_normalizeForComparison (tp : TextProcessor) (text : Str) :
    (normalizeForComparison tp text).length = text.length := by
  unfold normalizeForComparison
  split
  · exact length_toLowerCase text
  · rfl

/-- The matches of `findMatches` lie one after another from offset 0 on, each
of the length of the normalized find string and within the text. -/
theorem matchesFrom_findMatches (tp : TextProcessor) (text : Str) :
    MatchesFrom tp.find_string_normalized.length text.length 0 (findMatches tp text) := by
  unfold findMatches
  split
  · trivial
  · have h := matchesFrom_loop tp text (normalizeForComparison tp text) (text.length + 1) 0
    rwa [length_normalizeForComparison] at h

theorem MatchesFrom.forall_mem {n len : Nat} : ∀ {ms : List FindResult} {lo : Nat},
    MatchesFrom n len lo ms →
      ∀ m ∈ ms, lo ≤ m.position ∧ m.length = n ∧ m.position + m.length ≤ len := by
  intro ms
  induction ms with
  | nil => intro lo _ m hm; cases hm
  | cons a ms ih =>
    intro lo h m hm
    obtain ⟨h1, h2, h3, h4⟩ := h
    rcases List.mem_cons.mp hm with rfl | hm
    · exact ⟨h1, h2, h3⟩
    · have := ih h4 m hm
      exact ⟨by omega, this.2.1, this.2.2⟩

theorem MatchesFrom.chain {n len : Nat} : ∀ {ms : List FindResult} {lo : Nat},
    MatchesFrom n len lo ms →
      List.Chain' (fun a b : FindResult => a.position + a.length ≤ b.position) ms := by
  intro ms
  induction ms with
  | nil => intro lo _; exact List.chain'_nil
  | cons a ms ih =>
    intro lo h
    obtain ⟨_, _, _, h4⟩ := h
    cases ms with
    | nil => exact List.chain'_singleton a
    | cons b ms =>
      exact List.chain'_cons.mpr ⟨h4.1, ih h4⟩

theorem MatchesFrom.pairwise {n len : Nat} (hn : 0 < n) : ∀ {ms : List FindResult} {lo : Nat},
    MatchesFrom n len lo ms →
      List.Pairwise (fun a b : FindResult => a.position < b.position) ms := by
  intro ms
  induction ms with
  | nil => intro lo _; exact List.Pairwise.nil
  | cons a ms ih =>
    intro lo h
    obtain ⟨_, h2, _, h4⟩ := h
    refine List.Pairwise.cons ?_ (ih h4)
    intro b hb
    have := (h4.forall_mem b hb).1
    omega

/-- C1: for a non-empty normalized find string, the matches returned by
`findMatches` all have the length of that string and end within the text, each
ends at or before the start of the next, and their positions are strictly
increasing. -/
theorem C1_findMatches_increasing_disjoint (cfg : FartConfig) (T : Str)
    (hP : (TextProcessor.new cfg).find_string_normalized ≠ []) :
    (∀ m ∈ findMatches (TextProcessor.new cfg) T,
        m.length = (TextProcessor.new cfg).find_string_normalized.length ∧
        m.position + m.length ≤ T.length) ∧
    List.Chain' (fun a b : FindResult => a.position + a.length ≤ b.position)
      (findMatches (TextProcessor.new cfg) T) ∧
    List.Pairwise (fun a b : FindResult => a.position < b.position)
      (findMatches (TextProcessor.new cfg) T) := by
  have h := matchesFrom_findMatches (TextProcessor.new cfg) T
  refine ⟨fun m hm => (h.forall_mem m hm).2, h.chain, h.pairwise (List.length_pos.mpr hP)⟩

/-- Witness of C1: the find string "aa" in "aaaaa" (two matches, at 0 and 2). -/
theorem C1_witness :
    (TextProcessor.new searchAaConfig).find_string_normalized ≠ [] ∧
    findMatches (TextProcessor.new searchAaConfig) (bytes "aaaaa") = [⟨0, 2, []⟩, ⟨2, 2, []⟩] ∧
    ((∀ m ∈ findMatches (TextProcessor.new searchAaConfig) (bytes "aaaaa"),
        m.length = (TextProcessor.new searchAaConfig).find_string_normalized.length ∧
        m.position + m.length ≤ (bytes "aaaaa").length) ∧
    List.Chain' (fun a b : FindResult => a.position + a.length ≤ b.position)
      (findMatches (TextProcessor.new searchAaConfig) (bytes "aaaaa")) ∧
    List.Pairwise (fun a b : FindResult => a.position < b.position)
      (findMatches (TextProcessor.new searchAaConfig) (bytes "aaaaa"))) :=
  ⟨by decide, by decide,
    C1_findMatches_increasing_disjoint searchAaConfig (bytes "aaaaa") (by decide)⟩


/-! ## `processLine` -/

theorem substr_eq_slice (L : Str) (a b : Nat) : substr L a (b - a) = slice L a b := by
  simp [substr, slice, List.drop_take]

theorem slice_to_length (L : Str) (a : Nat) : slice L a L.length = substrFrom L a := by
  simp [slice, substrFrom]

theorem spliceLoop_eq (L : Str) : ∀ (ms : List FindResult) (acc : Str) (last : Nat),
    (spliceLoop L ms (acc, last)).1 ++ substrFrom L (spliceLoop L ms (acc, last)).2
      = acc ++ spliceFrom L last ms := by
  intro ms
  induction ms with
  | nil => intro acc last; simp [spliceLoop, spliceFrom, slice_to_length]
  | cons m ms ih =>
    intro acc last
    have h := ih (acc ++ substr L last (m.position - last) ++ m.replacement)
      (m.position + m.length)
    simp only [spliceLoop, List.foldl_cons] at h ⊢
    rw [h, substr_eq_slice]
    simp [spliceFrom, List.append_assoc]

theorem isGrepMode_false_of_isFartMode {cfg : FartConfig} (h : cfg.isFartMode = true) :
    cfg.isGrepMode = false := by
  simp only [FartConfig.isFartMode, FartConfig.isGrepMode, Bool.and_eq_true] at h ⊢
  simp [h.1, h.2]

theorem config_new (cfg : FartConfig) : (TextProcessor.new cfg).config = cfg := rfl

/-- Outside search-only mode `processLine` returns the spliced line and the
number of matches. -/
theorem processLine_eq_spliceFrom (tp : TextProcessor) (L : Str)
    (h : tp.config.isGrepMode = false) :
    processLine tp L = (spliceFrom L 0 (findMatches tp L), (findMatches tp L).length) := by
  unfold processLine
  rw [h]
  simp only [Bool.false_eq_true, if_false]
  split
  · rename_i hempty
    have : findMatches tp L = [] := List.isEmpty_iff.mp hempty
    simp [this, spliceFrom, slice]
  · have := spliceLoop_eq L (findMatches tp L) [] 0
    simp only [List.nil_append] at this
    rw [this]

/-- C2: in replace mode `processLine` returns the gaps of the line between the
matches, taken from the line itself, interleaved with the replacements of the
matches, and reports the number of matches; with no match the line is returned
as it is. -/
theorem C2_processLine_splices (cfg : FartConfig) (L : Str) (h : cfg.isFartMode = true) :
    processLine (TextProcessor.new cfg) L
      = (spliceFrom L 0 (findMatches (TextProcessor.new cfg) L),
         (findMatches (TextProcessor.new cfg) L).length) ∧
    (findMatches (TextProcessor.new cfg) L = [] →
      processLine (TextProcessor.new cfg) L = (L, 0)) := by
  have hg : (TextProcessor.new cfg).config.isGrepMode = false :=
    isGrepMode_false_of_isFartMode h
  have h1 := processLine_eq_spliceFrom (TextProcessor.new cfg) L hg
  refine ⟨h1, fun h0 => ?_⟩
  rw [h1, h0]
  simp [spliceFrom, slice]

/-- Witness of C2: replacing "ab" by "xyz", ignoring case, in "CaBbABD"; the
gaps keep their capitals. -/
theorem C2_witness :
    replaceAbConfig.isFartMode = true ∧
    processLine (TextProcessor.new replaceAbConfig) (bytes "CaBbABD") = (bytes "CxyzbxyzD", 2) ∧
    (processLine (TextProcessor.new replaceAbConfig) (bytes "CaBbABD")
      = (spliceFrom (bytes "CaBbABD") 0
          (findMatches (TextProcessor.new replaceAbConfig) (bytes "CaBbABD")),
         (findMatches (TextProcessor.new replaceAbConfig) (bytes "CaBbABD")).length) ∧
    (findMatches (TextProcessor.new replaceAbConfig) (bytes "CaBbABD") = [] →
      processLine (TextProcessor.new replaceAbConfig) (bytes "CaBbABD")
        = (bytes "CaBbABD", 0))) :=
  ⟨by decide, by decide,
    C2_processLine_splices replaceAbConfig (bytes "CaBbABD") (by decide)⟩

theorem length_slice (L : Str) (a b : Nat) (hb : b ≤ L.length) :
    (slice L a b).length = b - a := by
  simp [slice, Nat.min_eq_left hb]

theorem length_spliceFrom (L : Str) (n : Nat) : ∀ (ms : List FindResult) (lo : Nat),
    lo ≤ L.length → MatchesFrom n L.length lo ms →
      (spliceFrom L lo ms).length + ms.length * n
        = (L.length - lo) + replacementBytes ms := by
  intro ms
  induction ms with
  | nil =>
    intro lo hlo _
    simp [spliceFrom, replacementBytes, length_slice]
  | cons m ms ih =>
    intro lo hlo h
    obtain ⟨h1, h2, h3, h4⟩ := h
    have ih' := ih (m.position + m.length) h3 h4
    have hs := length_slice L lo m.position (by omega)
    simp only [spliceFrom, replacementBytes, List.length_append, List.length_cons, List.map_cons,
      List.sum_cons, Nat.succ_mul, hs] at ih' ⊢
    omega

theorem MatchesFrom.total_le {n len : Nat} : ∀ {ms : List FindResult} {lo : Nat},
    lo ≤ len → MatchesFrom n len lo ms → lo + ms.length * n ≤ len := by
  intro ms
  induction ms with
  | nil => intro lo hlo _; simpa using hlo
  | cons m ms ih =>
    intro lo hlo h
    obtain ⟨h1, h2, h3, h4⟩ := h
    have := ih h3 h4
    simp only [List.length_cons, Nat.succ_mul]
    omega

/-- C3: in replace mode the length of the line returned by `processLine` is
the length of the text, minus the number of matches times the length of the
normalized find string, plus the lengths of the replacements of the matches
(the matched spans fit in the text, so the subtraction is exact). -/
theorem C3_processLine_length (cfg : FartConfig) (T : Str) (h : cfg.isFartMode = true) :
    (findMatches (TextProcessor.new cfg) T).length
        * (TextProcessor.new cfg).find_string_normalized.length ≤ T.length ∧
    (processLine (TextProcessor.new cfg) T).1.length
      = T.length
        - (findMatches (TextProcessor.new cfg) T).length
            * (TextProcessor.new cfg).find_string_normalized.length
        + replacementBytes (findMatches (TextProcessor.new cfg) T) := by
  have hg : (TextProcessor.new cfg).config.isGrepMode = false :=
    isGrepMode_false_of_isFartMode h
  have hm := matchesFrom_findMatches (TextProcessor.new cfg) T
  have h1 := hm.total_le (Nat.zero_le _)
  have h2 := length_spliceFrom T _ _ 0 (Nat.zero_le _) hm
  rw [processLine_eq_spliceFrom _ _ hg]
  simp only
  omega

/-- Witness of C3: replacing "ab" by "xyz" in "CaBbABD" gives 7 - 2 * 2 + 6
bytes. -/
theorem C3_witness :
    replaceAbConfig.isFartMode = true ∧
    (processLine (TextProcessor.new replaceAbConfig) (bytes "CaBbABD")).1.length = 9 ∧
    ((findMatches (TextProcessor.new replaceAbConfig) (bytes "CaBbABD")).length
        * (TextProcessor.new replaceAbConfig).find_string_normalized.length
          ≤ (bytes "CaBbABD").length ∧
    (processLine (TextProcessor.new replaceAbConfig) (bytes "CaBbABD")).1.length
      = (bytes "CaBbABD").length
        - (findMatches (TextProcessor.new replaceAbConfig) (bytes "CaBbABD")).length
            * (TextProcessor.new replaceAbConfig).find_string_normalized.length
        + replacementBytes (findMatches (TextProcessor.new replaceAbConfig) (bytes "CaBbABD"))) :=
  ⟨by decide, by decide,
    C3_processLine_length replaceAbConfig (bytes "CaBbABD") (by decide)⟩


/-! ## Empty find string -/

theorem find_string_normalized_of_empty (cfg : FartConfig) (h : cfg.find_string = []) :
    (TextProcessor.new cfg).find_string_normalized = [] := by
  simp only [TextProcessor.new, h]
  cases cfg.options.c_style <;> cases cfg.options.ignore_case <;>
    simp [expandCStyleEscapes, expandLoop, toLowerCase]

/-- C4: with an empty find string `findMatches` returns no match and
`countMatches` returns 0, for every text and every setting of the options. -/
theorem C4_empty_find_string_no_match (cfg : FartConfig) (T : Str) (h : cfg.find_string = []) :
    findMatches (TextProcessor.new cfg) T = [] ∧ countMatches (TextProcessor.new cfg) T = 0 := by
  have hP := find_string_normalized_of_empty cfg h
  have hf : findMatches (TextProcessor.new cfg) T = [] := by
    unfold findMatches
    simp [hP]
  exact ⟨hf, by simp [countMatches, hf]⟩

/-- Witness of C4: no find string, escapes, ignore-case and whole-word on,
text "a b". -/
theorem C4_witness :
    emptyFindConfig.find_string = [] ∧
    (findMatches (TextProcessor.new emptyFindConfig) (bytes "a b") = [] ∧
      countMatches (TextProcessor.new emptyFindConfig) (bytes "a b") = 0) :=
  ⟨by decide, C4_empty_find_string_no_match emptyFindConfig (bytes "a b") (by decide)⟩

/-! ## Remove mode -/

theorem processLine_of_isGrepMode (tp : TextProcessor) (L : Str)
    (h : tp.config.isGrepMode = true) : processLine tp L = (L, countMatches tp L) := by
  unfold processLine
  simp [h]

theorem parseArgs_early (args : List Str) :
    ∀ (parsing_options : Bool) (result : ParseResult) (config : FartConfig),
      (ArgumentParser.parseArgs args parsing_options result config).1 = true →
      (ArgumentParser.parseArgs args parsing_options result config).2.1.success = false := by
  induction args with
  | nil => intro po result config h; simp [ArgumentParser.parseArgs] at h
  | cons arg rest ih =>
    intro po result config
    simp only [ArgumentParser.parseArgs]
    split_ifs with h1 h2 h3 h4 h5 h6 h7 h8 h9 <;>
      first
        | exact ih _ _ _
        | (intro _; simp_all)

/-- A successful parse with `--remove` leaves no replace string. -/
theorem parse_remove_replace_string (args : List Str) (cfg0 : FartConfig)
    (hs : (ArgumentParser.parse args cfg0).1.success = true)
    (hr : (ArgumentParser.parse args cfg0).2.options.remove = true) :
    (ArgumentParser.parse args cfg0).2.replace_string = [] := by
  unfold ArgumentParser.parse at hs hr ⊢
  simp only at hs hr ⊢
  by_cases he : (ArgumentParser.parseArgs args true { success := true } cfg0).1 = true
  · have := parseArgs_early args true { success := true } cfg0 he
    simp only [he, if_true] at hs
    rw [this] at hs
    cases hs
  · simp only [he, Bool.false_eq_true, if_false] at hs hr ⊢
    by_cases hc : ((ArgumentParser.parseArgs args true { success := true } cfg0).2.2.options.remove
        && (ArgumentParser.parseArgs args true { success := true } cfg0).2.2.hasReplaceString) = true
    · simp [hc] at hs
    · simp only [hc, Bool.false_eq_true, if_false] at hs hr ⊢
      by_cases hc2 : ((ArgumentParser.parseArgs args true { success := true } cfg0).2.2.options.remove
          && (ArgumentParser.parseArgs args true { success := true } cfg0).2.2.hasFindString) = true
      · simp only [hc2, if_true]
        rfl
      · simp only [hc2, Bool.false_eq_true, if_false] at hr ⊢
        simp only [Bool.and_eq_true, not_and, Bool.not_eq_true] at hc
        have := hc hr
        simpa [FartConfig.hasReplaceString] using this


/-- C5 (the code at the failing input): for `fart --remove *.txt foo` the
parse succeeds with `remove` set and an empty replace string, a first
`processLine` of "a foo b" returns the line as it is with one match, and a
second `processLine` of that output again reports one match, not zero. -/
theorem C5_remove_second_run_still_matches :
    (ArgumentParser.parse removeFooArgs {}).1.success = true ∧
    (ArgumentParser.parse removeFooArgs {}).2.options.remove = true ∧
    (ArgumentParser.parse removeFooArgs {}).2.find_string = bytes "foo" ∧
    (ArgumentParser.parse removeFooArgs {}).2.replace_string = [] ∧
    processLine (TextProcessor.new (ArgumentParser.parse removeFooArgs {}).2) (bytes "a foo b")
      = (bytes "a foo b", 1) ∧
    processLine (TextProcessor.new (ArgumentParser.parse removeFooArgs {}).2)
        (processLine (TextProcessor.new (ArgumentParser.parse removeFooArgs {}).2)
          (bytes "a foo b")).1
      = (bytes "a foo b", 1) := by
  decide

/-- C6 (what the code does): whenever `parse` succeeds with `--remove` and a
find string, the configuration it leaves is not in replace mode but in
search-only mode, and `processLine` returns every line unchanged, reporting
the number of matches. -/
theorem C6_remove_config_is_search_only (args : List Str) (cfg0 : FartConfig)
    (hs : (ArgumentParser.parse args cfg0).1.success = true)
    (hr : (ArgumentParser.parse args cfg0).2.options.remove = true)
    (hf : (ArgumentParser.parse args cfg0).2.hasFindString = true) :
    (ArgumentParser.parse args cfg0).2.isFartMode = false ∧
    (ArgumentParser.parse args cfg0).2.isGrepMode = true ∧
    ∀ L : Str, processLine (TextProcessor.new (ArgumentParser.parse args cfg0).2) L
      = (L, countMatches (TextProcessor.new (ArgumentParser.parse args cfg0).2) L) := by
  have h0 := parse_remove_replace_string args cfg0 hs hr
  have h1 : (ArgumentParser.parse args cfg0).2.hasReplaceString = false := by
    simp [FartConfig.hasReplaceString, h0]
  have hg : (ArgumentParser.parse args cfg0).2.isGrepMode = true := by
    simp [FartConfig.isGrepMode, hf, h1]
  refine ⟨by simp [FartConfig.isFartMode, hf, h1], hg, fun L => ?_⟩
  exact processLine_of_isGrepMode _ L hg

/-- Witness of C6: `fart --remove *.txt foo`; the line "a foo b" comes back
with its "foo". -/
theorem C6_witness :
    (ArgumentParser.parse removeFooArgs {}).1.success = true ∧
    (ArgumentParser.parse removeFooArgs {}).2.options.remove = true ∧
    (ArgumentParser.parse removeFooArgs {}).2.hasFindString = true ∧
    processLine (TextProcessor.new (ArgumentParser.parse removeFooArgs {}).2) (bytes "a foo b")
      = (bytes "a foo b", 1) ∧
    ((ArgumentParser.parse removeFooArgs {}).2.isFartMode = false ∧
    (ArgumentParser.parse removeFooArgs {}).2.isGrepMode = true ∧
    ∀ L : Str, processLine (TextProcessor.new (ArgumentParser.parse removeFooArgs {}).2) L
      = (L, countMatches (TextProcessor.new (ArgumentParser.parse removeFooArgs {}).2) L)) :=
  ⟨by decide, by decide, by decide, by decide,
    C6_remove_config_is_search_only removeFooArgs {} (by decide) (by decide) (by decide)⟩

/-! ## Case adaptation -/

/-- C7, as stated, fails: with find string "foo", replace string "bar",
adapt-case and ignore-case on, `processLine` of "FOO Foo foo" is not
"BAR Foo bar". -/
theorem C7_counterexample :
    (processLine (TextProcessor.new adaptFooBarConfig) (bytes "FOO Foo foo")).1
      ≠ bytes "BAR Foo bar" := by
  decide

/-- C7, amended: with find string "foo", replace string "bar", adapt-case and
ignore-case on, `processLine` of "FOO Foo foo" finds three matches and returns
"BAR bar bar": the mixed-case match "Foo" gets the replace string as
configured. -/
theorem C7_adapt_case_example :
    processLine (TextProcessor.new adaptFooBarConfig) (bytes "FOO Foo foo")
      = (bytes "BAR bar bar", 3) ∧
    (findMatches (TextProcessor.new adaptFooBarConfig) (bytes "FOO Foo foo"))
      = [⟨0, 3, bytes "BAR"⟩, ⟨4, 3, bytes "bar"⟩, ⟨8, 3, bytes "bar"⟩] := by
  decide

/-! ## Whole words -/

/-- C10: "cat" in "concatenate cat scatter" is found once, at 12, with
whole-word on, and three times, at 3, 12 and 17, with whole-word off. -/
theorem C10_cat_example :
    (findMatches (TextProcessor.new (searchCatConfig true)) (bytes "concatenate cat scatter")).map
        (fun m => (m.position, m.length)) = [(12, 3)] ∧
    (findMatches (TextProcessor.new (searchCatConfig false)) (bytes "concatenate cat scatter")).map
        (fun m => (m.position, m.length)) = [(3, 3), (12, 3), (17, 3)] := by
  decide


/-- C9, as stated, fails: position 2 of "a  b" lies between two blanks, which
do not differ in word-character class, and `isWordBoundary` holds there. -/
theorem C9_counterexample :
    isWordBoundary (bytes "a  b") 2 = true ∧
    ¬ (2 = 0 ∨ 2 ≥ (bytes "a  b").length ∨
        isWordChar ((bytes "a  b").getD (2 - 1) 0) ≠ isWordChar ((bytes "a  b").getD 2 0)) := by
  decide

/-- C9, amended: `isWordBoundary text pos` is true exactly when `pos = 0`, or
`pos ≥ len(text)`, or at least one of `text[pos-1]` and `text[pos]` is not a
word character; so it is false exactly at a position strictly inside the text
between two word characters, and a position between two non-word characters
is a word boundary. -/
theorem C9_isWordBoundary_iff (text : Str) (pos : Nat) :
    (isWordBoundary text pos = true ↔
      pos = 0 ∨ pos ≥ text.length ∨
        isWordChar (text.getD (pos - 1) 0) = false ∨ isWordChar (text.getD pos 0) = false) ∧
    (isWordBoundary text pos = false ↔
      0 < pos ∧ pos < text.length ∧
        isWordChar (text.getD (pos - 1) 0) = true ∧ isWordChar (text.getD pos 0) = true) := by
  unfold isWordBoundary
  by_cases h0 : pos = 0
  · simp [h0]
  · by_cases h1 : text.length ≤ pos
    · simp [h0, h1]
    · have h1' : pos < text.length := by omega
      have h0' : 0 < pos := by omega
      simp [h0, h1, h1', h0']

/-! ## `adaptCase` -/

theorem islower_of_isupper {c : Nat} (h : isupper c = true) : islower c = false := by
  simp only [isupper, islower, Bool.and_eq_true, decide_eq_true_eq, Bool.and_eq_false_iff,
    decide_eq_false_iff_not] at h ⊢
  omega

theorem caseCounts_foldl (text : Str) : ∀ n : Nat × Nat,
    text.foldl (fun n c =>
      if isupper c then (n.1 + 1, n.2)
      else if islower c then (n.1, n.2 + 1)
      else n) n = (n.1 + text.countP isupper, n.2 + text.countP islower) := by
  induction text with
  | nil => intro n; simp
  | cons c cs ih =>
    intro n
    simp only [List.foldl_cons]
    rw [ih]
    by_cases hu : isupper c = true
    · simp [hu, islower_of_isupper hu, List.countP_cons]
      omega
    · by_cases hl : islower c = true
      · simp [hu, hl, List.countP_cons]
        omega
      · simp [hu, hl, List.countP_cons]

theorem caseCounts_eq (text : Str) :
    caseCounts text = (text.countP isupper, text.countP islower) := by
  unfold caseCounts
  rw [caseCounts_foldl]
  simp

theorem analyzeCaseType_eq (text : Str) :
    analyzeCaseType text =
      if text.countP isupper = 0 ∧ text.countP islower = 0 then CaseType.NONE
      else if text.countP islower = 0 then CaseType.UPPER
      else if text.countP isupper = 0 then CaseType.LOWER
      else CaseType.MIXED := by
  unfold analyzeCaseType
  simp only [caseCounts_eq]
  by_cases hu : text.countP isupper = 0 <;> by_cases hl : text.countP islower = 0 <;>
    simp [hu, hl, Nat.pos_of_ne_zero]

theorem countP_eq_zero_iff (p : Nat → Bool) (O : Str) :
    O.countP p = 0 ↔ ∀ c ∈ O, p c = false := by
  rw [List.countP_eq_zero]
  simp

theorem replacement_loop (tp : TextProcessor) (text search : Str) :
    ∀ (fuel pos : Nat), ∀ m ∈ findMatchesLoop tp text search fuel pos [],
      m.replacement =
        if tp.config.options.adapt_case then
          adaptCase tp.config.replace_string (substr text m.position m.length)
        else tp.config.replace_string := by
  intro fuel
  induction fuel with
  | zero => intro pos m hm; simp [findMatchesLoop] at hm
  | succ fuel ih =>
    intro pos m hm
    simp only [findMatchesLoop] at hm
    split at hm
    · cases hm
    · split at hm
      · exact ih _ m hm
      · rw [findMatchesLoop_append] at hm
        simp only [List.nil_append, List.singleton_append, List.mem_cons] at hm
        rcases hm with rfl | hm
        · rfl
        · exact ih _ m hm

/-- The replacement of every match of `findMatches`: the adapted replace
string when adapt-case is on, the replace string otherwise. -/
theorem replacement_findMatches (tp : TextProcessor) (text : Str) :
    ∀ m ∈ findMatches tp text,
      m.replacement =
        if tp.config.options.adapt_case then
          adaptCase tp.config.replace_string (substr text m.position m.length)
        else tp.config.replace_string := by
  intro m hm
  unfold findMatches at hm
  split at hm
  · cases hm
  · exact replacement_loop tp text _ _ _ m hm

/-- C8: `adaptCase R O` is `toUpperCase R` when `O` has a letter and no
lowercase letter, `toLowerCase R` when `O` has a letter and no uppercase
letter, and `R` when `O` has no letter or has both an uppercase and a
lowercase letter; with adapt-case off every match of `findMatches` carries the
configured replace string. -/
theorem C8_adaptCase_cases (R O : Str) :
    ((∃ c ∈ O, isalpha c = true) → (∀ c ∈ O, islower c = false) →
      adaptCase R O = toUpperCase R) ∧
    ((∃ c ∈ O, isalpha c = true) → (∀ c ∈ O, isupper c = false) →
      adaptCase R O = toLowerCase R) ∧
    ((∀ c ∈ O, isalpha c = false) → adaptCase R O = R) ∧
    ((∃ c ∈ O, isupper c = true) → (∃ c ∈ O, islower c = true) → adaptCase R O = R) ∧
    (∀ (cfg : FartConfig) (T : Str), cfg.options.adapt_case = false →
      ∀ m ∈ findMatches (TextProcessor.new cfg) T, m.replacement = cfg.replace_string) := by
  have key := analyzeCaseType_eq O
  refine ⟨?_, ?_, ?_, ?_, ?_⟩
  · rintro ⟨c, hc, ha⟩ hl
    have hl0 : O.countP islower = 0 := (countP_eq_zero_iff _ _).mpr hl
    have hu0 : O.countP isupper ≠ 0 := by
      intro h0
      have := (countP_eq_zero_iff _ _).mp h0 c hc
      simp [isalpha, this, hl c hc] at ha
    simp [adaptCase, key, hl0, hu0]
  · rintro ⟨c, hc, ha⟩ hu
    have hu0 : O.countP isupper = 0 := (countP_eq_zero_iff _ _).mpr hu
    have hl0 : O.countP islower ≠ 0 := by
      intro h0
      have := (countP_eq_zero_iff _ _).mp h0 c hc
      simp [isalpha, this, hu c hc] at ha
    simp [adaptCase, key, hl0, hu0]
  · intro hn
    have hu0 : O.countP isupper = 0 :=
      (countP_eq_zero_iff _ _).mpr (fun c hc => by
        have := hn c hc
        simp only [isalpha, Bool.or_eq_false_iff] at this
        exact this.1)
    have hl0 : O.countP islower = 0 :=
      (countP_eq_zero_iff _ _).mpr (fun c hc => by
        have := hn c hc
        simp only [isalpha, Bool.or_eq_false_iff] at this
        exact this.2)
    simp [adaptCase, key, hl0, hu0]
  · rintro ⟨c, hc, hcu⟩ ⟨d, hd, hdl⟩
    have hu0 : O.countP isupper ≠ 0 := by
      intro h0
      have := (countP_eq_zero_iff _ _).mp h0 c hc
      simp [this] at hcu
    have hl0 : O.countP islower ≠ 0 := by
      intro h0
      have := (countP_eq_zero_iff _ _).mp h0 d hd
      simp [this] at hdl
    simp [adaptCase, key, hl0, hu0]
  · intro cfg T hoff m hm
    have := replacement_findMatches (TextProcessor.new cfg) T m hm
    rw [config_new, hoff] at this
    simpa using this

/-- Witness of C8: the replacement "Bar" against the originals "FOO 1",
"foo_", "12 " and "Foo", and the matches of "aa" in "aaaaa" without
adapt-case. -/
theorem C8_witness :
    adaptCase (bytes "Bar") (bytes "FOO 1") = bytes "BAR" ∧
    adaptCase (bytes "Bar") (bytes "foo_") = bytes "bar" ∧
    adaptCase (bytes "Bar") (bytes "12 ") = bytes "Bar" ∧
    adaptCase (bytes "Bar") (bytes "Foo") = bytes "Bar" ∧
    (∀ m ∈ findMatches (TextProcessor.new replaceAbConfig) (bytes "CaBbABD"),
      m.replacement = bytes "xyz") :=
  ⟨(C8_adaptCase_cases (bytes "Bar") (bytes "FOO 1")).1 ⟨70, by decide, by decide⟩ (by decide),
   (C8_adaptCase_cases (bytes "Bar") (bytes "foo_")).2.1 ⟨102, by decide, by decide⟩ (by decide),
   (C8_adaptCase_cases (bytes "Bar") (bytes "12 ")).2.2.1 (by decide),
   (C8_adaptCase_cases (bytes "Bar") (bytes "Foo")).2.2.2.1 ⟨70, by decide, by decide⟩
     ⟨111, by decide, by decide⟩,
   (C8_adaptCase_cases [] []).2.2.2.2 replaceAbConfig (bytes "CaBbABD") (by decide)⟩


/-! ## Correctness of `std::string::find` and completeness of the scan -/

theorem findIn_sound (p : Str) : ∀ (s : Str) (q r : Nat),
    findIn p s q = some r → p <+: s.drop (r - q) := by
  intro s
  induction s with
  | nil =>
    intro q r h
    simp only [findIn] at h
    split at h
    · rename_i hp
      simpa using List.isPrefixOf_iff_prefix.mp hp
    · simp at h
  | cons c cs ih =>
    intro q r h
    simp only [findIn] at h
    split at h
    · rename_i hp
      simp only [Option.some.injEq] at h
      subst h
      simpa using List.isPrefixOf_iff_prefix.mp hp
    · have hb := findIn_bounds p cs (q + 1) r h
      have := ih (q + 1) r h
      rw [show r - q = (r - (q + 1)) + 1 by omega]
      simpa using this

theorem findIn_complete (p : Str) : ∀ (s : Str) (q k : Nat),
    p <+: s.drop k → ∃ r, findIn p s q = some r ∧ r ≤ q + k := by
  intro s
  induction s with
  | nil =>
    intro q k h
    simp only [List.drop_nil] at h
    exact ⟨q, by simp [findIn, List.isPrefixOf_iff_prefix.mpr h], by omega⟩
  | cons c cs ih =>
    intro q k h
    simp only [findIn]
    split
    · exact ⟨q, rfl, by omega⟩
    · rename_i hp
      cases k with
      | zero =>
        exfalso
        exact hp (List.isPrefixOf_iff_prefix.mpr (by simpa using h))
      | succ k =>
        obtain ⟨r, hr, hle⟩ := ih (q + 1) k (by simpa using h)
        exact ⟨r, hr, by omega⟩

/-- A position returned by `find` is an occurrence of the pattern. -/
theorem find_sound (s p : Str) (pos r : Nat) (h : find s p pos = some r) :
    substr s r p.length = p := by
  have hb := find_bounds s p pos r h
  unfold find at h
  split at h
  · have := findIn_sound p _ _ _ h
    rw [List.drop_drop] at this
    rw [show pos + (r - pos) = r by omega] at this
    exact (List.prefix_iff_eq_take.mp this).symm
  · simp at h

/-- The search of `find` misses no occurrence at or after `pos`: it returns one
at or before any occurrence `q ≥ pos`. -/
theorem find_complete (s p : Str) (pos q : Nat) (hq : pos ≤ q) (hp : p ≠ [])
    (hocc : substr s q p.length = p) :
    ∃ r, find s p pos = some r ∧ r ≤ q := by
  have hpre : p <+: s.drop q := by
    rw [List.prefix_iff_eq_take]
    exact hocc.symm
  have hlen : q + p.length ≤ s.length := by
    have := hpre.length_le
    have hn : 0 < p.length := List.length_pos.mpr hp
    simp only [List.length_drop] at this
    omega
  unfold find
  rw [if_pos (by omega)]
  have h2 : p <+: (s.drop pos).drop (q - pos) := by
    rw [List.drop_drop, show pos + (q - pos) = q by omega]
    exact hpre
  obtain ⟨r, hr, hle⟩ := findIn_complete p (s.drop pos) pos (q - pos) h2
  exact ⟨r, hr, by omega⟩


theorem findMatchesLoop_complete (tp : TextProcessor) (text S : Str) (q : Nat)
    (hP : tp.find_string_normalized ≠ [])
    (hocc : substr S q tp.find_string_normalized.length = tp.find_string_normalized)
    (hw : tp.config.options.whole_word = true →
      isWordBoundary S q = true ∧
        isWordBoundary S (q + tp.find_string_normalized.length) = true) :
    ∀ (fuel pos : Nat), S.length + 1 ≤ pos + fuel → pos ≤ q →
      ∃ m ∈ findMatchesLoop tp text S fuel pos [],
        m.position = q ∨ (m.position < q ∧ q < m.position + m.length) := by
  have hn : 0 < tp.find_string_normalized.length := List.length_pos.mpr hP
  have hqlen : q + tp.find_string_normalized.length ≤ S.length := by
    have h1 : (substr S q tp.find_string_normalized.length).length
        = tp.find_string_normalized.length := by rw [hocc]
    simp only [substr, List.length_take, List.length_drop] at h1
    omega
  intro fuel
  induction fuel with
  | zero => intro pos h1 h2; omega
  | succ fuel ih =>
    intro pos h1 h2
    obtain ⟨r, hr, hrq⟩ := find_complete S _ pos q h2 hP hocc
    have hb := find_bounds _ _ _ _ hr
    simp only [findMatchesLoop, hr]
    split
    · rename_i hrej
      have hne : r ≠ q := by
        rintro rfl
        simp only [Bool.and_eq_true, Bool.or_eq_true, Bool.not_eq_true'] at hrej
        have := hw hrej.1
        rcases hrej.2 with h | h
        · rw [this.1] at h; cases h
        · rw [this.2] at h; cases h
      exact ih (r + 1) (by omega) (by omega)
    · rw [findMatchesLoop_append]
      simp only [List.nil_append, List.singleton_append, List.mem_cons, exists_eq_or_imp]
      by_cases hin : q < r + tp.find_string_normalized.length
      · left
        by_cases hrq' : r = q
        · left; exact hrq'
        · right; exact ⟨by omega, hin⟩
      · right
        exact ih _ (by omega) (by omega)

/-- C11: for a non-empty normalized find string, every position `q` at which
it occurs in the normalized text (with word boundaries at `q` and at
`q + len(P)` when whole-word is on) is the position of a match returned by
`findMatches`, or lies strictly inside a returned match that starts before
`q`. -/
theorem C11_findMatches_complete (cfg : FartConfig) (T : Str) (q : Nat)
    (hP : (TextProcessor.new cfg).find_string_normalized ≠ [])
    (hocc : substr (normalizeForComparison (TextProcessor.new cfg) T) q
        (TextProcessor.new cfg).find_string_normalized.length
      = (TextProcessor.new cfg).find_string_normalized)
    (hw : cfg.options.whole_word = true →
      isWordBoundary (normalizeForComparison (TextProcessor.new cfg) T) q = true ∧
      isWordBoundary (normalizeForComparison (TextProcessor.new cfg) T)
        (q + (TextProcessor.new cfg).find_string_normalized.length) = true) :
    ∃ m ∈ findMatches (TextProcessor.new cfg) T,
      m.position = q ∨ (m.position < q ∧ q < m.position + m.length) := by
  unfold findMatches
  rw [if_neg (by simpa using hP)]
  have hl := length_normalizeForComparison (TextProcessor.new cfg) T
  exact findMatchesLoop_complete (TextProcessor.new cfg) T _ q hP hocc hw _ 0
    (by omega) (Nat.zero_le _)

/-- Witness of C11: "aa" as a whole word, ignoring case, in "xaa AA": the
candidate at 1 is rejected, the occurrence at 4 is eligible and is returned. -/
theorem C11_witness :
    findMatches (TextProcessor.new searchAaWordConfig) (bytes "xaa AA") = [⟨4, 2, []⟩] ∧
    ∃ m ∈ findMatches (TextProcessor.new searchAaWordConfig) (bytes "xaa AA"),
      m.position = 4 ∨ (m.position < 4 ∧ 4 < m.position + m.length) :=
  ⟨by decide,
    C11_findMatches_complete searchAaWordConfig (bytes "xaa AA") 4 (by decide) (by decide)
      (fun _ => by decide)⟩


/-! ## Normalization of the find string -/

theorem find_string_normalized_eq (cfg : FartConfig) :
    (TextProcessor.new cfg).find_string_normalized
      = (if cfg.options.ignore_case then toLowerCase else id)
          ((if cfg.options.c_style then expandCStyleEscapes else id) cfg.find_string) := by
  simp only [TextProcessor.new]
  cases cfg.options.c_style <;> cases cfg.options.ignore_case <;> rfl

/-- C15: the normalized find string is the find string, escape-expanded when
c-style is on, and then lowercased when ignore-case is on; with both on,
backslash-X-4-1 normalizes to "x41" and backslash-x-4-1 to "a". -/
theorem C15_normalization_order (cfg : FartConfig) :
    (TextProcessor.new cfg).find_string_normalized
      = (if cfg.options.ignore_case then toLowerCase else id)
          ((if cfg.options.c_style then expandCStyleEscapes else id) cfg.find_string) ∧
    (TextProcessor.new (escapedConfig (bytes "\\X41"))).find_string_normalized = bytes "x41" ∧
    (TextProcessor.new (escapedConfig (bytes "\\X41"))).find_string_normalized ≠ bytes "a" ∧
    (TextProcessor.new (escapedConfig (bytes "\\x41"))).find_string_normalized = bytes "a" := by
  exact ⟨find_string_normalized_eq cfg, by decide, by decide, by decide⟩

/-! ## Run modes -/

/-- C17: with a non-empty wildcard exactly one of `isFindMode`, `isGrepMode`
and `isFartMode` holds (find mode without a find string, grep mode with a find
string and no replace string, fart mode with both), and for every
configuration no two of them hold together. -/
theorem C17_run_modes (cfg : FartConfig) :
    (cfg.hasWildcard = true →
      (cfg.isFindMode = true ∨ cfg.isGrepMode = true ∨ cfg.isFartMode = true) ∧
      (cfg.isFindMode = true ↔ cfg.find_string = []) ∧
      (cfg.isGrepMode = true ↔ cfg.find_string ≠ [] ∧ cfg.replace_string = []) ∧
      (cfg.isFartMode = true ↔ cfg.find_string ≠ [] ∧ cfg.replace_string ≠ [])) ∧
    ¬ (cfg.isFindMode = true ∧ cfg.isGrepMode = true) ∧
    ¬ (cfg.isFindMode = true ∧ cfg.isFartMode = true) ∧
    ¬ (cfg.isGrepMode = true ∧ cfg.isFartMode = true) := by
  simp only [FartConfig.isFindMode, FartConfig.isGrepMode, FartConfig.isFartMode,
    FartConfig.hasWildcard, FartConfig.hasFindString, FartConfig.hasReplaceString]
  cases cfg.wildcard <;> cases cfg.find_string <;> cases cfg.replace_string <;> simp

/-- Witness of C17: the three modes with the wildcard "*.c". -/
theorem C17_witness :
    (stringsConfig (bytes "*.c") [] []).isFindMode = true ∧
    (stringsConfig (bytes "*.c") (bytes "a") []).isGrepMode = true ∧
    (stringsConfig (bytes "*.c") (bytes "a") (bytes "b")).isFartMode = true ∧
    ((stringsConfig (bytes "*.c") (bytes "a") []).isFindMode = true ∨
      (stringsConfig (bytes "*.c") (bytes "a") []).isGrepMode = true ∨
      (stringsConfig (bytes "*.c") (bytes "a") []).isFartMode = true) :=
  ⟨by decide, by decide, by decide,
    ((C17_run_modes (stringsConfig (bytes "*.c") (bytes "a") [])).1 (by decide)).1⟩

/-! ## Case-insensitive matching -/

theorem spans_findMatchesLoop (tp1 tp2 : TextProcessor) (text1 text2 S : Str)
    (hP : tp1.find_string_normalized = tp2.find_string_normalized)
    (hw : tp1.config.options.whole_word = tp2.config.options.whole_word) :
    ∀ (fuel pos : Nat),
      spans (findMatchesLoop tp1 text1 S fuel pos [])
        = spans (findMatchesLoop tp2 text2 S fuel pos []) := by
  intro fuel
  induction fuel with
  | zero => intro pos; rfl
  | succ fuel ih =>
    intro pos
    simp only [findMatchesLoop, hP, hw]
    split
    · rfl
    · split
      · exact ih _
      · rw [findMatchesLoop_append, findMatchesLoop_append tp2]
        simp only [spans, List.map_append, List.map_cons, List.map_nil, List.nil_append]
        have := ih (‹Nat› + tp2.find_string_normalized.length)
        simp only [spans] at this
        rw [this]

/-- The positions and lengths of the matches depend only on the normalized
find string, the normalized text and the whole-word flag. -/
theorem spans_findMatches (tp1 tp2 : TextProcessor) (text1 text2 : Str)
    (hP : tp1.find_string_normalized = tp2.find_string_normalized)
    (hw : tp1.config.options.whole_word = tp2.config.options.whole_word)
    (hS : normalizeForComparison tp1 text1 = normalizeForComparison tp2 text2) :
    spans (findMatches tp1 text1) = spans (findMatches tp2 text2) := by
  have hl : text1.length = text2.length := by
    have := congrArg List.length hS
    simpa [length_normalizeForComparison] using this
  unfold findMatches
  rw [hP, hS, hl]
  split
  · rfl
  · exact spans_findMatchesLoop tp1 tp2 text1 text2 _ hP hw _ _

/-- C16, as stated, fails: with ignore-case and c-style on, the find strings
backslash-x-4-1 and backslash-X-4-1 are case variants of each other, yet in
"a x41" the first is found at 0 (one byte) and the second at 2 (three
bytes). -/
theorem C16_counterexample :
    toLowerCase (bytes "\\x41") = toLowerCase (bytes "\\X41") ∧
    spans (findMatches (TextProcessor.new (escapedConfig (bytes "\\x41"))) (bytes "a x41"))
      = [(0, 1)] ∧
    spans (findMatches (TextProcessor.new (escapedConfig (bytes "\\X41"))) (bytes "a x41"))
      = [(2, 3)] := by
  decide

/-- C16, amended: with ignore-case on, texts with the same lowercase form get
matches at the same positions with the same lengths, and so does any find
string whose escape-expanded form (the find string itself when c-style is off)
is a case variant of the escape-expanded configured find string; and
`processLine` returns the line itself, not its lowercase copy, when there is
no match or in search-only mode. -/
theorem C16_case_insensitive (cfg : FartConfig) (F2 T1 T2 : Str)
    (hi : cfg.options.ignore_case = true)
    (hT : toLowerCase T1 = toLowerCase T2)
    (hF : toLowerCase ((if cfg.options.c_style then expandCStyleEscapes else id) F2)
      = toLowerCase ((if cfg.options.c_style then expandCStyleEscapes else id) cfg.find_string)) :
    spans (findMatches (TextProcessor.new cfg) T1)
      = spans (findMatches (TextProcessor.new cfg) T2) ∧
    spans (findMatches (TextProcessor.new (cfg.setFindString F2)) T1)
      = spans (findMatches (TextProcessor.new cfg) T1) ∧
    (cfg.options.c_style = false → toLowerCase F2 = toLowerCase cfg.find_string) ∧
    (∀ L : Str, findMatches (TextProcessor.new cfg) L = [] ∨ cfg.isGrepMode = true →
      (processLine (TextProcessor.new cfg) L).1 = L) := by
  refine ⟨?_, ?_, ?_, ?_⟩
  · refine spans_findMatches (TextProcessor.new cfg) (TextProcessor.new cfg) T1 T2 rfl rfl ?_
    simp only [normalizeForComparison, config_new, hi, if_true]
    exact hT
  · refine spans_findMatches (TextProcessor.new (cfg.setFindString F2)) (TextProcessor.new cfg)
      T1 T1 ?_ rfl rfl
    have h1 := (find_string_normalized_eq (cfg.setFindString F2))
    have h2 := (find_string_normalized_eq cfg)
    rw [h1, h2]
    simp only [FartConfig.setFindString, hi, if_true]
    exact hF
  · intro hc
    simpa [hc] using hF
  · intro L h
    by_cases hg : cfg.isGrepMode = true
    · rw [processLine_of_isGrepMode _ _ (by rw [config_new]; exact hg)]
    · rcases h with h | h
      · rw [processLine_eq_spliceFrom _ _ (by rw [config_new]; simpa using hg), h]
        simp [spliceFrom, slice]
      · exact absurd h hg

/-- Witness of C16: "ab" against "AB" in "xAbx" and "XABX", ignoring case,
without escapes. -/
theorem C16_witness :
    spans (findMatches (TextProcessor.new (ignoreCaseConfig (bytes "ab"))) (bytes "xAbx"))
      = [(1, 2)] ∧
    (spans (findMatches (TextProcessor.new (ignoreCaseConfig (bytes "ab"))) (bytes "xAbx"))
      = spans (findMatches (TextProcessor.new (ignoreCaseConfig (bytes "ab"))) (bytes "XABX")) ∧
    spans (findMatches
        (TextProcessor.new ((ignoreCaseConfig (bytes "ab")).setFindString (bytes "AB")))
        (bytes "xAbx"))
      = spans (findMatches (TextProcessor.new (ignoreCaseConfig (bytes "ab"))) (bytes "xAbx")) ∧
    ((ignoreCaseConfig (bytes "ab")).options.c_style = false →
      toLowerCase (bytes "AB") = toLowerCase (ignoreCaseConfig (bytes "ab")).find_string) ∧
    (∀ L : Str, findMatches (TextProcessor.new (ignoreCaseConfig (bytes "ab"))) L = [] ∨
        (ignoreCaseConfig (bytes "ab")).isGrepMode = true →
      (processLine (TextProcessor.new (ignoreCaseConfig (bytes "ab"))) L).1 = L)) :=
  ⟨by decide,
    C16_case_insensitive (ignoreCaseConfig (bytes "ab")) (bytes "AB") (bytes "xAbx")
      (bytes "XABX") (by decide) (by decide) (by decide)⟩


/-! ## Escape expansion -/

theorem expandEscape_cons (c : Nat) (s : Str) (i : Nat) :
    expandEscape (c :: s) (i + 1) = expandEscape s i := by
  have h1 : (c :: s).getD (i + 1 + 1) 0 = s.getD (i + 1) 0 := by simp
  have h2 : substr (c :: s) (i + 1 + 2) 2 = substr s (i + 2) 2 := by
    simp [substr, show i + 1 + 2 = (i + 2) + 1 by omega]
  have h3 : octalRun (c :: s) (i + 1) = octalRun s i := by
    simp [octalRun]
  have h4 : (i + 1 + 3 < (c :: s).length) = (i + 3 < s.length) := by
    simp only [List.length_cons, eq_iff_iff]; omega
  simp only [expandEscape, h1, h2, h3, h4]

theorem expandLoop_cons (c : Nat) (s : Str) :
    ∀ (fuel i : Nat) (acc : Str),
      expandLoop (c :: s) fuel (i + 1) acc = expandLoop s fuel i acc := by
  intro fuel
  induction fuel with
  | zero => intro i acc; rfl
  | succ fuel ih =>
    intro i acc
    have h1 : (i + 1 < (c :: s).length) = (i < s.length) := by
      simp only [List.length_cons, eq_iff_iff]; omega
    have h2 : (i + 1 + 1 < (c :: s).length) = (i + 1 < s.length) := by
      simp only [List.length_cons, eq_iff_iff]; omega
    have h3 : (c :: s).getD (i + 1) 0 = s.getD i 0 := by simp
    simp only [expandLoop, h1, h2, h3, expandEscape_cons]
    rw [show i + 1 + (expandEscape s i).2 + 1 + 1 = (i + (expandEscape s i).2 + 1 + 1) + 1 by omega,
      ih, ih]

theorem expandLoop_shift (pre s : Str) :
    ∀ (fuel i : Nat) (acc : Str),
      expandLoop (pre ++ s) fuel (pre.length + i) acc = expandLoop s fuel i acc := by
  induction pre with
  | nil => intro fuel i acc; simp
  | cons c pre ih =>
    intro fuel i acc
    rw [show (c :: pre).length + i = (pre.length + i) + 1 by simp; omega]
    rw [List.cons_append, expandLoop_cons, ih]

theorem expandLoop_acc (input : Str) :
    ∀ (fuel i : Nat) (acc : Str),
      expandLoop input fuel i acc = acc ++ expandLoop input fuel i [] := by
  intro fuel
  induction fuel with
  | zero => intro i acc; simp [expandLoop]
  | succ fuel ih =>
    intro i acc
    simp only [expandLoop]
    split
    · split
      · rw [ih _ (acc ++ _), ih _ ([] ++ _)]; simp
      · rw [ih _ (acc ++ _), ih _ ([] ++ _)]; simp
    · simp

theorem expandLoop_succ (input : Str) (fuel i : Nat) (result : Str) :
    expandLoop input (fuel + 1) i result =
      if i < input.length then
        if input.getD i 0 == 92 && decide (i + 1 < input.length) then
          expandLoop input fuel (i + (expandEscape input i).2 + 1 + 1)
            (result ++ [(expandEscape input i).1])
        else
          expandLoop input fuel (i + 1) (result ++ [input.getD i 0])
      else result := rfl

/-- One round of the loop of `expandCStyleEscapes` on an escape: a backslash
followed by at least one byte yields the byte of `expandEscape` and resumes
after the bytes the escape used. -/
theorem expandCStyleEscapes_escape (used rest : Str) (c : Nat)
    (h : (expandEscape (92 :: c :: (used ++ rest)) 0).2 = used.length) :
    expandCStyleEscapes (92 :: c :: (used ++ rest))
      = (expandEscape (92 :: c :: (used ++ rest)) 0).1 :: expandCStyleEscapes rest := by
  unfold expandCStyleEscapes
  have hlen : (92 :: c :: (used ++ rest)).length = (rest.length + used.length + 1) + 1 := by
    simp; omega
  rw [hlen, expandLoop_succ]
  rw [if_pos (by simp), if_pos (by simp)]
  rw [expandLoop_acc, h]
  simp only [List.nil_append, List.singleton_append, Nat.zero_add]
  congr 1
  have := expandLoop_shift (92 :: c :: used) rest (rest.length + used.length + 1) 0 []
  simp only [List.length_cons, Nat.add_zero, List.cons_append] at this
  rw [this]
  exact expandLoop_fuel rest rest.length (used.length + 1) 0 [] (by omega)

/-- A byte that is not a backslash is copied. -/
theorem expandCStyleEscapes_cons (c : Nat) (rest : Str) (h : c ≠ 92) :
    expandCStyleEscapes (c :: rest) = c :: expandCStyleEscapes rest := by
  unfold expandCStyleEscapes
  rw [List.length_cons, expandLoop_succ]
  rw [if_pos (by simp), if_neg (by simp [h])]
  rw [expandLoop_acc]
  simp only [List.nil_append, List.singleton_append, List.getD_cons_zero]
  congr 1
  exact expandLoop_cons c rest rest.length 0 []


theorem expandEscape_simple (p : Nat × Nat) (hp : p ∈ simpleEscapes) (rest : Str) :
    expandEscape (92 :: p.1 :: rest) 0 = (p.2, 0) := by
  simp only [simpleEscapes, List.mem_cons, List.mem_singleton, List.not_mem_nil, or_false] at hp
  rcases hp with rfl | rfl | rfl | rfl | rfl | rfl | rfl | rfl | rfl | rfl | rfl <;> rfl

theorem expandEscape_other (c : Nat) (rest : Str)
    (hs : c ∉ simpleEscapes.map (fun p => p.1)) (hx : c ≠ 120) (ho : isOctalDigit c = false) :
    expandEscape (92 :: c :: rest) 0 = (c, 0) := by
  have hs' : c ≠ 110 ∧ c ≠ 116 ∧ c ≠ 114 ∧ c ≠ 98 ∧ c ≠ 102 ∧ c ≠ 97 ∧ c ≠ 118 ∧ c ≠ 92 ∧
      c ≠ 39 ∧ c ≠ 34 ∧ c ≠ 63 := by
    simp only [simpleEscapes, List.map_cons, List.map_nil, List.mem_cons, List.mem_singleton,
      List.not_mem_nil, or_false, not_or] at hs
    simpa using hs
  obtain ⟨h1, h2, h3, h4, h5, h6, h7, h8, h9, h10, h11⟩ := hs'
  simp only [isOctalDigit] at ho
  simp [expandEscape, h1, h2, h3, h4, h5, h6, h7, h8, h9, h10, h11, hx, ho]

theorem expandCStyleEscapes_no_backslash (s : Str) (h : 92 ∉ s) : expandCStyleEscapes s = s := by
  induction s with
  | nil => rfl
  | cons c rest ih =>
    simp only [List.mem_cons, not_or] at h
    rw [expandCStyleEscapes_cons c rest (fun hc => h.1 hc.symm), ih h.2]

/-- Bytes before the first backslash are copied. -/
theorem expandCStyleEscapes_append (pre s : Str) (h : 92 ∉ pre) :
    expandCStyleEscapes (pre ++ s) = pre ++ expandCStyleEscapes s := by
  induction pre with
  | nil => rfl
  | cons c rest ih =>
    simp only [List.mem_cons, not_or] at h
    rw [List.cons_append, expandCStyleEscapes_cons c _ (fun hc => h.1 hc.symm), ih h.2]
    rfl

/-- C12: `expandCStyleEscapes` turns a backslash followed by one of
`n t r b f a v \ ' " ?` into the C character of that escape, turns a backslash
followed by any other byte that is neither `x` nor an octal digit into that
byte, and copies every byte that is not a backslash, in order; so the two
bytes backslash-t become one tab. -/
theorem C12_simple_escapes :
    (∀ p ∈ simpleEscapes, ∀ rest : Str,
      expandCStyleEscapes (92 :: p.1 :: rest) = p.2 :: expandCStyleEscapes rest) ∧
    (∀ (c : Nat) (rest : Str), c ∉ simpleEscapes.map (fun p => p.1) → c ≠ 'x'.toNat →
      isOctalDigit c = false →
      expandCStyleEscapes (92 :: c :: rest) = c :: expandCStyleEscapes rest) ∧
    (∀ (c : Nat) (rest : Str), c ≠ 92 →
      expandCStyleEscapes (c :: rest) = c :: expandCStyleEscapes rest) ∧
    (∀ pre s : Str, 92 ∉ pre → expandCStyleEscapes (pre ++ s) = pre ++ expandCStyleEscapes s) ∧
    expandCStyleEscapes (bytes "\\t") = [9] ∧
    (TextProcessor.new (escapedConfig (bytes "a\\tb"))).find_string_normalized = [97, 9, 98] := by
  refine ⟨?_, ?_, expandCStyleEscapes_cons, expandCStyleEscapes_append, by decide, by decide⟩
  · intro p hp rest
    have h := expandCStyleEscapes_escape [] rest p.1
      (by rw [List.nil_append, expandEscape_simple p hp rest]; rfl)
    rw [List.nil_append, expandEscape_simple p hp rest] at h
    exact h
  · intro c rest hs hx ho
    have h := expandCStyleEscapes_escape [] rest c
      (by rw [List.nil_append, expandEscape_other c rest hs hx ho]; rfl)
    rw [List.nil_append, expandEscape_other c rest hs hx ho] at h
    exact h

/-- Witness of C12: backslash-n, backslash-q and a plain text. -/
theorem C12_witness :
    expandCStyleEscapes (bytes "\\nab") = 10 :: expandCStyleEscapes (bytes "ab") ∧
    expandCStyleEscapes (bytes "\\qab") = 'q'.toNat :: expandCStyleEscapes (bytes "ab") ∧
    expandCStyleEscapes (bytes "ab") = 'a'.toNat :: expandCStyleEscapes (bytes "b") ∧
    expandCStyleEscapes (bytes "ab" ++ bytes "\\n") = bytes "ab" ++ expandCStyleEscapes (bytes "\\n") :=
  ⟨C12_simple_escapes.1 ('n'.toNat, 10) (by decide) (bytes "ab"),
   C12_simple_escapes.2.1 'q'.toNat (bytes "ab") (by decide) (by decide) (by decide),
   C12_simple_escapes.2.2.1 'a'.toNat (bytes "b") (by decide),
   C12_simple_escapes.2.2.2.1 (bytes "ab") (bytes "\\n") (by decide)⟩


theorem hexVal_facts {c a : Nat} (h : hexVal c = some a) :
    digitVal c = some a ∧ a < 16 ∧ isspace c = false ∧ c ≠ 45 ∧ c ≠ 43 ∧ c ≠ 120 ∧ c ≠ 88 := by
  simp only [hexVal] at h
  simp only [digitVal, isdigit, islower, isupper, isspace]
  split_ifs at h with h1 h2 h3
  · simp only [Option.some.injEq] at h
    have e1 : decide (48 ≤ c) = true := by simp; omega
    have e2 : decide (c ≤ 57) = true := by simp; omega
    refine ⟨by simp [e1, e2, h], by omega, ?_, by omega, by omega, by omega, by omega⟩
    simp; omega
  · simp only [Option.some.injEq] at h
    have e1 : decide (c ≤ 57) = false := by simp; omega
    have e2 : decide (97 ≤ c) = true := by simp; omega
    have e3 : decide (c ≤ 122) = true := by simp; omega
    refine ⟨by simp [e1, e2, e3]; omega, by omega, ?_, by omega, by omega, by omega, by omega⟩
    simp; omega
  · simp only [Option.some.injEq] at h
    have e1 : decide (c ≤ 57) = false := by simp; omega
    have e2 : decide (97 ≤ c) = false := by simp; omega
    have e3 : decide (65 ≤ c) = true := by simp; omega
    have e4 : decide (c ≤ 90) = true := by simp; omega
    refine ⟨by simp [e1, e2, e3, e4]; omega, by omega, ?_, by omega, by omega, by omega, by omega⟩
    simp; omega

theorem toChar_natCast (n : Nat) : toChar (n : Int) = n % 256 := by
  unfold toChar
  omega

theorem stoi_hex_pair {h1 h2 a b : Nat} (ha : hexVal h1 = some a) (hb : hexVal h2 = some b) :
    stoi [h1, h2] 16 = some ((16 * a + b : Nat) : Int) := by
  obtain ⟨d1, a16, s1, m1, p1, x1, X1⟩ := hexVal_facts ha
  obtain ⟨d2, b16, s2, m2, p2, x2, X2⟩ := hexVal_facts hb
  have g1 : isDigitOf 16 h1 = true := by simp [isDigitOf, d1, a16]
  have g2 : isDigitOf 16 h2 = true := by simp [isDigitOf, d2, b16]
  simp only [stoi, List.dropWhile, s1, List.head?_cons, Option.some.injEq]
  simp [m1, p1, x2, X2, List.takeWhile, g1, g2, digitsValue, d1, d2]
  omega


theorem expandEscape_hex {h1 h2 a b : Nat} (rest : Str)
    (ha : hexVal h1 = some a) (hb : hexVal h2 = some b) :
    expandEscape (92 :: 120 :: ([h1, h2] ++ rest)) 0 = (16 * a + b, 2) := by
  have hs := stoi_hex_pair ha hb
  have a16 := (hexVal_facts ha).2.1
  have b16 := (hexVal_facts hb).2.1
  have hsub : substr (92 :: 120 :: ([h1, h2] ++ rest)) (0 + 2) 2 = [h1, h2] := by
    simp [substr]
  have hlen : 0 + 3 < (92 :: 120 :: ([h1, h2] ++ rest)).length := by simp
  simp only [expandEscape, hsub, hs, if_pos hlen]
  simp only [Nat.zero_add, List.getD_cons_succ, List.getD_cons_zero, toChar_natCast]
  simp
  omega

theorem isOctalDigit_facts {c : Nat} (h : isOctalDigit c = true) :
    digitVal c = some (c - 48) ∧ c - 48 < 8 ∧ 48 ≤ c ∧ c ≤ 55 ∧ isspace c = false := by
  simp only [isOctalDigit, Bool.and_eq_true, decide_eq_true_eq] at h
  have e1 : decide (48 ≤ c) = true := by simp; omega
  have e2 : decide (c ≤ 57) = true := by simp; omega
  refine ⟨by simp [digitVal, isdigit, e1, e2], by omega, h.1, h.2, ?_⟩
  simp [isspace]; omega

theorem stoi_octal (ds : Str) (hne : ds ≠ []) (hlen : ds.length ≤ 3)
    (hall : ∀ d ∈ ds, isOctalDigit d = true) :
    stoi ds 8 = some ((octalValue ds : Nat) : Int) ∧ octalValue ds < 512 := by
  rcases ds with _ | ⟨d1, _ | ⟨d2, _ | ⟨d3, _ | ⟨d4, t⟩⟩⟩⟩
  · exact absurd rfl hne
  · obtain ⟨v1, b1, l1, u1, s1⟩ := isOctalDigit_facts (hall d1 (by simp))
    have g1 : isDigitOf 8 d1 = true := by simp [isDigitOf, v1, b1]
    have m1 : d1 ≠ 45 := by omega
    have p1 : d1 ≠ 43 := by omega
    simp only [stoi, List.dropWhile, s1, List.head?_cons, Option.some.injEq]
    simp [m1, p1, List.takeWhile, g1, digitsValue, octalValue, v1]
    omega
  · obtain ⟨v1, b1, l1, u1, s1⟩ := isOctalDigit_facts (hall d1 (by simp))
    obtain ⟨v2, b2, l2, u2, s2⟩ := isOctalDigit_facts (hall d2 (by simp))
    have g1 : isDigitOf 8 d1 = true := by simp [isDigitOf, v1, b1]
    have g2 : isDigitOf 8 d2 = true := by simp [isDigitOf, v2, b2]
    have m1 : d1 ≠ 45 := by omega
    have p1 : d1 ≠ 43 := by omega
    simp only [stoi, List.dropWhile, s1, List.head?_cons, Option.some.injEq]
    simp [m1, p1, List.takeWhile, g1, g2, digitsValue, octalValue, v1, v2]
    omega
  · obtain ⟨v1, b1, l1, u1, s1⟩ := isOctalDigit_facts (hall d1 (by simp))
    obtain ⟨v2, b2, l2, u2, s2⟩ := isOctalDigit_facts (hall d2 (by simp))
    obtain ⟨v3, b3, l3, u3, s3⟩ := isOctalDigit_facts (hall d3 (by simp))
    have g1 : isDigitOf 8 d1 = true := by simp [isDigitOf, v1, b1]
    have g2 : isDigitOf 8 d2 = true := by simp [isDigitOf, v2, b2]
    have g3 : isDigitOf 8 d3 = true := by simp [isDigitOf, v3, b3]
    have m1 : d1 ≠ 45 := by omega
    have p1 : d1 ≠ 43 := by omega
    simp only [stoi, List.dropWhile, s1, List.head?_cons, Option.some.injEq]
    simp [m1, p1, List.takeWhile, g1, g2, g3, digitsValue, octalValue, v1, v2, v3]
    omega
  · simp at hlen

theorem octalRun_eq (d1 : Nat) (tail rest : Str) (hlen : (d1 :: tail).length ≤ 3)
    (hall : ∀ d ∈ d1 :: tail, isOctalDigit d = true)
    (hend : (d1 :: tail).length = 3 ∨ ∀ c, rest.head? = some c → isOctalDigit c = false) :
    octalRun (92 :: d1 :: (tail ++ rest)) 0 = d1 :: tail := by
  have hp : ∀ d, isOctalDigit d = (decide (48 ≤ d) && decide (d ≤ 55)) := fun _ => rfl
  simp only [octalRun, Nat.zero_add, List.drop_succ_cons, List.drop_zero, ← hp]
  rcases tail with _ | ⟨d2, _ | ⟨d3, _ | ⟨d4, t⟩⟩⟩
  · have o1 := hall d1 (by simp)
    rcases hend with h | h
    · simp at h
    · rcases rest with _ | ⟨c, r⟩
      · simp [List.takeWhile, o1]
      · have := h c rfl
        simp [List.takeWhile, o1, this]
  · have o1 := hall d1 (by simp)
    have o2 := hall d2 (by simp)
    rcases hend with h | h
    · simp at h
    · rcases rest with _ | ⟨c, r⟩
      · simp [List.takeWhile, o1, o2]
      · have := h c rfl
        simp [List.takeWhile, o1, o2, this]
  · have o1 := hall d1 (by simp)
    have o2 := hall d2 (by simp)
    have o3 := hall d3 (by simp)
    simp [List.takeWhile, o1, o2, o3]
  · simp at hlen

theorem expandEscape_octal (d1 : Nat) (tail rest : Str) (hlen : (d1 :: tail).length ≤ 3)
    (hall : ∀ d ∈ d1 :: tail, isOctalDigit d = true)
    (hend : (d1 :: tail).length = 3 ∨ ∀ c, rest.head? = some c → isOctalDigit c = false) :
    expandEscape (92 :: d1 :: (tail ++ rest)) 0
      = (octalValue (d1 :: tail) % 256, tail.length) := by
  have hrun := octalRun_eq d1 tail rest hlen hall hend
  have hs := (stoi_octal (d1 :: tail) (by simp) hlen hall).1
  obtain ⟨_, _, l1, u1, _⟩ := isOctalDigit_facts (hall d1 (by simp))
  have e1 : decide (48 ≤ d1) = true := by simp; omega
  have e2 : decide (d1 ≤ 55) = true := by simp; omega
  have n1 : ∀ k, (k < 48 ∨ 55 < k) → (d1 == k) = false := by
    intro k hk
    simp; omega
  simp only [expandEscape, hrun, hs, Nat.zero_add, List.getD_cons_succ, List.getD_cons_zero,
    n1 110 (by omega), n1 116 (by omega), n1 114 (by omega), n1 98 (by omega),
    n1 102 (by omega), n1 97 (by omega), n1 118 (by omega), n1 92 (by omega),
    n1 39 (by omega), n1 34 (by omega), n1 63 (by omega), n1 120 (by omega), e1, e2,
    toChar_natCast]
  simp


/-- C13: a backslash, `x` and two hexadecimal digit characters expand to the
one byte `16 * val(h1) + val(h2)` and the scan resumes after the four bytes,
wherever they stand and also at the very end; a backslash and a run of one to
three octal digits (ended by the first other byte, the end, or the third
digit) expand to the one byte of the octal number modulo 256 and the scan
resumes after the run; backslash-x-4-1 and backslash-1-0-1 both give "A". -/
theorem C13_numeric_escapes :
    (∀ (pre rest : Str) (h1 h2 a b : Nat), 92 ∉ pre → hexVal h1 = some a → hexVal h2 = some b →
      expandCStyleEscapes (pre ++ 92 :: 'x'.toNat :: h1 :: h2 :: rest)
        = pre ++ (16 * a + b) :: expandCStyleEscapes rest) ∧
    (∀ (pre ds rest : Str), 92 ∉ pre → ds ≠ [] → ds.length ≤ 3 →
      (∀ d ∈ ds, isOctalDigit d = true) →
      (ds.length = 3 ∨ ∀ c, rest.head? = some c → isOctalDigit c = false) →
      expandCStyleEscapes (pre ++ 92 :: (ds ++ rest))
        = pre ++ (octalValue ds % 256) :: expandCStyleEscapes rest) ∧
    expandCStyleEscapes (bytes "\\x41") = bytes "A" ∧
    expandCStyleEscapes (bytes "\\101") = bytes "A" := by
  refine ⟨?_, ?_, by decide, by decide⟩
  · intro pre rest h1 h2 a b hpre ha hb
    rw [expandCStyleEscapes_append pre _ hpre]
    have he := expandEscape_hex rest ha hb
    have h := expandCStyleEscapes_escape [h1, h2] rest 120 (by rw [he]; rfl)
    rw [he] at h
    exact congrArg (pre ++ ·) h
  · intro pre ds rest hpre hne hlen hall hend
    rw [expandCStyleEscapes_append pre _ hpre]
    rcases ds with _ | ⟨d1, tail⟩
    · exact absurd rfl hne
    · have he := expandEscape_octal d1 tail rest hlen hall hend
      have h := expandCStyleEscapes_escape tail rest d1 (by rw [he])
      rw [he] at h
      exact congrArg (pre ++ ·) h

/-- Witness of C13: "a", backslash-x-f-F at the very end, and backslash-7-7
followed by "8". -/
theorem C13_witness :
    expandCStyleEscapes (bytes "a\\xfF") = [97, 255] ∧
    expandCStyleEscapes (bytes "a" ++ 92 :: 'x'.toNat :: 'f'.toNat :: 'F'.toNat :: [])
      = bytes "a" ++ (16 * 15 + 15) :: expandCStyleEscapes [] ∧
    expandCStyleEscapes (bytes "\\778") = [63, 56] ∧
    expandCStyleEscapes ([] ++ 92 :: (bytes "77" ++ bytes "8"))
      = [] ++ (octalValue (bytes "77") % 256) :: expandCStyleEscapes (bytes "8") :=
  ⟨by decide,
   C13_numeric_escapes.1 (bytes "a") [] 'f'.toNat 'F'.toNat 15 15 (by decide) (by decide)
     (by decide),
   by decide,
   C13_numeric_escapes.2.1 [] (bytes "77") (bytes "8") (by decide) (by decide) (by decide)
     (by decide) (Or.inr (by decide))⟩

/-- C14 (the code at the failing inputs): a backslash-x followed by "4G", by
" 4", by "-1" or by "0x" is not followed by two hexadecimal digits, yet no
literal `x` is emitted: the escape yields the byte 4, 4, 255 or 0 and uses up
the two bytes after the `x`. Only when fewer than two bytes remain, or the two
bytes start no number at all, does the `x` come out with the bytes after it. -/
theorem C14_malformed_hex_examples :
    expandCStyleEscapes (bytes "\\x4G") = [4] ∧
    expandCStyleEscapes (bytes "\\x4G") ≠ bytes "x4G" ∧
    expandCStyleEscapes (bytes "\\x 4") = [4] ∧
    expandCStyleEscapes (bytes "\\x-1") = [255] ∧
    expandCStyleEscapes (bytes "\\x0x") = [0] ∧
    expandCStyleEscapes (bytes "\\xG4") = bytes "xG4" ∧
    expandCStyleEscapes (bytes "\\x4") = bytes "x4" ∧
    expandCStyleEscapes (bytes "\\x") = bytes "x" := by
  decide


/-! ## Binary classification -/

theorem countControl_foldl (buffer : Str) : ∀ n : Nat,
    buffer.foldl (fun n c => if isControlByte c then n + 1 else n) n
      = n + buffer.countP isControlByte := by
  induction buffer with
  | nil => intro n; simp
  | cons c cs ih =>
    intro n
    simp only [List.foldl_cons, List.countP_cons]
    rw [ih]
    split <;> omega

theorem isBinarySample_iff (buffer : Str) :
    isBinarySample buffer = true ↔ buffer.length ≤ 20 * buffer.countP isControlByte := by
  simp only [isBinarySample, countControl_foldl, decide_eq_true_eq]
  omega

theorem isControlByte_iff (c : Nat) :
    isControlByte c = true ↔ c = 0 ∨ (1 ≤ c ∧ c ≤ 31 ∧ c ≠ 9 ∧ c ≠ 10 ∧ c ≠ 13) := by
  simp only [isControlByte, Bool.or_eq_true, Bool.and_eq_true, beq_iff_eq, decide_eq_true_eq,
    bne_iff_ne]
  omega

/-- C18: a file that can be read is classified binary exactly when, among the
`n` bytes sampled (its first 1024 bytes, or all of them when it is shorter),
the number `k` of control bytes (0, or 1 to 31 other than 9, 10 and 13)
satisfies `20 * k ≥ n`; with 1024 bytes sampled, 52 control bytes make it
binary and 51 do not. -/
theorem C18_binary_threshold {σ : Type} (P : Platform σ) (fs : σ) (file_path content : Str)
    (hread : P.ifstream_read fs file_path = some content) :
    (isBinaryFile P fs file_path = true ↔
      20 * (content.take 1024).countP isControlByte ≥ (content.take 1024).length) ∧
    (∀ c, isControlByte c = true ↔ c = 0 ∨ (1 ≤ c ∧ c ≤ 31 ∧ c ≠ 9 ∧ c ≠ 10 ∧ c ≠ 13)) ∧
    ((content.take 1024).length = 1024 → (content.take 1024).countP isControlByte = 52 →
      isBinaryFile P fs file_path = true) ∧
    ((content.take 1024).length = 1024 → (content.take 1024).countP isControlByte = 51 →
      isBinaryFile P fs file_path = false) := by
  have h : isBinaryFile P fs file_path = isBinarySample (content.take 1024) := by
    simp [isBinaryFile, hread]
  refine ⟨by rw [h]; exact isBinarySample_iff _, isControlByte_iff, ?_, ?_⟩
  · intro hn hk
    rw [h, isBinarySample_iff]; omega
  · intro hn hk
    have := isBinarySample_iff (content.take 1024)
    rw [h]
    cases hb : isBinarySample (content.take 1024)
    · rfl
    · have := this.mp hb
      omega

set_option maxRecDepth 100000 in
/-- Witness of C18: files of 1024 bytes with 52 and with 51 control bytes. -/
theorem C18_witness :
    memPlatform.ifstream_read (oneFile (sampleBuffer 52)) (bytes "f") = some (sampleBuffer 52) ∧
    isBinaryFile memPlatform (oneFile (sampleBuffer 52)) (bytes "f") = true ∧
    isBinaryFile memPlatform (oneFile (sampleBuffer 51)) (bytes "f") = false :=
  ⟨by decide,
   (C18_binary_threshold memPlatform (oneFile (sampleBuffer 52)) (bytes "f") (sampleBuffer 52)
      (by decide)).2.2.1 (by decide) (by decide),
   (C18_binary_threshold memPlatform (oneFile (sampleBuffer 51)) (bytes "f") (sampleBuffer 51)
      (by decide)).2.2.2 (by decide) (by decide)⟩

/-! ## Glob patterns -/

/-- C20 (the code at the failing inputs): on every platform the pattern
"*.txt" becomes the regular expression ".*.*txt" and matches "atxt", and the
pattern "a.c" becomes "a.*c" and matches "abc" and "ac"; "*.txt" matches
"a.txt" and "a.c" matches "a.c" as they should. -/
theorem C20_glob_examples {σ : Type} (P : Platform σ) :
    regexPattern (bytes "*.txt") = bytes ".*.*txt" ∧
    matchesPattern P (bytes "atxt") (bytes "*.txt") = true ∧
    regexPattern (bytes "a.c") = bytes "a.*c" ∧
    matchesPattern P (bytes "abc") (bytes "a.c") = true ∧
    matchesPattern P (bytes "ac") (bytes "a.c") = true ∧
    matchesPattern P (bytes "a.txt") (bytes "*.txt") = true ∧
    matchesPattern P (bytes "a.c") (bytes "a.c") = true :=
  ⟨by decide, rfl, by decide, rfl, rfl, rfl, rfl⟩


/-! ## The directory walk -/

theorem updateProgress_trace {σ : Type} (fp : FileProcessor) (message : Str) (s : Run σ) :
    (updateProgress fp message s).trace = s.trace := by
  unfold updateProgress
  split <;> rfl

theorem updateProgress_fs {σ : Type} (fp : FileProcessor) (message : Str) (s : Run σ) :
    (updateProgress fp message s).fs = s.fs := by
  unfold updateProgress
  split <;> rfl

theorem findInFile_trace {σ : Type} (P : Platform σ) (fp : FileProcessor) (file_path : Str)
    (s : Run σ) : (findInFile P fp file_path s).2.trace = s.trace := by
  unfold findInFile
  split
  · rfl
  · simp only [Run.countFile, Run.print]
    split_ifs <;> rfl

theorem replaceInFile_trace {σ : Type} (P : Platform σ) (fp : FileProcessor) (file_path : Str)
    (s : Run σ) : (replaceInFile P fp file_path s).2.trace = s.trace := by
  unfold replaceInFile
  split
  · rfl
  · simp only [Run.countFile, Run.print, createBackup, writeFile]
    split_ifs <;> rfl

theorem processFileName_trace {σ : Type} (P : Platform σ) (fp : FileProcessor)
    (file_path : Str) (s : Run σ) : (processFileName P fp file_path s).2.trace = s.trace := by
  unfold processFileName
  simp only [Run.countFile, Run.print]
  split_ifs
  · split <;> rfl
  · rfl
  · rfl

/-- The calls recorded by the walk are not changed by `processFile`. -/
theorem processFile_trace {σ : Type} (P : Platform σ) (fp : FileProcessor) (file_path : Str)
    (s : Run σ) : (processFile P fp file_path s).2.trace = s.trace := by
  unfold processFile processFileContents
  split_ifs
  · rfl
  · rfl
  · rfl
  · rw [processFileName_trace, updateProgress_trace]
  · rw [findInFile_trace, updateProgress_trace]
  · rw [replaceInFile_trace, updateProgress_trace]

theorem WalkOf.nil (o : Options) (root : Str) : WalkOf o root [] := by
  intro e he; cases he

theorem WalkOf.dispatch {o : Options} {root : Str} {new : List Event} (p : Str)
    (h : WalkOf o root new) : WalkOf o root (Event.dispatch root p :: new) := by
  intro e he
  rcases List.mem_cons.mp he with rfl | he
  · exact ⟨fun d q hdq => (by cases hdq), Or.inl rfl⟩
  · obtain ⟨h1, h2⟩ := h e he
    refine ⟨h1, ?_⟩
    rcases h2 with h2 | ⟨d, hd⟩
    · exact Or.inl h2
    · exact Or.inr ⟨d, List.mem_cons_of_mem _ hd⟩

theorem WalkOf.descend {o : Options} {root p : Str} {sub new : List Event}
    (hp : shouldSkipDirectory (Path.filename p) o = false)
    (hsub : WalkOf o p sub) (h : WalkOf o root new) :
    WalkOf o root (Event.descend root p :: (sub ++ new)) := by
  intro e he
  rcases List.mem_cons.mp he with rfl | he
  · refine ⟨fun d q hdq => ?_, Or.inl rfl⟩
    cases hdq
    exact hp
  · rcases List.mem_append.mp he with he | he
    · obtain ⟨h1, h2⟩ := hsub e he
      refine ⟨h1, Or.inr ?_⟩
      rcases h2 with h2 | ⟨d, hd⟩
      · exact ⟨root, by rw [h2]; exact List.mem_cons_self _ _⟩
      · exact ⟨d, List.mem_cons_of_mem _ (List.mem_append_left _ hd)⟩
    · obtain ⟨h1, h2⟩ := h e he
      refine ⟨h1, ?_⟩
      rcases h2 with h2 | ⟨d, hd⟩
      · exact Or.inl h2
      · exact Or.inr ⟨d, List.mem_cons_of_mem _ (List.mem_append_right _ hd)⟩

theorem processEntries_walk {σ : Type} (P : Platform σ) (fp : FileProcessor)
    (recurse : Str → Run σ → Option (ProcessResult × Run σ))
    (dir_path pattern : Str) (recursive : Bool)
    (hrec : ∀ p s r, recurse p s = some r →
      ∃ new, r.2.trace = s.trace ++ new ∧ WalkOf fp.config.options p new) :
    ∀ (entries : List DirEntry) (total : ProcessResult) (s : Run σ) (r : ProcessResult × Run σ),
      processEntries P fp recurse dir_path pattern recursive entries total s = some r →
      ∃ new, r.2.trace = s.trace ++ new ∧ WalkOf fp.config.options dir_path new := by
  intro entries
  induction entries with
  | nil =>
    intro total s r h
    simp only [processEntries, Option.some.injEq] at h
    subst h
    exact ⟨[], by simp, WalkOf.nil _ _⟩
  | cons entry rest ih =>
    intro total s r h
    simp only [processEntries] at h
    split_ifs at h with h1 h2 h3 h4
    · obtain ⟨new, hnew, hw⟩ := ih _ _ r h
      rw [processFile_trace] at hnew
      exact ⟨Event.dispatch dir_path entry.path :: new, by simp [hnew], hw.dispatch _⟩
    · exact ih _ _ r h
    · split at h
      · cases h
      · rename_i r1 hr1
        obtain ⟨sub, hsub, hwsub⟩ := hrec _ _ _ hr1
        obtain ⟨new, hnew, hw⟩ := ih _ _ r h
        refine ⟨Event.descend dir_path entry.path :: (sub ++ new), ?_, ?_⟩
        · rw [hnew, hsub]; simp
        · exact WalkOf.descend (by simpa using h4) hwsub hw
    · exact ih _ _ r h
    · exact ih _ _ r h

/-- The calls of a run of `processDirectory` form a walk of its directory. -/
theorem processDirectory_walk {σ : Type} (P : Platform σ) (fp : FileProcessor) :
    ∀ (depth : Nat) (dir_path pattern : Str) (recursive : Bool) (s : Run σ)
      (r : ProcessResult × Run σ),
      processDirectory P fp depth dir_path pattern recursive s = some r →
      ∃ new, r.2.trace = s.trace ++ new ∧ WalkOf fp.config.options dir_path new := by
  intro depth
  induction depth with
  | zero => intro dir_path pattern recursive s r h; cases h
  | succ depth ih =>
    intro dir_path pattern recursive s r h
    simp only [processDirectory] at h
    split_ifs at h with h1
    · simp only [Option.some.injEq] at h
      subst h
      exact ⟨[], by simp, WalkOf.nil _ _⟩
    · split at h
      · cases h
      · rename_i r1 hr1
        have hw := processEntries_walk P fp _ dir_path pattern recursive
          (fun p s r hr => ih p pattern recursive s r hr) _ _ _ _ hr1
        split at h <;>
          (simp only [Option.some.injEq] at h; subst h; exact hw)


theorem processEntries_mono {σ : Type} (P : Platform σ) (fp : FileProcessor)
    (rec1 rec2 : Str → Run σ → Option (ProcessResult × Run σ))
    (dir_path pattern : Str) (recursive : Bool)
    (hrec : ∀ p s r, rec1 p s = some r → rec2 p s = some r) :
    ∀ (entries : List DirEntry) (total : ProcessResult) (s : Run σ) (r : ProcessResult × Run σ),
      processEntries P fp rec1 dir_path pattern recursive entries total s = some r →
      processEntries P fp rec2 dir_path pattern recursive entries total s = some r := by
  intro entries
  induction entries with
  | nil => intro total s r h; simpa [processEntries] using h
  | cons entry rest ih =>
    intro total s r h
    simp only [processEntries] at h ⊢
    split_ifs at h ⊢ with h1 h2 h3 h4
    · exact ih _ _ r h
    · exact ih _ _ r h
    · split at h
      · cases h
      · rename_i r1 hr1
        rw [hrec _ _ _ hr1]
        exact ih _ _ r h
    · exact ih _ _ r h
    · exact ih _ _ r h

/-- A larger bound on the depth does not change a result of
`processDirectory`. -/
theorem processDirectory_depth {σ : Type} (P : Platform σ) (fp : FileProcessor) :
    ∀ (depth k : Nat) (dir_path pattern : Str) (recursive : Bool) (s : Run σ)
      (r : ProcessResult × Run σ),
      processDirectory P fp depth dir_path pattern recursive s = some r →
      processDirectory P fp (depth + k) dir_path pattern recursive s = some r := by
  intro depth
  induction depth with
  | zero => intro k dir_path pattern recursive s r h; cases h
  | succ depth ih =>
    intro k dir_path pattern recursive s r h
    rw [show depth + 1 + k = (depth + k) + 1 by omega]
    simp only [processDirectory] at h ⊢
    split_ifs at h ⊢ with h1
    · exact h
    · split at h
      · cases h
      · rename_i r1 hr1
        rw [processEntries_mono P fp _ _ dir_path pattern recursive
          (fun p s r hr => ih k p pattern recursive s r hr) _ _ _ _ hr1]
        exact h

theorem shouldSkipDirectory_iff (name : Str) (opts : Options) :
    shouldSkipDirectory name opts = true ↔
      (opts.cvs = true ∧ name = bytes "CVS") ∨ (opts.svn = true ∧ name = bytes ".svn") ∨
        (opts.git = true ∧ name = bytes ".git") := by
  unfold shouldSkipDirectory
  split_ifs with h1 h2 h3 <;> simp_all

/-- C19: `shouldSkipDirectory` holds exactly for the name "CVS" with the cvs
option, ".svn" with the svn option and ".git" with the git option; with the
default options exactly for ".git", and not for ".git" when the three options
are off. So when the git option is on, as by default, a recursive
`processDirectory` never descends into an entry named ".git", and every file
it dispatches is an entry of the walked directory or of a directory it
descended into. -/
theorem C19_skip_policy :
    (∀ (name : Str) (opts : Options), shouldSkipDirectory name opts = true ↔
      (opts.cvs = true ∧ name = bytes "CVS") ∨ (opts.svn = true ∧ name = bytes ".svn") ∨
        (opts.git = true ∧ name = bytes ".git")) ∧
    (∀ name : Str, shouldSkipDirectory name {} = true ↔ name = bytes ".git") ∧
    (∀ opts : Options, opts.git = false → opts.cvs = false → opts.svn = false →
      shouldSkipDirectory (bytes ".git") opts = false) ∧
    (∀ (σ : Type) (P : Platform σ) (fp : FileProcessor) (depth : Nat) (dir_path pattern : Str)
        (s : Run σ) (r : ProcessResult × Run σ),
      fp.config.options.git = true →
      processDirectory P fp depth dir_path pattern true s = some r →
      ∃ new, r.2.trace = s.trace ++ new ∧
        (∀ d p, Event.descend d p ∈ new → Path.filename p ≠ bytes ".git") ∧
        (∀ e ∈ new, e.dir_path = dir_path ∨ ∃ d, Event.descend d e.dir_path ∈ new)) := by
  refine ⟨shouldSkipDirectory_iff, ?_, ?_, ?_⟩
  · intro name
    rw [shouldSkipDirectory_iff]
    simp
  · intro opts hg hc hs
    cases h : shouldSkipDirectory (bytes ".git") opts
    · rfl
    · rw [shouldSkipDirectory_iff] at h
      simp [hg, hc, hs] at h
  · intro σ P fp depth dir_path pattern s r hgit h
    obtain ⟨new, hnew, hw⟩ := processDirectory_walk P fp depth dir_path pattern true s r h
    refine ⟨new, hnew, ?_, fun e he => (hw e he).2⟩
    intro d p hmem hname
    have := (hw _ hmem).1 d p rfl
    rw [hname] at this
    have h2 : shouldSkipDirectory (bytes ".git") fp.config.options = true :=
      (shouldSkipDirectory_iff _ _).mpr (Or.inr (Or.inr ⟨hgit, rfl⟩))
    rw [h2] at this
    cases this

/-- Witness of C19: the recursive walk of `src` in the example tree with the
default options dispatches `a.txt`, `b.c` and `lib/c.txt` and leaves out
`.git/config`; with the git option off it descends into `src/.git`. -/
theorem C19_witness :
    (processDirectory memPlatform (FileProcessor.new defaultFooConfig) 3 (bytes "src")
        (bytes "*") true { fs := exampleTree }).map (fun r => r.2.trace) = some exampleWalk ∧
    (∀ r, processDirectory memPlatform (FileProcessor.new (grepFooConfig false)) 3 (bytes "src")
        (bytes "*") true { fs := exampleTree } = some r →
      Event.descend (bytes "src") (bytes "src/.git") ∈ r.2.trace) ∧
    (∀ r, processDirectory memPlatform (FileProcessor.new defaultFooConfig) 3 (bytes "src")
        (bytes "*") true { fs := exampleTree } = some r →
      ∃ new, r.2.trace = [] ++ new ∧
        (∀ d p, Event.descend d p ∈ new → Path.filename p ≠ bytes ".git") ∧
        (∀ e ∈ new, e.dir_path = bytes "src" ∨ ∃ d, Event.descend d e.dir_path ∈ new)) :=
  ⟨by decide,
   fun r hr => by
    have h : (processDirectory memPlatform (FileProcessor.new (grepFooConfig false)) 3
        (bytes "src") (bytes "*") true { fs := exampleTree }).map (fun r => r.2.trace)
        = some [ Event.dispatch (bytes "src") (bytes "src/a.txt"),
                 Event.dispatch (bytes "src") (bytes "src/b.c"),
                 Event.descend (bytes "src") (bytes "src/.git"),
                 Event.dispatch (bytes "src/.git") (bytes "src/.git/config"),
                 Event.descend (bytes "src") (bytes "src/lib"),
                 Event.dispatch (bytes "src/lib") (bytes "src/lib/c.txt") ] := by decide
    rw [hr] at h
    simp only [Option.map_some', Option.some.injEq] at h
    rw [h]
    decide,
   fun r hr =>
    C19_skip_policy.2.2.2 MemFS memPlatform (FileProcessor.new defaultFooConfig) 3 (bytes "src")
      (bytes "*") { fs := exampleTree } r (by decide) hr⟩


/-! ## Soundness of the scan -/

theorem findMatchesLoop_sound (tp : TextProcessor) (text S : Str) :
    ∀ (fuel pos : Nat), ∀ m ∈ findMatchesLoop tp text S fuel pos [],
      substr S m.position m.length = tp.find_string_normalized ∧
      m.length = tp.find_string_normalized.length ∧
      (tp.config.options.whole_word = true →
        isWordBoundary S m.position = true ∧
          isWordBoundary S (m.position + m.length) = true) := by
  intro fuel
  induction fuel with
  | zero => intro pos m hm; simp [findMatchesLoop] at hm
  | succ fuel ih =>
    intro pos m hm
    simp only [findMatchesLoop] at hm
    split at hm
    · cases hm
    · rename_i q hq
      split at hm
      · exact ih _ m hm
      · rename_i hacc
        rw [findMatchesLoop_append] at hm
        simp only [List.nil_append, List.singleton_append, List.mem_cons] at hm
        rcases hm with rfl | hm
        · refine ⟨find_sound _ _ _ _ hq, rfl, fun hw => ?_⟩
          simp only [hw, Bool.true_and, Bool.or_eq_true, Bool.not_eq_true', not_or,
            Bool.not_eq_false] at hacc
          exact hacc
        · exact ih _ m hm

/-- C30: every match returned by `findMatches` spans an occurrence of the
normalized find string in the normalized text (the text lowercased exactly
when ignore-case is set), and with whole-word on `isWordBoundary` holds on the
normalized text at both ends of the match. -/
theorem C30_findMatches_sound (cfg : FartConfig) (T : Str) :
    (∀ m ∈ findMatches (TextProcessor.new cfg) T,
      substr (normalizeForComparison (TextProcessor.new cfg) T) m.position m.length
        = (TextProcessor.new cfg).find_string_normalized ∧
      (cfg.options.whole_word = true →
        isWordBoundary (normalizeForComparison (TextProcessor.new cfg) T) m.position = true ∧
        isWordBoundary (normalizeForComparison (TextProcessor.new cfg) T)
          (m.position + m.length) = true)) ∧
    normalizeForComparison (TextProcessor.new cfg) T
      = (if cfg.options.ignore_case then toLowerCase T else T) := by
  refine ⟨?_, rfl⟩
  intro m hm
  unfold findMatches at hm
  split at hm
  · cases hm
  · have := findMatchesLoop_sound (TextProcessor.new cfg) T _ _ _ m hm
    exact ⟨this.1, this.2.2⟩

/-- Witness of C30: "aa" as a whole word, ignoring case, in "xaa AA". -/
theorem C30_witness :
    findMatches (TextProcessor.new searchAaWordConfig) (bytes "xaa AA") = [⟨4, 2, []⟩] ∧
    substr (normalizeForComparison (TextProcessor.new searchAaWordConfig) (bytes "xaa AA")) 4 2
      = bytes "aa" ∧
    (searchAaWordConfig.options.whole_word = true →
      isWordBoundary (normalizeForComparison (TextProcessor.new searchAaWordConfig)
        (bytes "xaa AA")) 4 = true ∧
      isWordBoundary (normalizeForComparison (TextProcessor.new searchAaWordConfig)
        (bytes "xaa AA")) (4 + 2) = true) :=
  ⟨by decide,
   ((C30_findMatches_sound searchAaWordConfig (bytes "xaa AA")).1 ⟨4, 2, []⟩ (by decide)).1,
   ((C30_findMatches_sound searchAaWordConfig (bytes "xaa AA")).1 ⟨4, 2, []⟩ (by decide)).2⟩


/-! ## Lines and selectors -/

theorem getlinesFrom_of_not_mem (d : Nat) : ∀ (a cur : Str), d ∉ a →
    getlinesFrom d a cur = if (cur ++ a).isEmpty then [] else [cur ++ a] := by
  intro a
  induction a with
  | nil => intro cur _; simp [getlinesFrom]
  | cons c rest ih =>
    intro cur h
    simp only [List.mem_cons, not_or] at h
    have hc : (c == d) = false := by simpa using fun e => h.1 e.symm
    simp only [getlinesFrom, hc, Bool.false_eq_true, if_false]
    rw [ih _ h.2]
    simp

theorem getlinesFrom_append (d : Nat) : ∀ (a b cur : Str), d ∉ a →
    getlinesFrom d (a ++ d :: b) cur = (cur ++ a) :: getlinesFrom d b [] := by
  intro a
  induction a with
  | nil => intro b cur _; simp [getlinesFrom]
  | cons c rest ih =>
    intro b cur h
    simp only [List.mem_cons, not_or] at h
    have hc : (c == d) = false := by simpa using fun e => h.1 e.symm
    rw [List.cons_append]
    simp only [getlinesFrom, hc, Bool.false_eq_true, if_false]
    rw [ih _ _ h.2]
    simp

theorem getlinesFrom_join (d : Nat) : ∀ (s cur : Str),
    (getlinesFrom d s cur).flatten = cur ++ s.filter (fun c => c != d) := by
  intro s
  induction s with
  | nil => intro cur; simp only [getlinesFrom]; split <;> simp_all
  | cons c rest ih =>
    intro cur
    simp only [getlinesFrom]
    split
    · rename_i hc
      have hcd : c = d := by simpa using hc
      simp [ih, hcd, List.filter_cons]
    · rename_i hc
      have hcd : ¬ c = d := by simpa using hc
      simp [ih, hcd, List.filter_cons]

theorem getlinesFrom_not_mem (d : Nat) : ∀ (s cur : Str), d ∉ cur →
    ∀ item ∈ getlinesFrom d s cur, d ∉ item := by
  intro s
  induction s with
  | nil =>
    intro cur hcur item hitem
    simp only [getlinesFrom] at hitem
    split at hitem
    · cases hitem
    · simp only [List.mem_singleton] at hitem
      subst hitem; exact hcur
  | cons c rest ih =>
    intro cur hcur item hitem
    simp only [getlinesFrom] at hitem
    split at hitem
    · rcases List.mem_cons.mp hitem with rfl | h
      · exact hcur
      · exact ih [] (by simp) item h
    · rename_i hc
      refine ih (cur ++ [c]) ?_ item hitem
      simp only [List.mem_append, List.mem_singleton, not_or]
      exact ⟨hcur, fun e => hc (by simp [e])⟩

theorem flatten_filter_nonempty (ls : List Str) :
    (ls.filter (fun item => !item.isEmpty)).flatten = ls.flatten := by
  induction ls with
  | nil => rfl
  | cons l rest ih =>
    cases l with
    | nil => simpa using ih
    | cons c cs => simp [List.filter_cons, ih]

/-- C21: `splitWildcards` gives, in order, the maximal non-empty pieces of the
selector between commas: no piece is empty, none holds a comma, together they
are the selector without its commas, and there is none exactly when the
selector holds nothing but commas; a piece without comma stands for itself and
a comma splits the selector in two. -/
theorem C21_splitWildcards (s : Str) :
    (∀ item ∈ splitWildcards s, item ≠ [] ∧ ','.toNat ∉ item) ∧
    (splitWildcards s).flatten = s.filter (fun c => c != ','.toNat) ∧
    (splitWildcards s = [] ↔ ∀ c ∈ s, c = ','.toNat) ∧
    (∀ a : Str, ','.toNat ∉ a → a ≠ [] → splitWildcards a = [a]) ∧
    (∀ a b : Str, ','.toNat ∉ a →
      splitWildcards (a ++ ','.toNat :: b) = splitWildcards a ++ splitWildcards b) := by
  have hmem : ∀ item ∈ splitWildcards s, item ≠ [] ∧ ','.toNat ∉ item := by
    intro item hitem
    simp only [splitWildcards, List.mem_filter] at hitem
    refine ⟨by simpa using hitem.2, ?_⟩
    exact getlinesFrom_not_mem _ s [] (by simp) item hitem.1
  have hjoin : (splitWildcards s).flatten = s.filter (fun c => c != ','.toNat) := by
    simp only [splitWildcards, flatten_filter_nonempty, getlines, getlinesFrom_join,
      List.nil_append]
  refine ⟨hmem, hjoin, ?_, ?_, ?_⟩
  · constructor
    · intro h c hc
      rw [h] at hjoin
      by_contra hne
      have : c ∈ s.filter (fun c => c != ','.toNat) := by
        simp only [List.mem_filter, bne_iff_ne, ne_eq]
        exact ⟨hc, hne⟩
      rw [← hjoin] at this
      cases this
    · intro h
      have hf : s.filter (fun c => c != ','.toNat) = [] := by
        simp only [List.filter_eq_nil_iff]
        intro c hc
        simp [h c hc]
      rw [hf] at hjoin
      cases hsp : splitWildcards s with
      | nil => rfl
      | cons item rest =>
        exfalso
        have h1 := (hmem item (by rw [hsp]; exact List.mem_cons_self _ _)).1
        rw [hsp] at hjoin
        simp only [List.flatten_cons, List.append_eq_nil] at hjoin
        exact h1 hjoin.1
  · intro a ha hne
    simp only [splitWildcards, getlines, getlinesFrom_of_not_mem _ a [] ha, List.nil_append]
    cases a with
    | nil => exact absurd rfl hne
    | cons c cs => simp
  · intro a b ha
    simp only [splitWildcards, getlines, getlinesFrom_append _ a b [] ha, List.nil_append,
      getlinesFrom_of_not_mem _ a [] ha]
    cases a with
    | nil => simp
    | cons c cs => simp [List.filter_cons]

/-- Witness of C21: the selector "a,,b.c,". -/
theorem C21_witness :
    splitWildcards (bytes "a,,b.c,") = [bytes "a", bytes "b.c"] ∧
    splitWildcards (bytes ",,") = [] ∧
    (splitWildcards (bytes ",,") = [] ↔ ∀ c ∈ bytes ",,", c = ','.toNat) ∧
    splitWildcards (bytes "b.c") = [bytes "b.c"] ∧
    splitWildcards (bytes "a" ++ ','.toNat :: bytes ",b.c,")
      = splitWildcards (bytes "a") ++ splitWildcards (bytes ",b.c,") :=
  ⟨by decide, by decide, (C21_splitWildcards (bytes ",,")).2.2.1,
   (C21_splitWildcards []).2.2.2.1 (bytes "b.c") (by decide) (by decide),
   (C21_splitWildcards []).2.2.2.2 (bytes "a") (bytes ",b.c,") (by decide)⟩


/-! ## Preview -/

/-- C25: with the preview flag set, `replaceInFile` and `processFileName`
leave the file system as it is, whatever the file, the rest of the
configuration and the number of matches; they leave the input and the
diagnostics alone as well, so that only the statistics and the output
change. -/
theorem C25_preview_no_mutation {σ : Type} (P : Platform σ) (fp : FileProcessor)
    (file_path : Str) (s : Run σ) (hp : fp.config.options.preview = true) :
    (replaceInFile P fp file_path s).2.fs = s.fs ∧
    (processFileName P fp file_path s).2.fs = s.fs ∧
    (replaceInFile P fp file_path s).2.cerr = s.cerr ∧
    (processFileName P fp file_path s).2.cerr = s.cerr ∧
    (replaceInFile P fp file_path s).2.cin = s.cin ∧
    (processFileName P fp file_path s).2.cin = s.cin := by
  have hr : ∀ (f : Run σ → Prop), f s → (∀ t : Run σ, f t → f t.countFile) →
      (∀ (t : Run σ) (x : Str), f t → f (t.print x)) →
      (∀ (t : Run σ) (x : Str), f t → f { t with cout := x }) →
      f (replaceInFile P fp file_path s).2 := by
    intro f h0 hc hpr hco
    unfold replaceInFile
    split
    · exact h0
    · simp only [hp, Bool.not_true, Bool.false_eq_true, if_false]
      split_ifs
      · exact hpr _ _ (hc _ (hco _ _ h0))
      · exact hc _ (hco _ _ h0)
      · exact hco _ _ h0
  have hn : ∀ (f : Run σ → Prop), f s → (∀ t : Run σ, f t → f t.countFile) →
      (∀ (t : Run σ) (x : Str), f t → f (t.print x)) →
      f (processFileName P fp file_path s).2 := by
    intro f h0 hc hpr
    unfold processFileName
    simp only [hp, Bool.not_true, Bool.and_false, Bool.false_eq_true, if_false]
    split_ifs
    · exact hpr _ _ (hc _ h0)
    · exact h0
  refine ⟨hr (fun t => t.fs = s.fs) rfl (fun _ h => h) (fun _ _ h => h) (fun _ _ h => h),
    hn (fun t => t.fs = s.fs) rfl (fun _ h => h) (fun _ _ h => h),
    hr (fun t => t.cerr = s.cerr) rfl (fun _ h => h) (fun _ _ h => h) (fun _ _ h => h),
    hn (fun t => t.cerr = s.cerr) rfl (fun _ h => h) (fun _ _ h => h),
    hr (fun t => t.cin = s.cin) rfl (fun _ h => h) (fun _ _ h => h) (fun _ _ h => h),
    hn (fun t => t.cin = s.cin) rfl (fun _ h => h) (fun _ _ h => h)⟩

/-- Witness of C25: previewing the replacement of "foo" in `src/a.txt` (two
matches) and the renaming of `src/a.txt`; without preview the file system
changes. -/
theorem C25_witness :
    (replaceInFile memPlatform (FileProcessor.new (replaceFooConfig true true))
      (bytes "src/a.txt") { fs := exampleTree }).1
        = { success := true, matches_found := 2 } ∧
    (replaceInFile memPlatform (FileProcessor.new (replaceFooConfig false true))
      (bytes "src/a.txt") { fs := exampleTree }).2.fs ≠ exampleTree ∧
    (processFileName memPlatform (FileProcessor.new (renameConfig false))
      (bytes "src/a.txt") { fs := exampleTree }).2.fs ≠ exampleTree ∧
    (replaceInFile memPlatform (FileProcessor.new (replaceFooConfig true true))
      (bytes "src/a.txt") { fs := exampleTree }).2.fs = exampleTree ∧
    (processFileName memPlatform (FileProcessor.new (renameConfig true))
      (bytes "src/a.txt") { fs := exampleTree }).2.fs = exampleTree :=
  ⟨by decide, by decide, by decide,
   (C25_preview_no_mutation memPlatform (FileProcessor.new (replaceFooConfig true true))
      (bytes "src/a.txt") { fs := exampleTree } (by decide)).1,
   (C25_preview_no_mutation memPlatform (FileProcessor.new (renameConfig true))
      (bytes "src/a.txt") { fs := exampleTree } (by decide)).2.1⟩


/-! ## Replace mode on a file -/

theorem replaceLoop_spec (fp : FileProcessor) : ∀ (lines : List Str) (st : ReplaceLoop),
    (lines.foldl (replaceInFileStep fp) st).modified_content
      = st.modified_content ++ reassembled fp.text_processor lines ∧
    ((lines.foldl (replaceInFileStep fp) st).file_changed
      = (st.file_changed || lines.any (fun l => decide (0 < (processLine fp.text_processor l).2)))) ∧
    (lines.foldl (replaceInFileStep fp) st).matches_found
      = st.matches_found
        + ((lines.map (fun l => (processLine fp.text_processor l).2)).sum : Nat) := by
  intro lines
  induction lines with
  | nil => intro st; simp [reassembled]
  | cons l rest ih =>
    intro st
    simp only [List.foldl_cons]
    obtain ⟨h1, h2, h3⟩ := ih (replaceInFileStep fp st l)
    rw [h1, h2, h3]
    simp only [replaceInFileStep, reassembled, List.flatMap_cons, List.any_cons, List.map_cons,
      List.sum_cons]
    by_cases hm : 0 < (processLine fp.text_processor l).2
    · have hm' : ((processLine fp.text_processor l).2 : Int) > 0 := by omega
      simp only [hm', if_true, hm, decide_True, Bool.true_or, Bool.or_true, List.append_assoc,
        true_and]
      push_cast
      omega
    · have hm' : ¬ ((processLine fp.text_processor l).2 : Int) > 0 := by omega
      have h0 : (processLine fp.text_processor l).2 = 0 := by omega
      simp only [hm', if_false, hm, decide_False, Bool.false_or, List.append_assoc, true_and]
      simp [h0]

theorem getlines_joinLines : ∀ (lines : List Str), (∀ l ∈ lines, 10 ∉ l) →
    getlines 10 (joinLines lines) = lines ∧
    ∀ last : Str, 10 ∉ last → last ≠ [] → getlines 10 (joinLines lines ++ last) = lines ++ [last] := by
  intro lines
  induction lines with
  | nil =>
    intro _
    refine ⟨rfl, fun last hl hne => ?_⟩
    simp only [joinLines, List.flatMap_nil, List.nil_append, getlines,
      getlinesFrom_of_not_mem 10 last [] hl]
    cases last with
    | nil => exact absurd rfl hne
    | cons c cs => simp
  | cons l rest ih =>
    intro h
    have hl : 10 ∉ l := h l (List.mem_cons_self _ _)
    obtain ⟨ih1, ih2⟩ := ih (fun x hx => h x (List.mem_cons_of_mem _ hx))
    have e : ∀ tail : Str, getlines 10 (joinLines (l :: rest) ++ tail)
        = l :: getlines 10 (joinLines rest ++ tail) := by
      intro tail
      simp only [joinLines, List.flatMap_cons, getlines]
      have : (l ++ bytes "\n" ++ rest.flatMap (fun l => l ++ bytes "\n") ++ tail)
          = l ++ 10 :: (rest.flatMap (fun l => l ++ bytes "\n") ++ tail) := by
        simp [bytes]
      rw [this, getlinesFrom_append 10 l _ [] hl]
      simp
    refine ⟨?_, fun last hlast hne => ?_⟩
    · have := e []
      simp only [List.append_nil] at this
      rw [this, ih1]
    · rw [e last, ih2 last hlast hne]
      rfl

/-- C27: `replaceInFile` on a readable file splits the content into lines at
the newlines (a newline at the end gives no further empty line). When some
line has a match and preview is off, the content written (after the backup, if
asked for) is every line put through `processLine` and followed by a newline,
the last one included, and `total_files` goes up by one; when no line has a
match nothing is written and `total_files` stays. -/
theorem C27_replace_reassembly {σ : Type} (P : Platform σ) (fp : FileProcessor)
    (file_path content : Str) (s : Run σ)
    (hread : P.ifstream_read s.fs file_path = some content) :
    ((∃ l ∈ getlines 10 content, 0 < (processLine fp.text_processor l).2) →
      fp.config.options.preview = false →
      (replaceInFile P fp file_path s).2.fs
        = (P.ofstream_write
            (if fp.config.options.backup then
              (P.copy_file s.fs file_path (file_path ++ bytes ".bak")).1 else s.fs)
            file_path (reassembled fp.text_processor (getlines 10 content))).1 ∧
      (replaceInFile P fp file_path s).2.stats.total_files = s.stats.total_files + 1) ∧
    ((∀ l ∈ getlines 10 content, (processLine fp.text_processor l).2 = 0) →
      (replaceInFile P fp file_path s).2.fs = s.fs ∧
      (replaceInFile P fp file_path s).2.stats = s.stats ∧
      (replaceInFile P fp file_path s).1 = { success := true }) ∧
    (∀ lines : List Str, (∀ l ∈ lines, 10 ∉ l) →
      getlines 10 (joinLines lines) = lines ∧
      ∀ last : Str, 10 ∉ last → last ≠ [] →
        getlines 10 (joinLines lines ++ last) = lines ++ [last]) := by
  obtain ⟨h1, h2, h3⟩ := replaceLoop_spec fp (getlines 10 content) { cout := s.cout }
  simp only [List.nil_append, Bool.false_or] at h1 h2
  refine ⟨?_, ?_, getlines_joinLines⟩
  · intro hex hprev
    have hch : (List.foldl (replaceInFileStep fp) { cout := s.cout }
        (getlines 10 content)).file_changed = true := by
      rw [h2, List.any_eq_true]
      obtain ⟨l, hl, hpos⟩ := hex
      exact ⟨l, hl, by simpa using hpos⟩
    unfold replaceInFile
    simp only [readFile, hread, hch, if_true, hprev, Bool.not_false, h1]
    simp only [createBackup, writeFile, Run.countFile, Run.print]
    split_ifs <;> simp_all
  · intro hall
    have hch : (List.foldl (replaceInFileStep fp) { cout := s.cout }
        (getlines 10 content)).file_changed = false := by
      rw [h2, List.any_eq_false]
      intro l hl
      simp [hall l hl]
    have hsum : (List.foldl (replaceInFileStep fp) { cout := s.cout }
        (getlines 10 content)).matches_found = 0 := by
      rw [h3]
      have : (List.map (fun l => (processLine fp.text_processor l).2) (getlines 10 content)).sum
          = 0 := by
        apply List.sum_eq_zero
        intro x hx
        obtain ⟨l, hl, rfl⟩ := List.mem_map.mp hx
        exact hall l hl
      simp [this]
    unfold replaceInFile
    simp only [readFile, hread, hch, Bool.false_eq_true, if_false, hsum]
    exact ⟨trivial, trivial, trivial⟩

/-- Witness of C27: replacing "foo" by "X" in `src/lib/c.txt`, whose last line
"foo" has no newline: the file written ends in a newline. -/
theorem C27_witness :
    memPlatform.ifstream_read exampleTree (bytes "src/lib/c.txt") = some (bytes "no match\nfoo") ∧
    memPlatform.ifstream_read
      (replaceInFile memPlatform (FileProcessor.new (replaceFooConfig false false))
        (bytes "src/lib/c.txt") { fs := exampleTree }).2.fs (bytes "src/lib/c.txt")
      = some (bytes "no match\nX\n") ∧
    ((replaceInFile memPlatform (FileProcessor.new (replaceFooConfig false false))
        (bytes "src/lib/c.txt") { fs := exampleTree }).2.fs
      = (memPlatform.ofstream_write
          (if (FileProcessor.new (replaceFooConfig false false)).config.options.backup then
            (memPlatform.copy_file exampleTree (bytes "src/lib/c.txt")
              (bytes "src/lib/c.txt" ++ bytes ".bak")).1 else exampleTree)
          (bytes "src/lib/c.txt")
          (reassembled (FileProcessor.new (replaceFooConfig false false)).text_processor
            (getlines 10 (bytes "no match\nfoo")))).1 ∧
    (replaceInFile memPlatform (FileProcessor.new (replaceFooConfig false false))
        (bytes "src/lib/c.txt") { fs := exampleTree }).2.stats.total_files = 0 + 1) :=
  ⟨by decide, by decide,
   (C27_replace_reassembly memPlatform (FileProcessor.new (replaceFooConfig false false))
      (bytes "src/lib/c.txt") (bytes "no match\nfoo") { fs := exampleTree } (by decide)).1
      ⟨bytes "foo", by decide, by decide⟩ (by decide)⟩


/-! ## Search mode on a file -/

theorem findInFileStep_eq (fp : FileProcessor) (file_path : Str) (st : FindLoop) (line : Str) :
    findInFileStep fp file_path st line =
      if 0 < lineContribution fp line then
        { matches_found := st.matches_found + lineContribution fp line
          line_number := st.line_number + 1
          first_match :=
            if st.first_match && !fp.config.options.count && !fp.config.options.quiet then false
            else st.first_match
          cout :=
            if !fp.config.options.count then
              ((if st.first_match && !fp.config.options.count && !fp.config.options.quiet then
                  st.cout ++ file_path ++ bytes " :\n" else st.cout) ++
                (if fp.config.options.line_numbers then
                  bytes "[" ++ setw 4 (showInt (st.line_number + 1)) ++ bytes "]" else [])) ++
                line ++ bytes "\n"
            else
              (if st.first_match && !fp.config.options.count && !fp.config.options.quiet then
                st.cout ++ file_path ++ bytes " :\n" else st.cout) }
      else { st with line_number := st.line_number + 1 } := by
  have hc : lineContribution fp line =
      (if fp.config.options.invert then
        (if ((countMatches fp.text_processor line : Nat) : Int) != 0 then 0 else 1)
       else ((countMatches fp.text_processor line : Nat) : Int)) := by
    unfold lineContribution
    by_cases hi : fp.config.options.invert = true
    · by_cases h0 : countMatches fp.text_processor line = 0 <;> simp [hi, h0]
    · simp [hi]
  unfold findInFileStep
  simp only [← hc, gt_iff_lt]
  split
  · congr 1
    by_cases hl : fp.config.options.line_numbers = true <;>
      by_cases hcnt : fp.config.options.count = true <;> simp [hl, hcnt]
  · rfl

theorem findLoop_spec (fp : FileProcessor) (file_path : Str) :
    ∀ (lines : List Str) (st : FindLoop),
      (lines.foldl (findInFileStep fp file_path) st).matches_found
        = st.matches_found + (lines.map (lineContribution fp)).sum ∧
      (lines.foldl (findInFileStep fp file_path) st).cout
        = st.cout ++
          (if fp.config.options.count then []
           else
            (if st.first_match && !fp.config.options.quiet &&
                lines.any (fun l => decide (0 < lineContribution fp l)) then
              file_path ++ bytes " :\n" else []) ++ emittedLines fp st.line_number lines) := by
  intro lines
  induction lines with
  | nil => intro st; simp [emittedLines]
  | cons l rest ih =>
    intro st
    simp only [List.foldl_cons]
    obtain ⟨h1, h2⟩ := ih (findInFileStep fp file_path st l)
    rw [h1, h2, findInFileStep_eq]
    by_cases hpos : 0 < lineContribution fp l
    · simp only [hpos, if_true, List.map_cons, List.sum_cons, List.any_cons, decide_True,
        Bool.true_or, Bool.and_true, emittedLines]
      refine ⟨by omega, ?_⟩
      by_cases hcnt : fp.config.options.count = true
      · simp [hcnt]
      · by_cases hq : fp.config.options.quiet = true
        · simp [hcnt, hq]
        · by_cases hf : st.first_match = true <;> simp [hcnt, hq, hf]
    · simp only [hpos, if_false, List.map_cons, List.sum_cons, List.any_cons, decide_False,
        Bool.false_or, emittedLines, List.nil_append]
      have h0 : ∀ x : Int, x + (lineContribution fp l + (rest.map (lineContribution fp)).sum)
          = x + lineContribution fp l + (rest.map (lineContribution fp)).sum := by
        intro x; omega
      refine ⟨?_, trivial⟩
      have hz : lineContribution fp l = 0 := by
        unfold lineContribution at hpos ⊢
        split_ifs at hpos ⊢ <;> omega
      rw [hz]; omega

theorem emittedLines_plain (fp : FileProcessor) (h : fp.config.options.line_numbers = false) :
    ∀ (lines : List Str) (n : Int),
      emittedLines fp n lines
        = joinLines (lines.filter (fun l => decide (0 < lineContribution fp l))) := by
  intro lines
  induction lines with
  | nil => intro n; rfl
  | cons l rest ih =>
    intro n
    simp only [emittedLines, h, Bool.false_eq_true, if_false, List.nil_append, ih (n + 1),
      List.filter_cons]
    by_cases hpos : 0 < lineContribution fp l
    · simp [hpos, joinLines]
    · simp [hpos]


/-- C26, as stated, fails: in count-only mode `findInFile` on `src/a.txt`
counts two matches on the lines "foo" and "bar foo", both with a positive
contribution, and emits neither of them, only the file name and the count. -/
theorem C26_counterexample :
    (findInFile memPlatform (FileProcessor.new (countFooConfig true false)) (bytes "src/a.txt")
      { fs := exampleTree }).1 = { success := true, matches_found := 2 } ∧
    (getlines 10 (bytes "foo\nbar foo\n")).filter
      (fun l => decide (0 < lineContribution (FileProcessor.new (countFooConfig true false)) l))
      = [bytes "foo", bytes "bar foo"] ∧
    (findInFile memPlatform (FileProcessor.new (countFooConfig true false)) (bytes "src/a.txt")
      { fs := exampleTree }).2.cout = bytes "src/a.txt [2]\n" := by
  decide

/-- C26, amended: for a readable file `findInFile` succeeds and its
`matches_found` is the sum over the lines of `countMatches` when invert is
off, and the number of lines without match when invert is on; `total_files`
goes up by one exactly when `matches_found > 0`. Unless count-only mode is on,
the lines emitted are exactly those with a positive contribution, in order
(after the file-name header unless quiet, each after its line number when
asked for); in count-only mode no line is emitted, only the file name with the
count. -/
theorem C26_grep_counting {σ : Type} (P : Platform σ) (fp : FileProcessor)
    (file_path content : Str) (s : Run σ)
    (hread : P.ifstream_read s.fs file_path = some content) :
    (findInFile P fp file_path s).1
      = { success := true
          matches_found := ((getlines 10 content).map (lineContribution fp)).sum } ∧
    (fp.config.options.invert = false →
      ∀ l, lineContribution fp l = (countMatches fp.text_processor l : Int)) ∧
    (fp.config.options.invert = true →
      ∀ l, lineContribution fp l = if countMatches fp.text_processor l = 0 then 1 else 0) ∧
    (findInFile P fp file_path s).2.stats.total_files
      = s.stats.total_files
        + (if 0 < ((getlines 10 content).map (lineContribution fp)).sum then 1 else 0) ∧
    (fp.config.options.count = false →
      (findInFile P fp file_path s).2.cout
        = s.cout ++
          (if !fp.config.options.quiet &&
              (getlines 10 content).any (fun l => decide (0 < lineContribution fp l)) then
            file_path ++ bytes " :\n" else []) ++
          emittedLines fp 0 (getlines 10 content)) ∧
    (fp.config.options.line_numbers = false →
      emittedLines fp 0 (getlines 10 content)
        = joinLines ((getlines 10 content).filter
            (fun l => decide (0 < lineContribution fp l)))) ∧
    (fp.config.options.count = true →
      (findInFile P fp file_path s).2.cout
        = s.cout ++
          (if 0 < ((getlines 10 content).map (lineContribution fp)).sum then
            (if fp.config.options.quiet then file_path ++ bytes "\n"
             else file_path ++ bytes " [" ++
               showInt ((getlines 10 content).map (lineContribution fp)).sum ++ bytes "]\n")
           else [])) := by
  obtain ⟨h1, h2⟩ := findLoop_spec fp file_path (getlines 10 content) { cout := s.cout }
  simp only [Int.zero_add, Bool.true_and] at h1 h2
  have hfind : findInFile P fp file_path s =
      (let st := (getlines 10 content).foldl (findInFileStep fp file_path) { cout := s.cout }
       ({ success := true, matches_found := st.matches_found },
        if st.matches_found > 0 then
          if fp.config.options.count then
            if fp.config.options.quiet then
              ({ s with cout := st.cout } : Run σ).countFile.print (file_path ++ bytes "\n")
            else ({ s with cout := st.cout } : Run σ).countFile.print
              (file_path ++ bytes " [" ++ showInt st.matches_found ++ bytes "]" ++ bytes "\n")
          else ({ s with cout := st.cout } : Run σ).countFile
        else { s with cout := st.cout })) := by
    unfold findInFile
    simp only [hread]
  rw [hfind]
  simp only [h1, h2, gt_iff_lt]
  refine ⟨trivial, ?_, ?_, ?_, ?_, ?_, ?_⟩
  · intro hi l; simp [lineContribution, hi]
  · intro hi l; simp [lineContribution, hi]
  · split_ifs <;> simp [Run.countFile, Run.print]
  · intro hc
    simp only [hc, Bool.false_eq_true, if_false]
    split_ifs <;> simp [Run.countFile, Run.print]
  · intro hl
    exact emittedLines_plain fp hl _ _
  · intro hc
    simp only [hc, if_true]
    split_ifs <;> simp [Run.countFile, Run.print, bytes]

/-- Witness of C26: `src/a.txt` searched for "foo", plainly and inverted. -/
theorem C26_witness :
    memPlatform.ifstream_read exampleTree (bytes "src/a.txt") = some (bytes "foo\nbar foo\n") ∧
    (findInFile memPlatform (FileProcessor.new (countFooConfig false false)) (bytes "src/a.txt")
      { fs := exampleTree }).2.cout = bytes "src/a.txt :\nfoo\nbar foo\n" ∧
    (findInFile memPlatform (FileProcessor.new (countFooConfig false true))
      (bytes "src/lib/c.txt") { fs := exampleTree }).1
        = { success := true, matches_found := 1 } ∧
    (findInFile memPlatform (FileProcessor.new (countFooConfig false false)) (bytes "src/a.txt")
      { fs := exampleTree }).1
      = { success := true
          matches_found := ((getlines 10 (bytes "foo\nbar foo\n")).map
            (lineContribution (FileProcessor.new (countFooConfig false false)))).sum } :=
  ⟨by decide, by decide, by decide,
   (C26_grep_counting memPlatform (FileProcessor.new (countFooConfig false false))
      (bytes "src/a.txt") (bytes "foo\nbar foo\n") { fs := exampleTree } (by decide)).1⟩


/-! ## File names -/

/-- C28 (what the code does): in replace mode with preview set, when the base
name of a file has a match, `processFileName` renames nothing and counts the
file, and the line it prints is the original path of the file; the new name
computed by `processLine` is not printed. -/
theorem C28_filename_preview_prints_path {σ : Type} (P : Platform σ) (fp : FileProcessor)
    (file_path : Str) (s : Run σ)
    (hp : fp.config.options.preview = true)
    (hm : 0 < (processLine fp.text_processor (Path.filename file_path)).2) :
    processFileName P fp file_path s
      = ({ success := true
           matches_found := (processLine fp.text_processor (Path.filename file_path)).2 },
         s.countFile.print (file_path ++ bytes "\n")) := by
  have hm' : ((processLine fp.text_processor (Path.filename file_path)).2 : Int) > 0 := by
    omega
  unfold processFileName
  simp only [hm', if_true, hp, Bool.not_true, Bool.and_false, Bool.false_eq_true, if_false]

/-- Witness of C28: previewing the renaming of `src/a.txt` with "a" replaced
by "b": the new name would be `b.txt`, the line printed is `src/a.txt`. -/
theorem C28_witness :
    (renameConfig true).isFartMode = true ∧
    processLine (FileProcessor.new (renameConfig true)).text_processor (bytes "a.txt")
      = (bytes "b.txt", 1) ∧
    (processFileName memPlatform (FileProcessor.new (renameConfig true)) (bytes "src/a.txt")
      { fs := exampleTree }).2.cout = bytes "src/a.txt\n" ∧
    processFileName memPlatform (FileProcessor.new (renameConfig true)) (bytes "src/a.txt")
        { fs := exampleTree }
      = ({ success := true
           matches_found := (processLine (FileProcessor.new (renameConfig true)).text_processor
             (Path.filename (bytes "src/a.txt"))).2 },
         ({ fs := exampleTree } : Run MemFS).countFile.print (bytes "src/a.txt" ++ bytes "\n")) :=
  ⟨by decide, by decide, by decide,
   C28_filename_preview_prints_path memPlatform (FileProcessor.new (renameConfig true))
     (bytes "src/a.txt") { fs := exampleTree } (by decide) (by decide)⟩

/-! ## Statistics -/

theorem findInFile_total_matches {σ : Type} (P : Platform σ) (fp : FileProcessor)
    (file_path : Str) (s : Run σ) :
    (findInFile P fp file_path s).2.stats.total_matches = s.stats.total_matches := by
  unfold findInFile
  split
  · rfl
  · simp only [Run.countFile, Run.print]
    split_ifs <;> rfl

theorem replaceInFile_total_matches {σ : Type} (P : Platform σ) (fp : FileProcessor)
    (file_path : Str) (s : Run σ) :
    (replaceInFile P fp file_path s).2.stats.total_matches = s.stats.total_matches := by
  unfold replaceInFile
  split
  · rfl
  · simp only [Run.countFile, Run.print, createBackup, writeFile]
    split_ifs <;> rfl

theorem processFileName_total_matches {σ : Type} (P : Platform σ) (fp : FileProcessor)
    (file_path : Str) (s : Run σ) :
    (processFileName P fp file_path s).2.stats.total_matches = s.stats.total_matches := by
  unfold processFileName
  simp only [Run.countFile, Run.print]
  split_ifs
  · split <;> rfl
  · rfl
  · rfl

theorem updateProgress_stats {σ : Type} (fp : FileProcessor) (message : Str) (s : Run σ) :
    (updateProgress fp message s).stats = s.stats := by
  unfold updateProgress
  split <;> rfl

theorem processFile_total_matches {σ : Type} (P : Platform σ) (fp : FileProcessor)
    (file_path : Str) (s : Run σ) :
    (processFile P fp file_path s).2.stats.total_matches = s.stats.total_matches := by
  unfold processFile processFileContents
  split_ifs
  · rfl
  · rfl
  · rfl
  · rw [processFileName_total_matches, updateProgress_stats]
  · rw [findInFile_total_matches, updateProgress_stats]
  · rw [replaceInFile_total_matches, updateProgress_stats]

theorem processEntries_total_matches {σ : Type} (P : Platform σ) (fp : FileProcessor)
    (recurse : Str → Run σ → Option (ProcessResult × Run σ))
    (dir_path pattern : Str) (recursive : Bool)
    (hrec : ∀ p s r, recurse p s = some r → r.2.stats.total_matches = s.stats.total_matches) :
    ∀ (entries : List DirEntry) (total : ProcessResult) (s : Run σ) (r : ProcessResult × Run σ),
      processEntries P fp recurse dir_path pattern recursive entries total s = some r →
      r.2.stats.total_matches = s.stats.total_matches := by
  intro entries
  induction entries with
  | nil =>
    intro total s r h
    simp only [processEntries, Option.some.injEq] at h
    subst h; rfl
  | cons entry rest ih =>
    intro total s r h
    simp only [processEntries] at h
    split_ifs at h with h1 h2 h3 h4
    · rw [ih _ _ r h, processFile_total_matches]
    · exact ih _ _ r h
    · split at h
      · cases h
      · rename_i r1 hr1
        rw [ih _ _ r h, hrec _ _ _ hr1]
    · exact ih _ _ r h
    · exact ih _ _ r h

theorem processDirectory_total_matches {σ : Type} (P : Platform σ) (fp : FileProcessor) :
    ∀ (depth : Nat) (dir_path pattern : Str) (recursive : Bool) (s : Run σ)
      (r : ProcessResult × Run σ),
      processDirectory P fp depth dir_path pattern recursive s = some r →
      r.2.stats.total_matches = s.stats.total_matches := by
  intro depth
  induction depth with
  | zero => intro dir_path pattern recursive s r h; cases h
  | succ depth ih =>
    intro dir_path pattern recursive s r h
    simp only [processDirectory] at h
    split_ifs at h with h1
    · simp only [Option.some.injEq] at h
      subst h; rfl
    · split at h
      · cases h
      · rename_i r1 hr1
        have hw := processEntries_total_matches P fp _ dir_path pattern recursive
          (fun p s r hr => ih p pattern recursive s r hr) _ _ _ _ hr1
        split at h <;>
          (simp only [Option.some.injEq] at h; subst h; exact hw)

theorem processWildcardList_total_matches {σ : Type} (P : Platform σ) (fp : FileProcessor)
    (depth : Nat) :
    ∀ (ws : List Str) (total : ProcessResult) (s : Run σ) (r : ProcessResult × Run σ),
      processWildcardList P fp depth ws total s = some r →
      r.2.stats.total_matches = s.stats.total_matches := by
  intro ws
  induction ws with
  | nil =>
    intro total s r h
    simp only [processWildcardList, Option.some.injEq] at h
    subst h; rfl
  | cons w rest ih =>
    intro total s r h
    simp only [processWildcardList] at h
    split at h
    · cases h
    · rename_i r1 hr1
      rw [ih _ _ r h]
      unfold processWildcard at hr1
      simp only at hr1
      split_ifs at hr1 <;>
        first
          | exact processDirectory_total_matches P fp _ _ _ _ _ _ hr1
          | (simp only [Option.some.injEq] at hr1
             subst hr1
             exact processFile_total_matches P fp _ _)


/-- C23 (what the code does): a run of `processWildcards` leaves
`total_matches` as it was, whatever it finds; nothing in the file processor
adds to it. -/
theorem C23_total_matches_unchanged {σ : Type} (P : Platform σ) (fp : FileProcessor)
    (depth : Nat) (wildcards : Str) (s : Run σ) (r : ProcessResult × Run σ)
    (h : processWildcards P fp depth wildcards s = some r) :
    r.2.stats.total_matches = s.stats.total_matches :=
  processWildcardList_total_matches P fp depth _ _ s r h

/-- Witness of C23: the recursive search for "foo" in `src` finds 4 matches in
3 files and leaves `total_matches` at 0; the driver prints "Found 0
occurrence(s) in 3 file(s)." and returns 0. -/
theorem C23_witness :
    (processWildcards memPlatform (FileProcessor.new (grepFooConfig true)) 3 (bytes "src")
        { fs := exampleTree }).map (fun r => (r.1, r.2.stats))
      = some ({ success := true, matches_found := 4 }, { total_files := 3, total_matches := 0 }) ∧
    (FartApplication.run memPlatform 3 [bytes "-r", bytes "src", bytes "foo"] exampleTree []).map
        (fun r => (r.1, r.2.cout))
      = some (0, bytes "src/a.txt :\nfoo\nbar foo\nsrc/b.c :\nint foo;\nsrc/lib/c.txt :\nfoo\n"
          ++ bytes "Found 0 occurrence(s) in 3 file(s).\n") ∧
    ((processWildcards memPlatform (FileProcessor.new (grepFooConfig true)) 3 (bytes "src")
        { fs := exampleTree }).get (by decide)).2.stats.total_matches
      = ({ fs := exampleTree } : Run MemFS).stats.total_matches :=
  ⟨by decide, by decide,
   C23_total_matches_unchanged memPlatform (FileProcessor.new (grepFooConfig true)) 3
     (bytes "src") { fs := exampleTree } _ (Option.some_get _).symm⟩


/-! ## Aggregation -/

theorem foldl_accumulate (children : List ProcessResult) : ∀ total : ProcessResult,
    children.foldl accumulate total
      = { success := total.success && (aggregate children).success
          matches_found := total.matches_found + (aggregate children).matches_found
          error_message := total.error_message ++ (aggregate children).error_message } := by
  induction children with
  | nil => intro total; simp [aggregate]
  | cons c rest ih =>
    intro total
    simp only [List.foldl_cons]
    rw [ih]
    by_cases hc : c.success = true
    · simp [accumulate, aggregate, hc, List.filter_cons]
      omega
    · simp only [Bool.not_eq_true] at hc
      simp [accumulate, aggregate, hc, List.filter_cons]
      omega

theorem foldl_accumulate_start (children : List ProcessResult) :
    children.foldl accumulate { success := true } = aggregate children := by
  rw [foldl_accumulate]
  simp

theorem processWildcardList_eq {σ : Type} (P : Platform σ) (fp : FileProcessor) (depth : Nat) :
    ∀ (ws : List Str) (total : ProcessResult) (s : Run σ),
      processWildcardList P fp depth ws total s
        = (wildcardOutcomes P fp depth ws s).map
            (fun x => (x.1.foldl accumulate total, x.2)) := by
  intro ws
  induction ws with
  | nil => intro total s; rfl
  | cons w rest ih =>
    intro total s
    simp only [processWildcardList, wildcardOutcomes]
    cases hw : processWildcard P fp depth w s with
    | none => rfl
    | some r =>
      simp only [ih]
      cases wildcardOutcomes P fp depth rest r.2 <;> rfl

theorem processEntries_eq {σ : Type} (P : Platform σ) (fp : FileProcessor)
    (recurse : Str → Run σ → Option (ProcessResult × Run σ))
    (dir_path pattern : Str) (recursive : Bool) :
    ∀ (entries : List DirEntry) (total : ProcessResult) (s : Run σ),
      processEntries P fp recurse dir_path pattern recursive entries total s
        = (entryOutcomes P fp recurse dir_path pattern recursive entries s).map
            (fun x => (x.1.foldl accumulate total, x.2)) := by
  intro entries
  induction entries with
  | nil => intro total s; rfl
  | cons entry rest ih =>
    intro total s
    simp only [processEntries, entryOutcomes]
    by_cases h1 : entry.is_regular_file = true
    · by_cases h2 : matchesPattern P (Path.filename entry.path) pattern = true
      · simp only [h1, h2, if_true, ih]
        cases entryOutcomes P fp recurse dir_path pattern recursive rest _ <;> rfl
      · simp only [h1, h2, if_true, Bool.false_eq_true, if_false, ih]
    · by_cases h3 : (entry.is_directory && recursive) = true
      · by_cases h4 : shouldSkipDirectory (Path.filename entry.path) fp.config.options = true
        · simp only [h1, h3, h4, Bool.false_eq_true, if_false, if_true, Bool.not_true,
            Bool.and_false, ih]
        · simp only [Bool.not_eq_true] at h4
          simp only [h1, h3, h4, Bool.false_eq_true, if_false, if_true, Bool.not_false,
            Bool.and_true, ih]
          cases recurse entry.path _ with
          | none => rfl
          | some r =>
            simp only
            cases entryOutcomes P fp recurse dir_path pattern recursive rest r.2 <;> rfl
      · simp only [h1, h3, Bool.false_eq_true, if_false, Bool.false_and, ih]

theorem length_wildcardOutcomes {σ : Type} (P : Platform σ) (fp : FileProcessor) (depth : Nat) :
    ∀ (ws : List Str) (s : Run σ) (x : List ProcessResult × Run σ),
      wildcardOutcomes P fp depth ws s = some x → x.1.length = ws.length := by
  intro ws
  induction ws with
  | nil =>
    intro s x h
    simp only [wildcardOutcomes, Option.some.injEq] at h
    subst h; rfl
  | cons w rest ih =>
    intro s x h
    simp only [wildcardOutcomes] at h
    split at h
    · cases h
    · rename_i r hr
      cases hrest : wildcardOutcomes P fp depth rest r.2 with
      | none => rw [hrest] at h; cases h
      | some y =>
        rw [hrest] at h
        simp only [Option.map_some', Option.some.injEq] at h
        subst h
        simp [ih _ _ hrest]


/-- Past the guard the aggregation is as specified: `processWildcards` returns
the aggregate of the outcomes of all its selectors, and `processDirectory`, on
a directory that exists and whose listing throws nothing, the aggregate of the
outcomes of its children: the matches are summed, success holds exactly when
every child succeeded, and the message is the messages of the failed children,
in order, each followed by a newline. Every selector has its outcome, whatever
the ones before did. -/
theorem aggregation_past_guard {σ : Type} (P : Platform σ) (fp : FileProcessor) (depth : Nat) :
    (∀ (wildcards : Str) (s : Run σ),
      processWildcards P fp depth wildcards s
        = (wildcardOutcomes P fp depth (splitWildcards wildcards) s).map
            (fun x => (aggregate x.1, x.2))) ∧
    (∀ (ws : List Str) (s : Run σ) (x : List ProcessResult × Run σ),
      wildcardOutcomes P fp depth ws s = some x → x.1.length = ws.length) ∧
    (∀ (dir_path pattern : Str) (recursive : Bool) (s : Run σ),
      P.pathExists s.fs dir_path = true → P.is_directory s.fs dir_path = true →
      (P.directory_entries s.fs dir_path).2 = none →
      processDirectory P fp (depth + 1) dir_path pattern recursive s
        = (entryOutcomes P fp (fun p t => processDirectory P fp depth p pattern recursive t)
            dir_path pattern recursive (P.directory_entries s.fs dir_path).1 s).map
            (fun x => (aggregate x.1, x.2))) ∧
    (∀ children : List ProcessResult,
      (aggregate children).matches_found = (children.map (fun c => c.matches_found)).sum ∧
      ((aggregate children).success = true ↔ ∀ c ∈ children, c.success = true) ∧
      (aggregate children).error_message
        = (children.filter (fun c => !c.success)).flatMap
            (fun c => c.error_message ++ bytes "\n")) := by
  refine ⟨?_, length_wildcardOutcomes P fp depth, ?_, ?_⟩
  · intro wildcards s
    unfold processWildcards
    rw [processWildcardList_eq]
    simp only [foldl_accumulate_start]
  · intro dir_path pattern recursive s hex hdir hl
    simp only [processDirectory, hex, hdir, Bool.not_true, Bool.or_self, Bool.false_eq_true,
      if_false, hl, processEntries_eq, foldl_accumulate_start]
    cases entryOutcomes P fp (fun p t => processDirectory P fp depth p pattern recursive t)
      dir_path pattern recursive (P.directory_entries s.fs dir_path).1 s <;> rfl
  · intro children
    refine ⟨rfl, ?_, rfl⟩
    simp [aggregate]

/-- The recursive search for "foo" in `src` with `src/b.c` unreadable: the
failure of `b.c` is recorded and `lib` is still walked. -/
theorem aggregation_example :
    (entryOutcomes lockedPlatform (FileProcessor.new defaultFooConfig)
        (fun p t => processDirectory lockedPlatform (FileProcessor.new defaultFooConfig) 2 p
          (bytes "*") true t)
        (bytes "src") (bytes "*") true (lockedPlatform.directory_entries exampleTree (bytes "src")).1
        { fs := exampleTree }).map (fun x => x.1)
      = some [ { success := true, matches_found := 2 },
               { error_message := bytes "Could not open file: src/b.c" },
               { success := true, matches_found := 1 } ] ∧
    (processDirectory lockedPlatform (FileProcessor.new defaultFooConfig) 3 (bytes "src")
        (bytes "*") true { fs := exampleTree }).map (fun r => r.1)
      = some { success := false, matches_found := 3,
               error_message := bytes "Could not open file: src/b.c\n" } ∧
    processDirectory lockedPlatform (FileProcessor.new defaultFooConfig) (2 + 1) (bytes "src")
        (bytes "*") true { fs := exampleTree }
      = (entryOutcomes lockedPlatform (FileProcessor.new defaultFooConfig)
          (fun p t => processDirectory lockedPlatform (FileProcessor.new defaultFooConfig) 2 p
            (bytes "*") true t)
          (bytes "src") (bytes "*") true
          (lockedPlatform.directory_entries ({ fs := exampleTree } : Run MemFS).fs (bytes "src")).1
          { fs := exampleTree }).map (fun x => (aggregate x.1, x.2)) :=
  ⟨by decide, by decide,
   (aggregation_past_guard lockedPlatform (FileProcessor.new defaultFooConfig) 2).2.2.1 (bytes "src")
     (bytes "*") true { fs := exampleTree } (by decide) (by decide) (by decide)⟩

/-- C24 (what the code does): on a path that does not exist or is no directory
`processDirectory` processes no child and returns at once, in the state it was
called in, with the message "Directory not found: ..." while `success` stays
`true`. Its message is then not the concatenation of the messages of failed
children, which is empty, and a caller that accumulates the outcome keeps its
own result and drops the message; `processFile` on a missing path returns
`success = false`. -/
theorem C24_missing_directory_keeps_success {σ : Type} (P : Platform σ) (fp : FileProcessor)
    (depth : Nat) (dir_path pattern : Str) (recursive : Bool) (s : Run σ)
    (h : P.pathExists s.fs dir_path = false ∨ P.is_directory s.fs dir_path = false) :
    processDirectory P fp (depth + 1) dir_path pattern recursive s
      = some ({ success := true, matches_found := 0,
                error_message := bytes "Directory not found: " ++ dir_path }, s) ∧
    bytes "Directory not found: " ++ dir_path ≠ (aggregate []).error_message ∧
    (∀ total : ProcessResult,
      accumulate total { success := true, matches_found := 0,
                         error_message := bytes "Directory not found: " ++ dir_path } = total) ∧
    (P.pathExists s.fs dir_path = false →
      processFile P fp dir_path s
        = ({ success := false, matches_found := 0,
             error_message := bytes "File not found: " ++ dir_path }, s)) := by
  refine ⟨?_, ?_, ?_, ?_⟩
  · have hg : (!P.pathExists s.fs dir_path || !P.is_directory s.fs dir_path) = true := by
      rcases h with h | h <;> simp [h]
    simp only [processDirectory, hg, if_true]
  · simp [aggregate, bytes]
  · intro total
    simp [accumulate]
  · intro hne
    simp only [processFile, hne, Bool.not_false, if_true]

/-- Witness of C24: `processDirectory` on the missing directory `nodir` of the
example tree, as reached by `fart nodir/x.txt,src/a.txt foo`: the outcome
carries the message and `success = true`, and `processWildcards` reports a
success with the two matches of `src/a.txt` and no message. -/
theorem C24_witness :
    memPlatform.pathExists exampleTree (bytes "nodir") = false ∧
    (processWildcards memPlatform (FileProcessor.new defaultFooConfig) 2
        (bytes "nodir/x.txt,src/a.txt") { fs := exampleTree }).map (fun r => r.1)
      = some { success := true, matches_found := 2, error_message := [] } ∧
    (processDirectory memPlatform (FileProcessor.new defaultFooConfig) (1 + 1) (bytes "nodir")
        (bytes "x.txt") false { fs := exampleTree }
      = some ({ success := true, matches_found := 0,
                error_message := bytes "Directory not found: " ++ bytes "nodir" },
              { fs := exampleTree }) ∧
    bytes "Directory not found: " ++ bytes "nodir" ≠ (aggregate []).error_message ∧
    (∀ total : ProcessResult,
      accumulate total { success := true, matches_found := 0,
                         error_message := bytes "Directory not found: " ++ bytes "nodir" }
        = total) ∧
    (memPlatform.pathExists ({ fs := exampleTree } : Run MemFS).fs (bytes "nodir") = false →
      processFile memPlatform (FileProcessor.new defaultFooConfig) (bytes "nodir")
          { fs := exampleTree }
        = ({ success := false, matches_found := 0,
             error_message := bytes "File not found: " ++ bytes "nodir" },
           { fs := exampleTree }))) :=
  ⟨by decide, by decide,
   C24_missing_directory_keeps_success memPlatform (FileProcessor.new defaultFooConfig) 1
     (bytes "nodir") (bytes "x.txt") false { fs := exampleTree } (Or.inl (by decide))⟩


/-! ## Selectors that match nothing -/

theorem entryOutcomes_nothing {σ : Type} (P : Platform σ) (fp : FileProcessor)
    (recurse : Str → Run σ → Option (ProcessResult × Run σ))
    (dir_path pattern : Str) (recursive : Bool) (s : Run σ) :
    ∀ (entries : List DirEntry),
      (∀ e ∈ entries,
        (e.is_regular_file = true → matchesPattern P (Path.filename e.path) pattern = false) ∧
        (e.is_regular_file = false →
          (e.is_directory && recursive
            && !shouldSkipDirectory (Path.filename e.path) fp.config.options) = false)) →
      entryOutcomes P fp recurse dir_path pattern recursive entries s = some ([], s) := by
  intro entries
  induction entries with
  | nil => intro _; rfl
  | cons entry rest ih =>
    intro h
    have he := h entry (List.mem_cons_self _ _)
    have hrest := ih (fun e hmem => h e (List.mem_cons_of_mem _ hmem))
    simp only [entryOutcomes]
    by_cases h1 : entry.is_regular_file = true
    · simp only [h1, if_true, he.1 h1, Bool.false_eq_true, if_false, hrest]
    · simp only [Bool.not_eq_true] at h1
      simp only [h1, Bool.false_eq_true, if_false, he.2 h1, hrest]

theorem accumulate_nothing (total : ProcessResult) :
    accumulate total { success := true } = total := by
  simp [accumulate]

/-- C22, as stated, fails: in the selector "src/*.zzz,src/a.txt" the first part
is not an existing path and no file of `src` matches "*.zzz", so it resolves to
nothing; `processWildcards` still returns success with an empty message (and
the two matches of the second part). -/
theorem C22_counterexample :
    memPlatform.pathExists exampleTree (bytes "src/*.zzz") = false ∧
    (memPlatform.directory_entries exampleTree (bytes "src")).1.all
      (fun e => !matchesPattern memPlatform (Path.filename e.path) (bytes "*.zzz")) = true ∧
    (processWildcards memPlatform (FileProcessor.new defaultFooConfig) 2 mixedSelector
        { fs := exampleTree }).map (fun r => r.1)
      = some { success := true, matches_found := 2, error_message := [] } := by
  decide

/-- The code on a selector whose directory part is missing: `processDirectory`
sets a message and leaves its success flag set, so `processWildcards` records
no failure and drops the message. -/
theorem processWildcards_missing_directory_example :
    (processDirectory memPlatform (FileProcessor.new defaultFooConfig) 2 (bytes "nodir")
        (bytes "x.txt") false { fs := exampleTree }).map (fun r => r.1)
      = some { success := true, matches_found := 0,
               error_message := bytes "Directory not found: nodir" } ∧
    (processWildcards memPlatform (FileProcessor.new defaultFooConfig) 2
        (bytes "nodir/x.txt,src/a.txt") { fs := exampleTree }).map (fun r => r.1)
      = some { success := true, matches_found := 2, error_message := [] } := by
  decide

/-- C22, amended: a selector that is not an existing path, whose directory
part is an existing directory that can be listed, and for which the walk of
that directory finds no file matching its file-name pattern and no directory
to descend into, is not recorded as a failure: its outcome is a success with
no match and no message, the state is left as it was, and the selectors after
it are processed and counted as if it were not there. -/
theorem C22_unmatched_selector {σ : Type} (P : Platform σ) (fp : FileProcessor) (depth : Nat)
    (wildcard : Str) (rest : List Str) (total : ProcessResult) (s : Run σ)
    (hne : P.pathExists s.fs wildcard = false)
    (hex : P.pathExists s.fs (directoryPart wildcard) = true)
    (hdir : P.is_directory s.fs (directoryPart wildcard) = true)
    (hl : (P.directory_entries s.fs (directoryPart wildcard)).2 = none)
    (hnone : ∀ e ∈ (P.directory_entries s.fs (directoryPart wildcard)).1,
      (e.is_regular_file = true →
        matchesPattern P (Path.filename e.path) (Path.filename wildcard) = false) ∧
      (e.is_regular_file = false →
        (e.is_directory && fp.config.options.recursive
          && !shouldSkipDirectory (Path.filename e.path) fp.config.options) = false)) :
    processWildcard P fp (depth + 1) wildcard s = some ({ success := true }, s) ∧
    processWildcardList P fp (depth + 1) (wildcard :: rest) total s
      = processWildcardList P fp (depth + 1) rest total s := by
  have h1 : processWildcard P fp (depth + 1) wildcard s = some ({ success := true }, s) := by
    unfold processWildcard
    simp only [hne, Bool.false_eq_true, if_false]
    have hd : (if (Path.parent_path wildcard).isEmpty = true then bytes "."
        else Path.parent_path wildcard) = directoryPart wildcard := rfl
    rw [hd]
    simp only [processDirectory, hex, hdir, Bool.not_true, Bool.or_self, Bool.false_eq_true,
      if_false, hl, processEntries_eq,
      entryOutcomes_nothing P fp _ (directoryPart wildcard) (Path.filename wildcard)
        fp.config.options.recursive s _ hnone]
    rfl
  refine ⟨h1, ?_⟩
  simp only [processWildcardList, h1, accumulate_nothing]

/-- Witness of C22: the selector `src/*.zzz` before `src/a.txt` in the example
tree. -/
theorem C22_witness :
    processWildcard memPlatform (FileProcessor.new defaultFooConfig) (1 + 1) (bytes "src/*.zzz")
        { fs := exampleTree } = some ({ success := true }, { fs := exampleTree }) ∧
    processWildcardList memPlatform (FileProcessor.new defaultFooConfig) (1 + 1)
        (bytes "src/*.zzz" :: [bytes "src/a.txt"]) { success := true } { fs := exampleTree }
      = processWildcardList memPlatform (FileProcessor.new defaultFooConfig) (1 + 1)
          [bytes "src/a.txt"] { success := true } { fs := exampleTree } :=
  C22_unmatched_selector memPlatform (FileProcessor.new defaultFooConfig) 1 (bytes "src/*.zzz")
    [bytes "src/a.txt"] { success := true } { fs := exampleTree } (by decide) (by decide)
    (by decide) (by decide) (by decide)


/-! ## Conflicting options -/

theorem parseLongOption_remove (option : Str) (o : Options) (h : o.remove = true) :
    (ArgumentParser.parseLongOption option o).2.remove = true := by
  unfold ArgumentParser.parseLongOption
  simp only [apply_ite Prod.snd, apply_ite Options.remove, h, ite_self]

theorem parseLongOption_sets_remove (o : Options) :
    (ArgumentParser.parseLongOption (bytes "remove") o).2.remove = true ∧
    (ArgumentParser.parseLongOption (bytes "remove") o).1.success = true ∧
    (ArgumentParser.parseLongOption (bytes "remove") o).1.show_help = false :=
  ⟨rfl, rfl, rfl⟩

theorem parseLongOption_message (option : Str) (o : Options)
    (h : (ArgumentParser.parseLongOption option o).1.success = false) :
    (ArgumentParser.parseLongOption option o).1.error_message ≠ [] := by
  unfold ArgumentParser.parseLongOption at h ⊢
  by_cases hv : ArgumentParser.isValidLongOption option = true
  · simp only [hv, Bool.not_true, Bool.false_eq_true, if_false, apply_ite Prod.fst,
      apply_ite ParseResult.success, ite_self] at h
    cases h
  · simp only [Bool.not_eq_true] at hv
    simp only [hv, Bool.not_false, if_true]
    simp [bytes]

theorem applyShort_remove (option : Nat) (o : Options) (show_help : Bool)
    (h : o.remove = true) : (ArgumentParser.applyShort option o show_help).1.remove = true := by
  unfold ArgumentParser.applyShort
  simp only [apply_ite Prod.fst, apply_ite Options.remove, h, ite_self]

theorem parseShortLoop_remove : ∀ (options : Str) (result : ParseResult) (o : Options),
    o.remove = true → (ArgumentParser.parseShortLoop options result o).2.remove = true := by
  intro options
  induction options with
  | nil => intro result o h; exact h
  | cons option rest ih =>
    intro result o h
    simp only [ArgumentParser.parseShortLoop]
    split_ifs
    · exact h
    · exact ih _ _ h
    · exact ih _ _ (applyShort_remove _ _ _ h)

theorem parseShortLoop_message : ∀ (options : Str) (result : ParseResult) (o : Options),
    (result.success = false → result.error_message ≠ []) →
    (ArgumentParser.parseShortLoop options result o).1.success = false →
    (ArgumentParser.parseShortLoop options result o).1.error_message ≠ [] := by
  intro options
  induction options with
  | nil => intro result o h; exact h
  | cons option rest ih =>
    intro result o h
    simp only [ArgumentParser.parseShortLoop]
    split_ifs
    · intro _; simp [bytes]
    · exact ih _ _ h
    · exact ih _ _ h

theorem slots_options (c : FartConfig) (o : Options) :
    slots { c with options := o } = slots c := rfl

theorem parseArgs_early_message (args : List Str) :
    ∀ (parsing_options : Bool) (result : ParseResult) (config : FartConfig),
      (ArgumentParser.parseArgs args parsing_options result config).1 = true →
      (ArgumentParser.parseArgs args parsing_options result config).2.1.error_message ≠ [] := by
  induction args with
  | nil => intro po result config h; simp [ArgumentParser.parseArgs] at h
  | cons arg rest ih =>
    intro po result config
    simp only [ArgumentParser.parseArgs]
    split_ifs with h1 h2 h3 h4 h5 h6 h7 h8 h9
    all_goals first
      | exact ih _ _ _
      | (intro _
         refine parseLongOption_message _ _ ?_
         simpa using ‹(!(ArgumentParser.parseLongOption _ _).1.success) = true›)
      | (intro _
         refine parseShortLoop_message _ { success := true } _ (fun h => by cases h) ?_
         simpa using ‹(!(ArgumentParser.parseShortOptions _ _).1.success) = true›)
      | (intro _; simp [bytes])

theorem slots_setWildcard (c : FartConfig) (arg : Str) (h : c.hasWildcard = false) :
    slots c + (if arg.isEmpty then 0 else 1) ≤ slots (c.setWildcard arg) := by
  simp only [slots, FartConfig.hasWildcard, FartConfig.hasFindString,
    FartConfig.hasReplaceString, FartConfig.setWildcard] at *
  cases arg <;> simp_all
  split_ifs <;> simp

theorem slots_setFindString (c : FartConfig) (arg : Str) (hw : c.hasWildcard = true)
    (h : c.hasFindString = false) :
    slots c + (if arg.isEmpty then 0 else 1) ≤ slots (c.setFindString arg) := by
  simp only [slots, FartConfig.hasWildcard, FartConfig.hasFindString,
    FartConfig.hasReplaceString, FartConfig.setFindString] at *
  cases arg <;> simp_all
  split_ifs <;> simp

theorem slots_setReplaceString (c : FartConfig) (arg : Str) (hw : c.hasWildcard = true)
    (hf : c.hasFindString = true) (h : c.hasReplaceString = false) :
    slots c + (if arg.isEmpty then 0 else 1) ≤ slots (c.setReplaceString arg) := by
  simp only [slots, FartConfig.hasWildcard, FartConfig.hasFindString,
    FartConfig.hasReplaceString, FartConfig.setReplaceString] at *
  cases arg <;> simp_all

theorem positionalCount_cons (arg : Str) (rest : List Str) (po : Bool)
    (h : readsAsOption po arg = false) :
    positionalCount (arg :: rest) po = (if arg.isEmpty then 0 else 1) + positionalCount rest po := by
  simp only [positionalCount, positionalArgs, h, Bool.false_eq_true, if_false, List.filter_cons]
  cases arg <;> simp [Nat.add_comm]

theorem parseArgs_conflict (args : List Str) :
    ∀ (po : Bool) (result : ParseResult) (c : FartConfig),
      (ArgumentParser.parseArgs args po result c).1 = false →
      slots c + positionalCount args po ≤ slots (ArgumentParser.parseArgs args po result c).2.2 ∧
      ((c.options.remove = true ∨ bytes "--remove" ∈ optionArgs args po) →
        (ArgumentParser.parseArgs args po result c).2.2.options.remove = true) := by
  induction args with
  | nil =>
    intro po result c _
    simp [ArgumentParser.parseArgs, positionalCount, positionalArgs, optionArgs]
  | cons arg rest ih =>
    intro po result c
    by_cases hopt : readsAsOption po arg = true
    · have hopt2 : (po && decide (arg.length > 1) && arg.getD 0 0 == '-'.toNat) = true := hopt
      by_cases hdd : (arg == bytes "--") = true
      · have e : ArgumentParser.parseArgs (arg :: rest) po result c =
            ArgumentParser.parseArgs rest false result c := by
          simp only [ArgumentParser.parseArgs]
          rw [if_pos hopt2, if_pos hdd]
        have e2 : positionalCount (arg :: rest) po = positionalCount rest false := by
          simp only [positionalCount, positionalArgs, hopt, hdd, if_true]
        have e3 : optionArgs (arg :: rest) po = optionArgs rest false := by
          simp only [optionArgs, hopt, hdd, if_true]
        rw [e, e2, e3]
        exact ih false result c
      · have e2 : positionalCount (arg :: rest) po = positionalCount rest po := by
          simp only [positionalCount, positionalArgs, hopt, hdd, if_true, Bool.false_eq_true,
            if_false]
        have e3 : optionArgs (arg :: rest) po = arg :: optionArgs rest po := by
          simp only [optionArgs, hopt, hdd, if_true, Bool.false_eq_true, if_false]
        rw [e2, e3]
        simp only [ArgumentParser.parseArgs]
        rw [if_pos hopt2, if_neg hdd]
        have key : (c.options.remove = true ∨ bytes "--remove" = arg) →
            (if (decide (arg.length > 2) && substr arg 0 2 == bytes "--") = true then
              ArgumentParser.parseLongOption (substrFrom arg 2) c.options
            else ArgumentParser.parseShortOptions (substrFrom arg 1) c.options).2.remove = true := by
          rintro (hr | rfl)
          · split_ifs
            · exact parseLongOption_remove _ _ hr
            · exact parseShortLoop_remove _ _ _ hr
          · exact (parseLongOption_sets_remove c.options).1
        generalize (if (decide (arg.length > 2) && substr arg 0 2 == bytes "--") = true then
              ArgumentParser.parseLongOption (substrFrom arg 2) c.options
            else ArgumentParser.parseShortOptions (substrFrom arg 1) c.options) = r at key ⊢
        split_ifs with h4 h5
        · intro hcontra; cases hcontra
        · intro hne
          have := ih po { result with show_help := true } _ hne
          refine ⟨by rw [← slots_options c]; exact this.1, fun hmem => this.2 ?_⟩
          rcases hmem with hr | hmem
          · exact Or.inl (key (Or.inl hr))
          · rcases List.mem_cons.mp hmem with heq | hmem
            · exact Or.inl (key (Or.inr heq))
            · exact Or.inr hmem
        · intro hne
          have := ih po result _ hne
          refine ⟨by rw [← slots_options c]; exact this.1, fun hmem => this.2 ?_⟩
          rcases hmem with hr | hmem
          · exact Or.inl (key (Or.inl hr))
          · rcases List.mem_cons.mp hmem with heq | hmem
            · exact Or.inl (key (Or.inr heq))
            · exact Or.inr hmem
    · simp only [Bool.not_eq_true] at hopt
      have hopt2 : (po && decide (arg.length > 1) && arg.getD 0 0 == '-'.toNat) = false := hopt
      have e2 := positionalCount_cons arg rest po hopt
      have e3 : optionArgs (arg :: rest) po = optionArgs rest po := by
        simp only [optionArgs, hopt, Bool.false_eq_true, if_false]
      rw [e2, e3]
      simp only [ArgumentParser.parseArgs]
      rw [hopt2]
      simp only [Bool.false_eq_true, if_false]
      cases h1 : c.hasWildcard with
      | false =>
        simp only [Bool.not_false, if_true]
        intro hne
        have := ih po result _ hne
        have hs := slots_setWildcard c arg h1
        exact ⟨by omega, this.2⟩
      | true =>
        simp only [Bool.not_true, Bool.false_eq_true, if_false]
        cases h2 : c.hasFindString with
        | false =>
          simp only [Bool.not_false, if_true]
          intro hne
          have := ih po result _ hne
          have hs := slots_setFindString c arg h1 h2
          exact ⟨by omega, this.2⟩
        | true =>
          simp only [Bool.not_true, Bool.false_eq_true, if_false]
          cases h3 : c.hasReplaceString with
          | false =>
            simp only [Bool.not_false, if_true]
            intro hne
            have := ih po result _ hne
            have hs := slots_setReplaceString c arg h1 h2 h3
            exact ⟨by omega, this.2⟩
          | true =>
            simp only [Bool.not_true, Bool.false_eq_true, if_false]
            intro hcontra
            cases hcontra

theorem parseArgs_success (args : List Str) :
    ∀ (po : Bool) (result : ParseResult) (c : FartConfig),
      (ArgumentParser.parseArgs args po result c).1 = false →
      (ArgumentParser.parseArgs args po result c).2.1.success = result.success := by
  induction args with
  | nil => intro po result c _; rfl
  | cons arg rest ih =>
    intro po result c
    simp only [ArgumentParser.parseArgs]
    split_ifs <;>
      first
        | exact ih _ _ _
        | (intro h; cases h)

theorem hasReplaceString_of_slots (c : FartConfig) (h : 3 ≤ slots c) :
    c.hasReplaceString = true := by
  unfold slots at h
  split_ifs at h with h1 h2 h3
  · omega
  · omega
  · omega
  · simpa using h3

theorem parse_conflict (args : List Str) (hr : bytes "--remove" ∈ optionArgs args true)
    (hp : 3 ≤ positionalCount args true) :
    (ArgumentParser.parse args {}).1.success = false ∧
    (ArgumentParser.parse args {}).1.error_message ≠ [] ∧
    ArgumentParser.parseWarning args {} = [] := by
  unfold ArgumentParser.parse ArgumentParser.parseWarning
  simp only
  by_cases he : (ArgumentParser.parseArgs args true { success := true } {}).1 = true
  · simp only [he, if_true]
    exact ⟨parseArgs_early args _ _ _ he, parseArgs_early_message args _ _ _ he, trivial⟩
  · simp only [Bool.not_eq_true] at he
    have hc := parseArgs_conflict args true { success := true } {} he
    have h3 : (ArgumentParser.parseArgs args true { success := true } {}).2.2.hasReplaceString
        = true := hasReplaceString_of_slots _ (by have := hc.1; omega)
    have hrm := hc.2 (Or.inr hr)
    simp only [he, Bool.false_eq_true, if_false, hrm, h3, Bool.and_self, if_true]
    exact ⟨trivial, by simp [bytes], trivial⟩

/-! ## The options `--count` and `--line-number` -/

theorem parseLongOption_agree (option : Str) (o1 o2 : Options)
    (h : clearCountLineOptions o1 = clearCountLineOptions o2) :
    (ArgumentParser.parseLongOption option o1).1 = (ArgumentParser.parseLongOption option o2).1 ∧
    clearCountLineOptions (ArgumentParser.parseLongOption option o1).2
      = clearCountLineOptions (ArgumentParser.parseLongOption option o2).2 := by
  cases o1
  cases o2
  simp only [clearCountLineOptions, Options.mk.injEq] at h
  obtain ⟨h1, h2, h3, h4, -, h6, h7, -, h9, h10, h11, h12, h13, h14, h15, h16, h17, h18, h19⟩ := h
  subst_vars
  unfold ArgumentParser.parseLongOption
  simp only [apply_ite Prod.fst, apply_ite Prod.snd, apply_ite clearCountLineOptions]
  refine ⟨trivial, ?_⟩
  rfl

theorem applyShort_agree (option : Nat) (o1 o2 : Options) (show_help : Bool)
    (h : clearCountLineOptions o1 = clearCountLineOptions o2) :
    (ArgumentParser.applyShort option o1 show_help).2
      = (ArgumentParser.applyShort option o2 show_help).2 ∧
    clearCountLineOptions (ArgumentParser.applyShort option o1 show_help).1
      = clearCountLineOptions (ArgumentParser.applyShort option o2 show_help).1 := by
  cases o1
  cases o2
  simp only [clearCountLineOptions, Options.mk.injEq] at h
  obtain ⟨h1, h2, h3, h4, -, h6, h7, -, h9, h10, h11, h12, h13, h14, h15, h16, h17, h18, h19⟩ := h
  subst_vars
  unfold ArgumentParser.applyShort
  simp only [apply_ite Prod.fst, apply_ite Prod.snd, apply_ite clearCountLineOptions]
  refine ⟨trivial, ?_⟩
  rfl

theorem parseShortLoop_agree : ∀ (options : Str) (result : ParseResult) (o1 o2 : Options),
    clearCountLineOptions o1 = clearCountLineOptions o2 →
    (ArgumentParser.parseShortLoop options result o1).1
      = (ArgumentParser.parseShortLoop options result o2).1 ∧
    clearCountLineOptions (ArgumentParser.parseShortLoop options result o1).2
      = clearCountLineOptions (ArgumentParser.parseShortLoop options result o2).2 := by
  intro options
  induction options with
  | nil => intro result o1 o2 h; exact ⟨rfl, h⟩
  | cons option rest ih =>
    intro result o1 o2 h
    simp only [ArgumentParser.parseShortLoop]
    obtain ⟨a1, a2⟩ := applyShort_agree option o1 o2 result.show_help h
    split_ifs
    · exact ⟨rfl, h⟩
    · exact ih _ _ _ h
    · rw [a1]
      exact ih _ _ _ a2

theorem optionStep_agree (arg : Str) (o1 o2 : Options)
    (h : clearCountLineOptions o1 = clearCountLineOptions o2) :
    (if (decide (arg.length > 2) && substr arg 0 2 == bytes "--") = true then
        ArgumentParser.parseLongOption (substrFrom arg 2) o1
      else ArgumentParser.parseShortOptions (substrFrom arg 1) o1).1
      = (if (decide (arg.length > 2) && substr arg 0 2 == bytes "--") = true then
          ArgumentParser.parseLongOption (substrFrom arg 2) o2
        else ArgumentParser.parseShortOptions (substrFrom arg 1) o2).1 ∧
    clearCountLineOptions
        (if (decide (arg.length > 2) && substr arg 0 2 == bytes "--") = true then
          ArgumentParser.parseLongOption (substrFrom arg 2) o1
        else ArgumentParser.parseShortOptions (substrFrom arg 1) o1).2
      = clearCountLineOptions
        (if (decide (arg.length > 2) && substr arg 0 2 == bytes "--") = true then
          ArgumentParser.parseLongOption (substrFrom arg 2) o2
        else ArgumentParser.parseShortOptions (substrFrom arg 1) o2).2 := by
  split_ifs
  · exact parseLongOption_agree _ _ _ h
  · exact parseShortLoop_agree _ _ _ _ h

theorem optionStep_count (o : Options) :
    ArgumentParser.parseLongOption (bytes "count") o = ({ success := true }, { o with count := true }) ∧
    ArgumentParser.parseLongOption (bytes "line-number") o
      = ({ success := true }, { o with line_numbers := true }) :=
  ⟨rfl, rfl⟩

theorem clearCountLine_agree (c1 c2 : FartConfig) (h : clearCountLine c1 = clearCountLine c2) :
    c1.wildcard = c2.wildcard ∧ c1.find_string = c2.find_string ∧
    c1.replace_string = c2.replace_string ∧ c1.stats = c2.stats ∧
    clearCountLineOptions c1.options = clearCountLineOptions c2.options ∧
    c1.options.help = c2.options.help ∧ c1.options.remove = c2.options.remove := by
  have h1 := congrArg FartConfig.wildcard h
  have h2 := congrArg FartConfig.find_string h
  have h3 := congrArg FartConfig.replace_string h
  have h4 := congrArg FartConfig.stats h
  have h5 := congrArg FartConfig.options h
  have h6 := congrArg Options.help h5
  have h7 := congrArg Options.remove h5
  exact ⟨h1, h2, h3, h4, h5, h6, h7⟩

theorem clearCountLine_of_agree (c1 c2 : FartConfig) (hw : c1.wildcard = c2.wildcard)
    (hf : c1.find_string = c2.find_string) (hr : c1.replace_string = c2.replace_string)
    (hs : c1.stats = c2.stats)
    (ho : clearCountLineOptions c1.options = clearCountLineOptions c2.options) :
    clearCountLine c1 = clearCountLine c2 := by
  cases c1
  cases c2
  simp only at hw hf hr hs ho
  simp only [clearCountLine, hw, hf, hr, hs, ho]

theorem parseArgs_agree (args : List Str) :
    ∀ (po : Bool) (result : ParseResult) (c1 c2 : FartConfig),
      clearCountLine c1 = clearCountLine c2 →
      (ArgumentParser.parseArgs args po result c1).1
        = (ArgumentParser.parseArgs (withoutCountLine args po) po result c2).1 ∧
      (ArgumentParser.parseArgs args po result c1).2.1
        = (ArgumentParser.parseArgs (withoutCountLine args po) po result c2).2.1 ∧
      clearCountLine (ArgumentParser.parseArgs args po result c1).2.2
        = clearCountLine (ArgumentParser.parseArgs (withoutCountLine args po) po result c2).2.2 := by
  induction args with
  | nil =>
    intro po result c1 c2 h
    exact ⟨rfl, rfl, h⟩
  | cons arg rest ih =>
    intro po result c1 c2 h
    obtain ⟨hw, hf, hr, hst, ho, -, -⟩ := clearCountLine_agree c1 c2 h
    by_cases hopt : readsAsOption po arg = true
    · have hopt2 : (po && decide (arg.length > 1) && arg.getD 0 0 == '-'.toNat) = true := hopt
      by_cases hdd : (arg == bytes "--") = true
      · have e1 : ArgumentParser.parseArgs (arg :: rest) po result c1 =
            ArgumentParser.parseArgs rest false result c1 := by
          simp only [ArgumentParser.parseArgs]
          rw [if_pos hopt2, if_pos hdd]
        have e2 : withoutCountLine (arg :: rest) po = arg :: withoutCountLine rest false := by
          simp only [withoutCountLine, hopt, hdd, if_true]
        have e3 : ArgumentParser.parseArgs (arg :: withoutCountLine rest false) po result c2 =
            ArgumentParser.parseArgs (withoutCountLine rest false) false result c2 := by
          simp only [ArgumentParser.parseArgs]
          rw [if_pos hopt2, if_pos hdd]
        rw [e1, e2, e3]
        exact ih false result c1 c2 h
      · by_cases hcl : (arg == bytes "--count" || arg == bytes "--line-number") = true
        · have e2 : withoutCountLine (arg :: rest) po = withoutCountLine rest po := by
            simp only [withoutCountLine, hopt, hdd, hcl, if_true, Bool.false_eq_true, if_false]
          rw [e2]
          simp only [Bool.or_eq_true, beq_iff_eq] at hcl
          rcases hcl with rfl | rfl
          · have e1 : ArgumentParser.parseArgs (bytes "--count" :: rest) po result c1 =
                ArgumentParser.parseArgs rest po result
                  { c1 with options := { c1.options with count := true } } := by
              simp only [ArgumentParser.parseArgs]
              rw [if_pos hopt2, if_neg hdd]
              rfl
            rw [e1]
            exact ih po result _ c2 h
          · have e1 : ArgumentParser.parseArgs (bytes "--line-number" :: rest) po result c1 =
                ArgumentParser.parseArgs rest po result
                  { c1 with options := { c1.options with line_numbers := true } } := by
              simp only [ArgumentParser.parseArgs]
              rw [if_pos hopt2, if_neg hdd]
              rfl
            rw [e1]
            exact ih po result _ c2 h
        · have e2 : withoutCountLine (arg :: rest) po = arg :: withoutCountLine rest po := by
            simp only [withoutCountLine, hopt, hdd, hcl, if_true, Bool.false_eq_true, if_false]
          rw [e2]
          simp only [ArgumentParser.parseArgs]
          rw [if_pos hopt2, if_neg hdd, if_pos hopt2, if_neg hdd]
          obtain ⟨k1, k2⟩ := optionStep_agree arg c1.options c2.options ho
          generalize (if (decide (arg.length > 2) && substr arg 0 2 == bytes "--") = true then
                ArgumentParser.parseLongOption (substrFrom arg 2) c1.options
              else ArgumentParser.parseShortOptions (substrFrom arg 1) c1.options) = r1 at k1 k2 ⊢
          generalize (if (decide (arg.length > 2) && substr arg 0 2 == bytes "--") = true then
                ArgumentParser.parseLongOption (substrFrom arg 2) c2.options
              else ArgumentParser.parseShortOptions (substrFrom arg 1) c2.options) = r2 at k1 k2 ⊢
          have hc : clearCountLine { c1 with options := r1.2 }
              = clearCountLine { c2 with options := r2.2 } :=
            clearCountLine_of_agree _ _ hw hf hr hst k2
          rw [k1]
          split_ifs
          · exact ⟨rfl, rfl, hc⟩
          · exact ih po _ _ _ hc
          · exact ih po _ _ _ hc
    · simp only [Bool.not_eq_true] at hopt
      have hopt2 : (po && decide (arg.length > 1) && arg.getD 0 0 == '-'.toNat) = false := hopt
      have e2 : withoutCountLine (arg :: rest) po = arg :: withoutCountLine rest po := by
        simp only [withoutCountLine, hopt, Bool.false_eq_true, if_false]
      rw [e2]
      simp only [ArgumentParser.parseArgs]
      rw [hopt2]
      simp only [Bool.false_eq_true, if_false]
      have hW : c1.hasWildcard = c2.hasWildcard := by simp only [FartConfig.hasWildcard, hw]
      have hF : c1.hasFindString = c2.hasFindString := by simp only [FartConfig.hasFindString, hf]
      have hR : c1.hasReplaceString = c2.hasReplaceString := by
        simp only [FartConfig.hasReplaceString, hr]
      rw [hW, hF, hR]
      have s1 : clearCountLine (c1.setWildcard arg) = clearCountLine (c2.setWildcard arg) :=
        clearCountLine_of_agree _ _ rfl hf hr hst ho
      have s2 : clearCountLine (c1.setFindString arg) = clearCountLine (c2.setFindString arg) :=
        clearCountLine_of_agree _ _ hw rfl hr hst ho
      have s3 : clearCountLine (c1.setReplaceString arg)
          = clearCountLine (c2.setReplaceString arg) :=
        clearCountLine_of_agree _ _ hw hf rfl hst ho
      cases c2.hasWildcard with
      | false => exact ih po result _ _ s1
      | true =>
        cases c2.hasFindString with
        | false => exact ih po result _ _ s2
        | true =>
          cases c2.hasReplaceString with
          | false => exact ih po result _ _ s3
          | true => exact ⟨rfl, rfl, h⟩

theorem parse_agree (args : List Str) :
    (ArgumentParser.parse args {}).1
      = (ArgumentParser.parse (withoutCountLine args true) {}).1 ∧
    clearCountLine (ArgumentParser.parse args {}).2
      = clearCountLine (ArgumentParser.parse (withoutCountLine args true) {}).2 := by
  obtain ⟨a1, a2, a3⟩ := parseArgs_agree args true { success := true } {} {} rfl
  unfold ArgumentParser.parse
  simp only
  generalize ArgumentParser.parseArgs args true { success := true } {} = x at a1 a2 a3 ⊢
  generalize ArgumentParser.parseArgs (withoutCountLine args true) true { success := true } {}
    = y at a1 a2 a3 ⊢
  obtain ⟨x1, x2, x3⟩ := x
  obtain ⟨y1, y2, y3⟩ := y
  simp only at a1 a2 a3 ⊢
  subst a1 a2
  obtain ⟨hw, hf, hr, hst, ho, hh, hrm⟩ := clearCountLine_agree x3 y3 a3
  have hW : x3.hasWildcard = y3.hasWildcard := by simp only [FartConfig.hasWildcard, hw]
  have hF : x3.hasFindString = y3.hasFindString := by simp only [FartConfig.hasFindString, hf]
  have hR : x3.hasReplaceString = y3.hasReplaceString := by
    simp only [FartConfig.hasReplaceString, hr]
  have s3 : clearCountLine (x3.setReplaceString []) = clearCountLine (y3.setReplaceString []) :=
    clearCountLine_of_agree _ _ hw hf rfl hst ho
  rw [hh, hrm, hW, hF, hR]
  cases x1
  · simp only [Bool.false_eq_true, if_false]
    split_ifs <;> first | exact ⟨rfl, a3⟩ | exact ⟨rfl, s3⟩
  · exact ⟨rfl, a3⟩

theorem parseLongOption_count (option : Str) (o : Options) (h : o.count = true) :
    (ArgumentParser.parseLongOption option o).2.count = true := by
  unfold ArgumentParser.parseLongOption
  simp only [apply_ite Prod.snd, apply_ite Options.count, h, ite_self]

theorem applyShort_count (option : Nat) (o : Options) (show_help : Bool)
    (h : o.count = true) : (ArgumentParser.applyShort option o show_help).1.count = true := by
  unfold ArgumentParser.applyShort
  simp only [apply_ite Prod.fst, apply_ite Options.count, h, ite_self]

theorem parseLongOption_line_numbers (option : Str) (o : Options) (h : o.line_numbers = true) :
    (ArgumentParser.parseLongOption option o).2.line_numbers = true := by
  unfold ArgumentParser.parseLongOption
  simp only [apply_ite Prod.snd, apply_ite Options.line_numbers, h, ite_self]

theorem applyShort_line_numbers (option : Nat) (o : Options) (show_help : Bool)
    (h : o.line_numbers = true) :
    (ArgumentParser.applyShort option o show_help).1.line_numbers = true := by
  unfold ArgumentParser.applyShort
  simp only [apply_ite Prod.fst, apply_ite Options.line_numbers, h, ite_self]

theorem parseShortLoop_flag (f : Options → Bool)
    (hshort : ∀ (option : Nat) (o : Options) (show_help : Bool), f o = true →
      f (ArgumentParser.applyShort option o show_help).1 = true) :
    ∀ (options : Str) (result : ParseResult) (o : Options),
      f o = true → f (ArgumentParser.parseShortLoop options result o).2 = true := by
  intro options
  induction options with
  | nil => intro result o h; exact h
  | cons option rest ih =>
    intro result o h
    simp only [ArgumentParser.parseShortLoop]
    split_ifs
    · exact h
    · exact ih _ _ h
    · exact ih _ _ (hshort _ _ _ h)

theorem parseArgs_flag (f : Options → Bool) (flag : Str)
    (hlong : ∀ (option : Str) (o : Options), f o = true →
      f (ArgumentParser.parseLongOption option o).2 = true)
    (hshort : ∀ (option : Nat) (o : Options) (show_help : Bool), f o = true →
      f (ArgumentParser.applyShort option o show_help).1 = true)
    (hset : ∀ o : Options,
      f (if (decide (flag.length > 2) && substr flag 0 2 == bytes "--") = true then
          ArgumentParser.parseLongOption (substrFrom flag 2) o
        else ArgumentParser.parseShortOptions (substrFrom flag 1) o).2 = true)
    (args : List Str) :
    ∀ (po : Bool) (result : ParseResult) (c : FartConfig),
      (ArgumentParser.parseArgs args po result c).1 = false →
      (f c.options = true ∨ flag ∈ optionArgs args po) →
      f (ArgumentParser.parseArgs args po result c).2.2.options = true := by
  induction args with
  | nil =>
    intro po result c _ h
    rcases h with h | h
    · exact h
    · simp [optionArgs] at h
  | cons arg rest ih =>
    intro po result c
    by_cases hopt : readsAsOption po arg = true
    · have hopt2 : (po && decide (arg.length > 1) && arg.getD 0 0 == '-'.toNat) = true := hopt
      by_cases hdd : (arg == bytes "--") = true
      · have e : ArgumentParser.parseArgs (arg :: rest) po result c =
            ArgumentParser.parseArgs rest false result c := by
          simp only [ArgumentParser.parseArgs]
          rw [if_pos hopt2, if_pos hdd]
        have e3 : optionArgs (arg :: rest) po = optionArgs rest false := by
          simp only [optionArgs, hopt, hdd, if_true]
        rw [e, e3]
        exact ih false result c
      · have e3 : optionArgs (arg :: rest) po = arg :: optionArgs rest po := by
          simp only [optionArgs, hopt, hdd, if_true, Bool.false_eq_true, if_false]
        rw [e3]
        simp only [ArgumentParser.parseArgs]
        rw [if_pos hopt2, if_neg hdd]
        have key : (f c.options = true ∨ flag = arg) →
            f (if (decide (arg.length > 2) && substr arg 0 2 == bytes "--") = true then
              ArgumentParser.parseLongOption (substrFrom arg 2) c.options
            else ArgumentParser.parseShortOptions (substrFrom arg 1) c.options).2 = true := by
          rintro (hr | rfl)
          · split_ifs
            · exact hlong _ _ hr
            · exact parseShortLoop_flag f hshort _ _ _ hr
          · exact hset c.options
        generalize (if (decide (arg.length > 2) && substr arg 0 2 == bytes "--") = true then
              ArgumentParser.parseLongOption (substrFrom arg 2) c.options
            else ArgumentParser.parseShortOptions (substrFrom arg 1) c.options) = r at key ⊢
        split_ifs with h4 h5
        · intro hcontra; cases hcontra
        · intro hne hmem
          refine ih po { result with show_help := true } _ hne ?_
          rcases hmem with hr | hmem
          · exact Or.inl (key (Or.inl hr))
          · rcases List.mem_cons.mp hmem with heq | hmem
            · exact Or.inl (key (Or.inr heq))
            · exact Or.inr hmem
        · intro hne hmem
          refine ih po result _ hne ?_
          rcases hmem with hr | hmem
          · exact Or.inl (key (Or.inl hr))
          · rcases List.mem_cons.mp hmem with heq | hmem
            · exact Or.inl (key (Or.inr heq))
            · exact Or.inr hmem
    · simp only [Bool.not_eq_true] at hopt
      have hopt2 : (po && decide (arg.length > 1) && arg.getD 0 0 == '-'.toNat) = false := hopt
      have e3 : optionArgs (arg :: rest) po = optionArgs rest po := by
        simp only [optionArgs, hopt, Bool.false_eq_true, if_false]
      rw [e3]
      simp only [ArgumentParser.parseArgs]
      rw [hopt2]
      simp only [Bool.false_eq_true, if_false]
      split_ifs
      · exact ih po result _
      · exact ih po result _
      · exact ih po result _
      · intro hcontra; cases hcontra

theorem parse_count_line_warning (args : List Str)
    (hs : (ArgumentParser.parse args {}).1.success = true)
    (hc : bytes "--count" ∈ optionArgs args true)
    (hl : bytes "--line-number" ∈ optionArgs args true) :
    ArgumentParser.parseWarning args {} =
      bytes "Warning: conflicting options: --line-number, --count\n" := by
  have he : (ArgumentParser.parseArgs args true { success := true } {}).1 = false := by
    cases h : (ArgumentParser.parseArgs args true { success := true } {}).1 with
    | false => rfl
    | true =>
      have h1 := parseArgs_early args true { success := true } {} h
      unfold ArgumentParser.parse at hs
      simp only [h, if_true] at hs
      rw [h1] at hs
      cases hs
  have hcount := parseArgs_flag (fun o => o.count) (bytes "--count") parseLongOption_count
    applyShort_count (fun _ => rfl) args true { success := true } {} he (Or.inr hc)
  have hline := parseArgs_flag (fun o => o.line_numbers) (bytes "--line-number")
    parseLongOption_line_numbers applyShort_line_numbers (fun _ => rfl) args true
    { success := true } {} he (Or.inr hl)
  simp only at hcount hline
  have hnc : ((ArgumentParser.parseArgs args true { success := true } {}).2.2.options.remove &&
      (ArgumentParser.parseArgs args true { success := true } {}).2.2.hasReplaceString)
      = false := by
    cases hx : ((ArgumentParser.parseArgs args true { success := true } {}).2.2.options.remove &&
      (ArgumentParser.parseArgs args true { success := true } {}).2.2.hasReplaceString) with
    | false => rfl
    | true =>
      unfold ArgumentParser.parse at hs
      simp only [he, hx, Bool.false_eq_true, if_false, if_true] at hs
  unfold ArgumentParser.parseWarning
  simp only [he, hnc, hcount, hline, Bool.false_eq_true, if_false, Bool.and_self, if_true]

theorem optionArgs_withoutCountLine : ∀ (args : List Str) (po : Bool),
    optionArgs (withoutCountLine args po) po
      = (optionArgs args po).filter
          (fun a => !(a == bytes "--count" || a == bytes "--line-number")) ∧
    positionalArgs (withoutCountLine args po) po = positionalArgs args po := by
  intro args
  induction args with
  | nil => intro po; exact ⟨rfl, rfl⟩
  | cons arg rest ih =>
    intro po
    by_cases hopt : readsAsOption po arg = true
    · by_cases hdd : (arg == bytes "--") = true
      · simp only [withoutCountLine, optionArgs, positionalArgs, hopt, hdd, if_true]
        exact ih false
      · by_cases hcl : (arg == bytes "--count" || arg == bytes "--line-number") = true
        · simp only [withoutCountLine, optionArgs, positionalArgs, hopt, hdd, hcl, if_true,
            Bool.false_eq_true, if_false, List.filter_cons, Bool.not_true]
          exact ih po
        · simp only [withoutCountLine, optionArgs, positionalArgs, hopt, hdd, hcl, if_true,
            Bool.false_eq_true, if_false, List.filter_cons, Bool.not_false]
          simp only [Bool.not_eq_true] at hcl
          simp only [hcl, Bool.not_false, if_true, (ih po).1, (ih po).2, and_self]
    · simp only [Bool.not_eq_true] at hopt
      simp only [withoutCountLine, optionArgs, positionalArgs, hopt, Bool.false_eq_true, if_false,
        (ih po).1, (ih po).2, and_self]

/-- C29: on every command line that gives `--remove` among its options and at
least three non-empty positional arguments (so that a replace string is set),
`ArgumentParser::parse` returns `success = false` with a non-empty error
message, and `FartApplication::run` returns -1 having only printed the usage
or the error: the state it leaves does not depend on the platform, the file
system is the one it started on, and no statistic is counted and no file or
directory was dispatched. By contrast `--count` with `--line-number` is not
fatal: on every command line, `parse` returns the same result (success, help
and message) as on the command line without these two options, and the same
configuration but for their two flags; and when the command line without them
parses with `success = true` and both are given, `success` is `true` and the
warning is written to `std::cerr`. -/
theorem C29_remove_conflict_fatal (args : List Str)
    (hr : bytes "--remove" ∈ optionArgs args true)
    (hp : 3 ≤ positionalCount args true) :
    ((ArgumentParser.parse args {}).1.success = false ∧
      (ArgumentParser.parse args {}).1.error_message ≠ []) ∧
    (∀ (σ : Type) (P : Platform σ) (depth : Nat) (fs : σ) (cin : Str),
      FartApplication.run P depth args fs cin =
          some (-1, { fs := fs, cin := cin, cout := ArgumentParser.showUsage }) ∨
      FartApplication.run P depth args fs cin =
          some (-1, { fs := fs, cin := cin,
                      cerr := bytes "Error: " ++ (ArgumentParser.parse args {}).1.error_message
                        ++ bytes "\n" })) ∧
    (∀ args2 : List Str,
      (ArgumentParser.parse args2 {}).1
        = (ArgumentParser.parse (withoutCountLine args2 true) {}).1 ∧
      clearCountLine (ArgumentParser.parse args2 {}).2
        = clearCountLine (ArgumentParser.parse (withoutCountLine args2 true) {}).2 ∧
      optionArgs (withoutCountLine args2 true) true
        = (optionArgs args2 true).filter
            (fun a => !(a == bytes "--count" || a == bytes "--line-number")) ∧
      positionalArgs (withoutCountLine args2 true) true = positionalArgs args2 true) ∧
    (∀ args2 : List Str,
      (ArgumentParser.parse (withoutCountLine args2 true) {}).1.success = true →
      bytes "--count" ∈ optionArgs args2 true →
      bytes "--line-number" ∈ optionArgs args2 true →
      (ArgumentParser.parse args2 {}).1.success = true ∧
      ArgumentParser.parseWarning args2 {} =
        bytes "Warning: conflicting options: --line-number, --count\n") := by
  obtain ⟨hs, hm, hw⟩ := parse_conflict args hr hp
  refine ⟨⟨hs, hm⟩, ?_, ?_, ?_⟩
  · intro σ P depth fs cin
    unfold FartApplication.run
    simp only [hs, hw, Bool.false_eq_true, if_false, Bool.not_false, if_true]
    cases hh : (ArgumentParser.parse args {}).1.show_help with
    | true => left; rfl
    | false => right; rfl
  · intro args2
    exact ⟨(parse_agree args2).1, (parse_agree args2).2,
      (optionArgs_withoutCountLine args2 true).1, (optionArgs_withoutCountLine args2 true).2⟩
  · intro args2 hs2 hc hl
    have hs3 : (ArgumentParser.parse args2 {}).1.success = true := by
      rw [(parse_agree args2).1]
      exact hs2
    exact ⟨hs3, parse_count_line_warning args2 hs3 hc hl⟩

/-- Witness of C29: `fart --count src foo --remove bar` fails with the message
of the conflict and `run` returns -1 with only the error on `std::cerr`, on the
example tree left as it was; `fart --count --line-number src foo`, which
without the two options is `fart src foo`, and `fart -cn src foo` parse with
`success = true` and the warning. -/
theorem C29_witness :
    bytes "--remove" ∈ optionArgs removeConflictArgs true ∧
    3 ≤ positionalCount removeConflictArgs true ∧
    (ArgumentParser.parse removeConflictArgs {}).1.error_message =
      bytes "Option --remove conflicts with replace_string" ∧
    FartApplication.run memPlatform 8 removeConflictArgs exampleTree [] =
      some (-1, { fs := exampleTree,
                  cerr := bytes "Error: Option --remove conflicts with replace_string\n" }) ∧
    withoutCountLine countLineLongArgs true = [bytes "src", bytes "foo"] ∧
    (ArgumentParser.parse countLineLongArgs {}).1 = { success := true } ∧
    ArgumentParser.parseWarning countLineLongArgs {} =
      bytes "Warning: conflicting options: --line-number, --count\n" ∧
    (ArgumentParser.parse countLineArgs {}).1.success = true ∧
    ArgumentParser.parseWarning countLineArgs {} =
      bytes "Warning: conflicting options: --line-number, --count\n" ∧
    (((ArgumentParser.parse removeConflictArgs {}).1.success = false ∧
      (ArgumentParser.parse removeConflictArgs {}).1.error_message ≠ []) ∧
    (∀ (σ : Type) (P : Platform σ) (depth : Nat) (fs : σ) (cin : Str),
      FartApplication.run P depth removeConflictArgs fs cin =
          some (-1, { fs := fs, cin := cin, cout := ArgumentParser.showUsage }) ∨
      FartApplication.run P depth removeConflictArgs fs cin =
          some (-1, { fs := fs, cin := cin,
                      cerr := bytes "Error: " ++
                        (ArgumentParser.parse removeConflictArgs {}).1.error_message
                        ++ bytes "\n" })) ∧
    (∀ args2 : List Str,
      (ArgumentParser.parse args2 {}).1
        = (ArgumentParser.parse (withoutCountLine args2 true) {}).1 ∧
      clearCountLine (ArgumentParser.parse args2 {}).2
        = clearCountLine (ArgumentParser.parse (withoutCountLine args2 true) {}).2 ∧
      optionArgs (withoutCountLine args2 true) true
        = (optionArgs args2 true).filter
            (fun a => !(a == bytes "--count" || a == bytes "--line-number")) ∧
      positionalArgs (withoutCountLine args2 true) true = positionalArgs args2 true) ∧
    (∀ args2 : List Str,
      (ArgumentParser.parse (withoutCountLine args2 true) {}).1.success = true →
      bytes "--count" ∈ optionArgs args2 true →
      bytes "--line-number" ∈ optionArgs args2 true →
      (ArgumentParser.parse args2 {}).1.success = true ∧
      ArgumentParser.parseWarning args2 {} =
        bytes "Warning: conflicting options: --line-number, --count\n")) :=
  ⟨by decide, by decide, by decide, by rfl, by decide, by decide, by decide, by decide, by decide,
    C29_remove_conflict_fatal removeConflictArgs (by decide) (by decide)⟩

/-! ## Empty files -/

/-- C31: a file that exists and from which zero bytes are read is classified
binary (the test `non_ascii_count * 20 >= bytes_read` is `0 >= 0`), and with
the binary option off `processFile` returns a success with no match for it and
does nothing else than write the notice to `std::cerr` when verbose is set:
the file system, the statistics and the output are as before, and nothing is
renamed, in file-name mode as well. -/
theorem C31_empty_file_is_binary {σ : Type} (P : Platform σ) (fp : FileProcessor)
    (file_path : Str) (s : Run σ)
    (hex : P.pathExists s.fs file_path = true)
    (hread : P.ifstream_read s.fs file_path = some [])
    (hb : fp.config.options.binary = false) :
    isBinarySample [] = true ∧
    isBinaryFile P s.fs file_path = true ∧
    processFile P fp file_path s
      = ({ success := true, matches_found := 0, error_message := [] },
         if fp.config.options.verbose then
           { s with cerr := s.cerr ++ bytes "Skipping binary file: " ++ Path.quoted file_path
                             ++ bytes "\n" }
         else s) ∧
    (processFile P fp file_path s).2.fs = s.fs ∧
    (processFile P fp file_path s).2.stats = s.stats ∧
    (processFile P fp file_path s).2.cout = s.cout ∧
    (processFile P fp file_path s).2.trace = s.trace := by
  have hbin : isBinaryFile P s.fs file_path = true := by
    simp only [isBinaryFile, hread]
    rfl
  have hpf : processFile P fp file_path s
      = ({ success := true, matches_found := 0, error_message := [] },
         if fp.config.options.verbose then
           { s with cerr := s.cerr ++ bytes "Skipping binary file: " ++ Path.quoted file_path
                             ++ bytes "\n" }
         else s) := by
    unfold processFile
    simp only [hex, hb, hbin, Bool.not_true, Bool.not_false, Bool.false_eq_true, if_false,
      Bool.and_self, if_true]
  refine ⟨rfl, hbin, hpf, ?_, ?_, ?_, ?_⟩ <;>
    (rw [hpf]; split_ifs <;> rfl)

/-- Witness of C31: the empty file `src/a.txt` in file-name mode, replacing "a"
by "b": nothing is renamed and nothing counted, whereas the same file with
content is renamed to `src/b.txt`. -/
theorem C31_witness :
    (renameConfig false).options.filename_mode = true ∧
    processFile memPlatform (FileProcessor.new (renameConfig false)) (bytes "src/a.txt")
        { fs := emptyFileTree } = ({ success := true }, { fs := emptyFileTree }) ∧
    (processFile memPlatform (FileProcessor.new (renameConfig false)) (bytes "src/a.txt")
        { fs := exampleTree }).2.cout = bytes "src/a.txt => b.txt\n" ∧
    (isBinarySample [] = true ∧
    isBinaryFile memPlatform ({ fs := emptyFileTree } : Run MemFS).fs (bytes "src/a.txt") = true ∧
    processFile memPlatform (FileProcessor.new (renameConfig false)) (bytes "src/a.txt")
        { fs := emptyFileTree }
      = ({ success := true, matches_found := 0, error_message := [] },
         if (FileProcessor.new (renameConfig false)).config.options.verbose then
           { ({ fs := emptyFileTree } : Run MemFS) with
             cerr := ({ fs := emptyFileTree } : Run MemFS).cerr ++ bytes "Skipping binary file: "
               ++ Path.quoted (bytes "src/a.txt") ++ bytes "\n" }
         else { fs := emptyFileTree }) ∧
    (processFile memPlatform (FileProcessor.new (renameConfig false)) (bytes "src/a.txt")
        { fs := emptyFileTree }).2.fs = ({ fs := emptyFileTree } : Run MemFS).fs ∧
    (processFile memPlatform (FileProcessor.new (renameConfig false)) (bytes "src/a.txt")
        { fs := emptyFileTree }).2.stats = ({ fs := emptyFileTree } : Run MemFS).stats ∧
    (processFile memPlatform (FileProcessor.new (renameConfig false)) (bytes "src/a.txt")
        { fs := emptyFileTree }).2.cout = ({ fs := emptyFileTree } : Run MemFS).cout ∧
    (processFile memPlatform (FileProcessor.new (renameConfig false)) (bytes "src/a.txt")
        { fs := emptyFileTree }).2.trace = ({ fs := emptyFileTree } : Run MemFS).trace) :=
  ⟨by decide, by rfl, by decide,
   C31_empty_file_is_binary memPlatform (FileProcessor.new (renameConfig false))
     (bytes "src/a.txt") { fs := emptyFileTree } (by decide) (by decide) (by decide)⟩


/-! ## Runs without find string -/

theorem find_string_of_isFindMode (c : FartConfig) (h : c.isFindMode = true) :
    c.find_string = [] := by
  simp only [FartConfig.isFindMode, FartConfig.hasFindString, Bool.and_eq_true,
    Bool.not_eq_true', Bool.not_eq_false'] at h
  cases hf : c.find_string with
  | nil => rfl
  | cons a rest => rw [hf] at h; simp at h

theorem processLine_of_isFindMode (fp : FileProcessor)
    (htp : fp.text_processor = TextProcessor.new fp.config)
    (hfind : fp.config.isFindMode = true) (line : Str) :
    processLine fp.text_processor line = (line, 0) := by
  have hP : fp.text_processor.find_string_normalized = [] := by
    rw [htp]
    exact find_string_normalized_of_empty _ (find_string_of_isFindMode _ hfind)
  have hf : findMatches fp.text_processor line = [] := by
    unfold findMatches
    simp [hP]
  unfold processLine
  simp only [countMatches, hf, List.length_nil, List.isEmpty_nil, if_true, ite_self]

theorem replaceLoop_of_isFindMode (fp : FileProcessor)
    (hline : ∀ line, processLine fp.text_processor line = (line, 0)) :
    ∀ (lines : List Str) (st : ReplaceLoop),
      (lines.foldl (replaceInFileStep fp) st).file_changed = st.file_changed ∧
      (lines.foldl (replaceInFileStep fp) st).matches_found = st.matches_found ∧
      (lines.foldl (replaceInFileStep fp) st).cout = st.cout := by
  intro lines
  induction lines with
  | nil => intro st; exact ⟨rfl, rfl, rfl⟩
  | cons l rest ih =>
    intro st
    simp only [List.foldl_cons]
    obtain ⟨h1, h2, h3⟩ := ih (replaceInFileStep fp st l)
    rw [h1, h2, h3]
    simp [replaceInFileStep, hline]

theorem replaceInFile_of_isFindMode {σ : Type} (P : Platform σ) (fp : FileProcessor)
    (hline : ∀ line, processLine fp.text_processor line = (line, 0))
    (file_path : Str) (s : Run σ) :
    (replaceInFile P fp file_path s).2 = s ∧
    (replaceInFile P fp file_path s).1.matches_found = 0 ∧
    (∀ content, P.ifstream_read s.fs file_path = some content →
      replaceInFile P fp file_path s = ({ success := true }, s)) := by
  unfold replaceInFile readFile
  cases hr : P.ifstream_read s.fs file_path with
  | none => exact ⟨rfl, rfl, fun _ h => by cases h⟩
  | some content =>
    obtain ⟨h1, h2, h3⟩ := replaceLoop_of_isFindMode fp hline (getlines 10 content)
      { cout := s.cout }
    simp only [h1, h2, h3, Bool.false_eq_true, if_false]
    refine ⟨trivial, trivial, ?_⟩
    intros
    trivial

theorem updateProgress_frame {σ : Type} (fp : FileProcessor) (message : Str) (s : Run σ) :
    (updateProgress fp message s).fs = s.fs ∧ (updateProgress fp message s).stats = s.stats ∧
    (updateProgress fp message s).cout = s.cout := by
  unfold updateProgress
  split <;> exact ⟨rfl, rfl, rfl⟩

theorem processFile_of_isFindMode {σ : Type} (P : Platform σ) (fp : FileProcessor)
    (htp : fp.text_processor = TextProcessor.new fp.config)
    (hfind : fp.config.isFindMode = true) (file_path : Str) (s : Run σ) :
    (processFile P fp file_path s).1.matches_found = 0 ∧
    (processFile P fp file_path s).2.fs = s.fs ∧
    (processFile P fp file_path s).2.stats = s.stats ∧
    (processFile P fp file_path s).2.cout = s.cout := by
  have hline := processLine_of_isFindMode fp htp hfind
  have hgrep : fp.config.isGrepMode = false := by
    have := find_string_of_isFindMode _ hfind
    simp [FartConfig.isGrepMode, FartConfig.hasFindString, this]
  obtain ⟨u1, u2, u3⟩ := updateProgress_frame fp file_path s
  unfold processFile
  split_ifs with h1 h2 h3 h4
  · exact ⟨rfl, rfl, rfl, rfl⟩
  · exact ⟨rfl, rfl, rfl, rfl⟩
  · exact ⟨rfl, rfl, rfl, rfl⟩
  · have e : processFileName P fp file_path (updateProgress fp file_path s)
        = ({ success := true }, updateProgress fp file_path s) := by
      unfold processFileName
      simp [hline]
    rw [e]
    exact ⟨rfl, u1, u2, u3⟩
  · have e := replaceInFile_of_isFindMode P fp hline file_path (updateProgress fp file_path s)
    simp only [processFileContents, hgrep, Bool.false_eq_true, if_false]
    rw [e.1]
    exact ⟨e.2.1, u1, u2, u3⟩

theorem accumulate_matches (total result : ProcessResult) (h : result.matches_found = 0) :
    (accumulate total result).matches_found = total.matches_found := by
  unfold accumulate
  split_ifs <;> simp [h]

theorem processEntries_of_isFindMode {σ : Type} (P : Platform σ) (fp : FileProcessor)
    (htp : fp.text_processor = TextProcessor.new fp.config)
    (hfind : fp.config.isFindMode = true)
    (recurse : Str → Run σ → Option (ProcessResult × Run σ))
    (dir_path pattern : Str) (recursive : Bool)
    (hrec : ∀ p s r, recurse p s = some r →
      r.1.matches_found = 0 ∧ r.2.fs = s.fs ∧ r.2.stats = s.stats ∧ r.2.cout = s.cout) :
    ∀ (entries : List DirEntry) (total : ProcessResult) (s : Run σ) (r : ProcessResult × Run σ),
      processEntries P fp recurse dir_path pattern recursive entries total s = some r →
      r.1.matches_found = total.matches_found ∧ r.2.fs = s.fs ∧ r.2.stats = s.stats ∧
        r.2.cout = s.cout := by
  intro entries
  induction entries with
  | nil =>
    intro total s r h
    simp only [processEntries, Option.some.injEq] at h
    subst h
    exact ⟨rfl, rfl, rfl, rfl⟩
  | cons entry rest ih =>
    intro total s r h
    simp only [processEntries] at h
    split_ifs at h with h1 h2 h3 h4
    · obtain ⟨a1, a2, a3, a4⟩ := ih _ _ r h
      obtain ⟨b1, b2, b3, b4⟩ := processFile_of_isFindMode P fp htp hfind entry.path
        { s with trace := s.trace ++ [Event.dispatch dir_path entry.path] }
      exact ⟨by rw [a1, accumulate_matches _ _ b1], by rw [a2, b2], by rw [a3, b3],
        by rw [a4, b4]⟩
    · exact ih _ _ r h
    · split at h
      · cases h
      · rename_i r1 hr1
        obtain ⟨a1, a2, a3, a4⟩ := ih _ _ r h
        obtain ⟨b1, b2, b3, b4⟩ := hrec _ _ _ hr1
        exact ⟨by rw [a1, accumulate_matches _ _ b1], by rw [a2, b2], by rw [a3, b3],
          by rw [a4, b4]⟩
    · exact ih _ _ r h
    · exact ih _ _ r h

theorem processDirectory_of_isFindMode {σ : Type} (P : Platform σ) (fp : FileProcessor)
    (htp : fp.text_processor = TextProcessor.new fp.config)
    (hfind : fp.config.isFindMode = true) :
    ∀ (depth : Nat) (dir_path pattern : Str) (recursive : Bool) (s : Run σ)
      (r : ProcessResult × Run σ),
      processDirectory P fp depth dir_path pattern recursive s = some r →
      r.1.matches_found = 0 ∧ r.2.fs = s.fs ∧ r.2.stats = s.stats ∧ r.2.cout = s.cout := by
  intro depth
  induction depth with
  | zero => intro dir_path pattern recursive s r h; cases h
  | succ depth ih =>
    intro dir_path pattern recursive s r h
    simp only [processDirectory] at h
    split_ifs at h with h1
    · simp only [Option.some.injEq] at h
      subst h
      exact ⟨rfl, rfl, rfl, rfl⟩
    · split at h
      · cases h
      · rename_i r1 hr1
        have hw := processEntries_of_isFindMode P fp htp hfind _ dir_path pattern recursive
          (fun p s r hr => ih p pattern recursive s r hr) _ _ _ _ hr1
        split at h <;>
          (simp only [Option.some.injEq] at h; subst h; exact hw)

theorem processWildcardList_of_isFindMode {σ : Type} (P : Platform σ) (fp : FileProcessor)
    (htp : fp.text_processor = TextProcessor.new fp.config)
    (hfind : fp.config.isFindMode = true) (depth : Nat) :
    ∀ (ws : List Str) (total : ProcessResult) (s : Run σ) (r : ProcessResult × Run σ),
      processWildcardList P fp depth ws total s = some r →
      r.1.matches_found = total.matches_found ∧ r.2.fs = s.fs ∧ r.2.stats = s.stats ∧
        r.2.cout = s.cout := by
  intro ws
  induction ws with
  | nil =>
    intro total s r h
    simp only [processWildcardList, Option.some.injEq] at h
    subst h
    exact ⟨rfl, rfl, rfl, rfl⟩
  | cons w rest ih =>
    intro total s r h
    simp only [processWildcardList] at h
    split at h
    · cases h
    · rename_i r1 hr1
      obtain ⟨a1, a2, a3, a4⟩ := ih _ _ r h
      have hb : r1.1.matches_found = 0 ∧ r1.2.fs = s.fs ∧ r1.2.stats = s.stats ∧
          r1.2.cout = s.cout := by
        unfold processWildcard at hr1
        simp only at hr1
        split_ifs at hr1 <;>
          first
            | exact processDirectory_of_isFindMode P fp htp hfind _ _ _ _ _ _ hr1
            | (simp only [Option.some.injEq] at hr1
               subst hr1
               exact processFile_of_isFindMode P fp htp hfind _ _)
      obtain ⟨b1, b2, b3, b4⟩ := hb
      exact ⟨by rw [a1, accumulate_matches _ _ b1], by rw [a2, b2], by rw [a3, b3],
        by rw [a4, b4]⟩

/-- C32: with no find string (`isFindMode`) `processFile` sends the contents
of a file to `replaceInFile`, which on every readable file finds no match and
returns a success leaving everything as it was: the file is not written, no
backup is made and `total_files` is not counted. A run of `processWildcards`
then reports no match and leaves the file system, the statistics and the
output as they were, so that fresh statistics still read `total_files = 0` and
`total_matches = 0`, whatever the selector matched. -/
theorem C32_find_mode_read_only {σ : Type} (P : Platform σ) (fp : FileProcessor)
    (htp : fp.text_processor = TextProcessor.new fp.config)
    (hfind : fp.config.isFindMode = true) :
    (∀ (file_path : Str) (s : Run σ),
      processFileContents P fp file_path s = replaceInFile P fp file_path s) ∧
    (∀ (file_path content : Str) (s : Run σ), P.ifstream_read s.fs file_path = some content →
      replaceInFile P fp file_path s
        = ({ success := true, matches_found := 0, error_message := [] }, s)) ∧
    (∀ (depth : Nat) (wildcards : Str) (s : Run σ) (r : ProcessResult × Run σ),
      processWildcards P fp depth wildcards s = some r →
      r.1.matches_found = 0 ∧ r.2.fs = s.fs ∧ r.2.stats = s.stats ∧ r.2.cout = s.cout ∧
      (s.stats = {} → r.2.stats.total_files = 0 ∧ r.2.stats.total_matches = 0)) := by
  have hline := processLine_of_isFindMode fp htp hfind
  refine ⟨?_, ?_, ?_⟩
  · intro file_path s
    have hgrep : fp.config.isGrepMode = false := by
      have := find_string_of_isFindMode _ hfind
      simp [FartConfig.isGrepMode, FartConfig.hasFindString, this]
    simp only [processFileContents, hgrep, Bool.false_eq_true, if_false]
  · intro file_path content s hread
    exact (replaceInFile_of_isFindMode P fp hline file_path s).2.2 content hread
  · intro depth wildcards s r h
    obtain ⟨h1, h2, h3, h4⟩ :=
      processWildcardList_of_isFindMode P fp htp hfind depth _ _ s r h
    refine ⟨h1, h2, h3, h4, fun hs => ?_⟩
    rw [h3, hs]
    exact ⟨rfl, rfl⟩

/-- Witness of C32: `fart -r src` on the example tree: the three files of the
walk are read and none is counted; the driver prints "Found 0 file(s)." and
returns 0, and the tree is as before. -/
theorem C32_witness :
    (FileProcessor.new findSrcConfig).config.isFindMode = true ∧
    (processWildcards memPlatform (FileProcessor.new findSrcConfig) 3 (bytes "src")
        { fs := exampleTree }).map (fun r => (r.1, r.2.fs, r.2.stats, r.2.trace))
      = some ({ success := true }, exampleTree, { total_files := 0, total_matches := 0 },
          exampleWalk) ∧
    (FartApplication.run memPlatform 3 [bytes "-r", bytes "src"] exampleTree []).map
        (fun r => (r.1, r.2.cout, r.2.fs))
      = some (0, bytes "Found 0 file(s).\n", exampleTree) ∧
    ((∀ (file_path : Str) (s : Run MemFS),
      processFileContents memPlatform (FileProcessor.new findSrcConfig) file_path s
        = replaceInFile memPlatform (FileProcessor.new findSrcConfig) file_path s) ∧
    (∀ (file_path content : Str) (s : Run MemFS),
      memPlatform.ifstream_read s.fs file_path = some content →
      replaceInFile memPlatform (FileProcessor.new findSrcConfig) file_path s
        = ({ success := true, matches_found := 0, error_message := [] }, s)) ∧
    (∀ (depth : Nat) (wildcards : Str) (s : Run MemFS) (r : ProcessResult × Run MemFS),
      processWildcards memPlatform (FileProcessor.new findSrcConfig) depth wildcards s = some r →
      r.1.matches_found = 0 ∧ r.2.fs = s.fs ∧ r.2.stats = s.stats ∧ r.2.cout = s.cout ∧
      (s.stats = {} → r.2.stats.total_files = 0 ∧ r.2.stats.total_matches = 0))) :=
  ⟨by decide, by decide, by decide,
   C32_find_mode_read_only memPlatform (FileProcessor.new findSrcConfig) (by rfl) (by decide)⟩

end FartIt
